import Mathlib

/-!
# SteerLite: GJK / EPA narrow-phase collision test, the grid planner and curves

A shallow embedding of `steerlib/src/GJK_EPA.cpp`, `steerlib/src/AStarPlanner.cpp` and
`steerlib/src/Curve.cpp`.

* Scalars: the C++ `float` is idealised as an arbitrary linearly ordered field `K`
  (instantiate with `ℚ` to run the definitions, with `ℝ` for exact square roots).
* `sqrt` from `<math.h>` is not part of the repository; every function that calls it
  takes it as the parameter `sqrt : K → K`.
* `std::vector<Util::Vector>` is a `List`; `.at(i)` out of range is the fault `outOfRange`.
* The two `while` loops have no iteration cap; they are modelled with a fuel argument
  and the fault `outOfFuel`.  The same holds for the search loop of the planner.
* `SteerLib::GridDatabase2D`, `Util::Point` and `distanceBetween` are not part of the
  repository; the planner takes a database record, a point type and a distance function
  as parameters.  A `SearchNodePtr` is the node it points to: the planner only writes to
  nodes of the open set, which no other node points to.
* `util/Curve.h` is not part of the repository; a curve is the record of the two data
  members that `Curve.cpp` uses, the constants `hermiteCurve` and `catmullCurve` are
  parameters, and so is `std::sort`.  `unsigned int` arithmetic wraps modulo `2^32`,
  `size_t` arithmetic modulo `2^64`.  The drawing code of `Curve.cpp` is left out.
-/

namespace Util

/-- Modelled from the spec: `Util::Vector` (declared in `util/Geometry.h`, absent from
the sources) is a triple of real-valued coordinates supporting addition, subtraction,
negation, scalar scaling and dot product.  `operator==`, which `std::find` uses, is
equality of the three coordinates. -/
structure Vector (K : Type) where
  x : K
  y : K
  z : K
deriving DecidableEq

variable {K : Type} [LinearOrderedField K]

instance : Zero (Vector K) := ⟨⟨0, 0, 0⟩⟩

instance : Add (Vector K) := ⟨fun a b => ⟨a.x + b.x, a.y + b.y, a.z + b.z⟩⟩

instance : Sub (Vector K) := ⟨fun a b => ⟨a.x - b.x, a.y - b.y, a.z - b.z⟩⟩

instance : Neg (Vector K) := ⟨fun a => ⟨-a.x, -a.y, -a.z⟩⟩

/-- The dot product `Util::dot`. -/
def dot (a b : Vector K) : K := a.x * b.x + a.y * b.y + a.z * b.z

/-- Scaling `v * c` of `Util::Vector`. -/
def scale (v : Vector K) (c : K) : Vector K := ⟨v.x * c, v.y * c, v.z * c⟩

end Util

namespace SteerLib

open Util

/-- The ways a call can fail to return a value. -/
inductive Fault where
  | outOfRange
  | undefinedBehaviour
  | outOfFuel
deriving DecidableEq

namespace GJK_EPA

variable {K : Type} [LinearOrderedField K]

/-- The in-plane quarter turn written out three times in the source:
`n.x = -e.z; n.y = 0; n.z = e.x`. -/
def perp (e : Vector K) : Vector K := ⟨-e.z, 0, e.x⟩

/-- The record `GJK_EPA::Edge`. -/
structure Edge (K : Type) where
  distance : K
  index : Nat
  normal : Vector K
deriving DecidableEq

/-- The `for` loop of `getFarthestPointInDirection`, started at index `i` on the
vertices not yet visited, carrying `maxIndex` and `max`. -/
def farthestScan (direction : Vector K) : List (Vector K) → Nat → Nat → K → Nat
  | [], _, maxIndex, _ => maxIndex
  | v :: rest, i, maxIndex, max =>
    if dot v direction > max then farthestScan direction rest (i + 1) i (dot v direction)
    else farthestScan direction rest (i + 1) maxIndex max

/-- `GJK_EPA::getFarthestPointInDirection`: `_shape.at(0)` throws on an empty shape. -/
def getFarthestPointInDirection (_shape : List (Vector K)) (direction : Vector K) :
    Except Fault (Vector K) :=
  match _shape with
  | [] => .error .outOfRange
  | v0 :: rest =>
    match _shape.get? (farthestScan direction rest 1 0 (dot v0 direction)) with
    | some v => .ok v
    | none => .error .outOfRange

/-- `GJK_EPA::support`. -/
def support (_shapeA _shapeB : List (Vector K)) (direction : Vector K) :
    Except Fault (Vector K) :=
  match getFarthestPointInDirection _shapeA direction with
  | .error f => .error f
  | .ok point1 =>
    match getFarthestPointInDirection _shapeB (-direction) with
    | .error f => .error f
    | .ok point2 => .ok (point1 - point2)

/-- `GJK_EPA::doContainsOrigin`: the result is the returned flag together with the
simplex and the direction as the call leaves them (both are passed by reference).
`simplex.back()` on an empty simplex is undefined behaviour. -/
def doContainsOrigin (simplex : List (Vector K)) (direction : Vector K) :
    Except Fault (Bool × List (Vector K) × Vector K) :=
  match simplex.getLast? with
  | none => .error .undefinedBehaviour
  | some a =>
    let ao : Vector K := -a
    if simplex.length = 3 then
      let c := simplex.getD 1 0
      let b := simplex.getD 0 0
      let ac := c - a
      let ab := b - a
      let abPerp0 := perp ab
      let abPerp := if dot abPerp0 c ≥ 0 then -abPerp0 else abPerp0
      if dot abPerp ao > 0 then
        .ok (false, simplex.erase c, abPerp)
      else
        let acPerp0 := perp ac
        let acPerp := if dot acPerp0 b ≥ 0 then -acPerp0 else acPerp0
        if dot acPerp ao ≤ 0 then
          .ok (true, simplex, direction)
        else
          .ok (false, simplex.erase b, acPerp)
    else if simplex.length = 2 then
      let b := simplex.getD 0 0
      let ab := b - a
      let abPerp0 := perp ab
      let abPerp := if dot abPerp0 ao < 0 then -abPerp0 else abPerp0
      .ok (false, simplex, abPerp)
    else
      .ok (false, simplex, direction)

/-- The `while (true)` loop of `GJK`, one iteration per unit of fuel.  On `false` the
caller's `_simplex` is handed back untouched. -/
def GJKLoop (_shapeA _shapeB : List (Vector K)) (_simplex : List (Vector K)) :
    Nat → List (Vector K) → Vector K → Except Fault (Bool × List (Vector K))
  | 0, _, _ => .error .outOfFuel
  | fuel + 1, simplex, direction =>
    match support _shapeA _shapeB direction with
    | .error f => .error f
    | .ok p =>
      let simplex1 := simplex ++ [p]
      if dot p direction < 0 then
        .ok (false, _simplex)
      else
        match doContainsOrigin simplex1 direction with
        | .error f => .error f
        | .ok (true, simplex2, _) => .ok (true, simplex2)
        | .ok (false, simplex2, direction2) =>
          GJKLoop _shapeA _shapeB _simplex fuel simplex2 direction2

/-- `GJK_EPA::GJK`: the flag and the value of the out-parameter `_simplex`. -/
def GJK (fuel : Nat) (_shapeA _shapeB : List (Vector K)) (_simplex : List (Vector K)) :
    Except Fault (Bool × List (Vector K)) :=
  let direction : Vector K := ⟨1, 0, 1⟩
  match support _shapeA _shapeB direction with
  | .error f => .error f
  | .ok p => GJKLoop _shapeA _shapeB _simplex fuel [p] (-direction)

/-- One pass of the `for` loop of `findClosestEdge` at index `i`; `closedEdge` is `none`
while it still holds `FLT_MAX` and no index.

When the edge has zero length the source computes `n * (1 / sqrt(0))`, which in IEEE
arithmetic is `0 * inf = NaN`; then `d` is NaN, `d < closedEdge.distance` is false, and
the edge is skipped.  That is the first branch. -/
def closestEdgeStep (sqrt : K → K) (simplex : List (Vector K)) (i : Nat)
    (closedEdge : Option (Edge K)) : Option (Edge K) :=
  let j := if i + 1 = simplex.length then 0 else i + 1
  let a := simplex.getD i 0
  let b := simplex.getD j 0
  let e := b - a
  let n0 := perp e
  let d0 := dot n0 (-a)
  let n1 := if d0 ≥ 0 then -n0 else n0
  if dot n1 n1 = 0 then closedEdge
  else
    let n := scale n1 (1 / sqrt (dot n1 n1))
    let d := dot a n
    match closedEdge with
    | none => some ⟨d, j, n⟩
    | some best => if d < best.distance then some ⟨d, j, n⟩ else some best

/-- The `for` loop of `findClosestEdge`: `k` passes starting at index `i`. -/
def closestEdgeLoop (sqrt : K → K) (simplex : List (Vector K)) :
    Nat → Nat → Option (Edge K) → Option (Edge K)
  | 0, _, closedEdge => closedEdge
  | k + 1, i, closedEdge =>
    closestEdgeLoop sqrt simplex k (i + 1) (closestEdgeStep sqrt simplex i closedEdge)

/-- `GJK_EPA::findClosestEdge`.  `none` stands for the record the source returns when no
edge was accepted: `distance = FLT_MAX` and an uninitialised `index`. -/
def findClosestEdge (sqrt : K → K) (simplex : List (Vector K)) : Option (Edge K) :=
  closestEdgeLoop sqrt simplex simplex.length 0 none

/-- `simplex.insert(simplex.begin() + index, p)`. -/
def insertAt (simplex : List (Vector K)) (index : Nat) (p : Vector K) : List (Vector K) :=
  simplex.take index ++ p :: simplex.drop index

/-- The `while (!isDone)` loop of `EPA`, one iteration per unit of fuel; the result is
`(return_penetration_depth, return_penetration_vector)`.  With no accepted edge the
source would insert at an uninitialised index: undefined behaviour. -/
def EPA (sqrt : K → K) (_shapeA _shapeB : List (Vector K)) :
    Nat → List (Vector K) → Except Fault (K × Vector K)
  | 0, _ => .error .outOfFuel
  | fuel + 1, simplex =>
    match findClosestEdge sqrt simplex with
    | none => .error .undefinedBehaviour
    | some e =>
      match support _shapeA _shapeB e.normal with
      | .error f => .error f
      | .ok p =>
        let d := dot p e.normal
        if |d - e.distance| < 1 / 100 then .ok (d, e.normal)
        else EPA sqrt _shapeA _shapeB fuel (insertAt simplex e.index p)

/-- `GJK_EPA::intersect`: the returned flag and the values of the two out-parameters
`return_penetration_depth` and `return_penetration_vector` after the call, given their
values before it. -/
def intersect (sqrt : K → K) (fuel : Nat) (return_penetration_depth : K)
    (return_penetration_vector : Vector K) (_shapeA _shapeB : List (Vector K)) :
    Except Fault (Bool × K × Vector K) :=
  match GJK fuel _shapeA _shapeB [] with
  | .error f => .error f
  | .ok (false, _) => .ok (false, return_penetration_depth, return_penetration_vector)
  | .ok (true, _simplex) =>
    match EPA sqrt _shapeA _shapeB fuel _simplex with
    | .error f => .error f
    | .ok (d, n) => .ok (true, d, n)

/-! ## Vocabulary of the statements -/

/-- The parameter `sqrt` is an exact square root on the non-negative scalars. -/
def IsSqrt (sqrt : K → K) : Prop := ∀ x : K, 0 ≤ x → 0 ≤ sqrt x ∧ sqrt x * sqrt x = x

/-- A shape lies in the ground plane: every vertex has `y = 0`. -/
def Planar (shape : List (Vector K)) : Prop := ∀ v ∈ shape, v.y = 0

/-- The vertex differences `a - b` of two shapes (the Minkowski difference). -/
def minkowskiDifference : List (Vector K) → List (Vector K) → List (Vector K)
  | [], _ => []
  | a :: rest, shapeB => shapeB.map (fun b => a - b) ++ minkowskiDifference rest shapeB

/-- The convex hull of a vertex list: the least set that holds the vertices and, with two
points, the segment between them. -/
inductive InHull (shape : List (Vector K)) : Vector K → Prop where
  | vertex (v : Vector K) : v ∈ shape → InHull shape v
  | segment (p q : Vector K) (t : K) : InHull shape p → InHull shape q → 0 ≤ t → t ≤ 1 →
      InHull shape (scale p (1 - t) + scale q t)

/-- An interior point of a planar polygon: a whole in-plane disc around it lies in the
hull. -/
def InteriorPt (shape : List (Vector K)) (p : Vector K) : Prop :=
  ∃ r : K, 0 < r ∧ ∀ v : Vector K, v.y = 0 → dot v v ≤ r * r → InHull shape (p + v)

/-- A shape moved by the vector `t`. -/
def translateBy (shape : List (Vector K)) (t : Vector K) : List (Vector K) :=
  shape.map (fun v => v + t)

/-- The planar cross product `a.x * b.z - a.z * b.x`; it vanishes exactly when the
origin, `a` and `b` lie on one line of the ground plane. -/
def cross2 (a b : Vector K) : K := a.x * b.z - a.z * b.x

/-- The perpendicular of edge `i` of the closed polygon `simplex` after the orientation
test of `findClosestEdge`, before it is normalised. -/
def rawNormal (simplex : List (Vector K)) (i : Nat) : Vector K :=
  let j := if i + 1 = simplex.length then 0 else i + 1
  let a := simplex.getD i 0
  let b := simplex.getD j 0
  let n0 := perp (b - a)
  if dot n0 (-a) ≥ 0 then -n0 else n0

/-- The record `findClosestEdge` computes for edge `i`: distance, index `j`, normal. -/
def edgeAt (sqrt : K → K) (simplex : List (Vector K)) (i : Nat) : Edge K :=
  let n := scale (rawNormal simplex i)
    (1 / sqrt (dot (rawNormal simplex i) (rawNormal simplex i)))
  ⟨dot (simplex.getD i 0) n, if i + 1 = simplex.length then 0 else i + 1, n⟩

/-- The unit square `[(0,0,0), (1,0,0), (1,0,1), (0,0,1)]`. -/
def unitSquare : List (Vector K) := [⟨0, 0, 0⟩, ⟨1, 0, 0⟩, ⟨1, 0, 1⟩, ⟨0, 0, 1⟩]

/-- The unit square centred at `(0, 0, 0)`. -/
def squareAt0 : List (Vector K) :=
  [⟨-1 / 2, 0, -1 / 2⟩, ⟨1 / 2, 0, -1 / 2⟩, ⟨1 / 2, 0, 1 / 2⟩, ⟨-1 / 2, 0, 1 / 2⟩]

/-- The unit square centred at `(10, 0, 0)`. -/
def squareAt10 : List (Vector K) :=
  [⟨19 / 2, 0, -1 / 2⟩, ⟨21 / 2, 0, -1 / 2⟩, ⟨21 / 2, 0, 1 / 2⟩, ⟨19 / 2, 0, 1 / 2⟩]

/-- The unit square moved by `t` along the x axis, written out. -/
def squareT (t : K) : List (Vector K) :=
  [⟨t, 0, 0⟩, ⟨1 + t, 0, 0⟩, ⟨1 + t, 0, 1⟩, ⟨t, 0, 1⟩]

/-- A triangle left of the line x = 4, one edge on the x axis. -/
def triangleLeft : List (Vector K) := [⟨0, 0, 0⟩, ⟨4, 0, 0⟩, ⟨2, 0, -1⟩]

/-- A triangle right of the line x = 6, one edge on the x axis. -/
def triangleRight : List (Vector K) := [⟨6, 0, 0⟩, ⟨10, 0, 0⟩, ⟨8, 0, 1⟩]

/-- The square `[-2, 2] x [-2, 2]` with the corner `(2, 0, -2)` cut off. -/
def cutSquare : List (Vector K) :=
  [⟨2, 0, 2⟩, ⟨-2, 0, 2⟩, ⟨-2, 0, -2⟩, ⟨-1, 0, -2⟩, ⟨2, 0, 1⟩]

/-- The square `[-1, 1] x [-1, 1]`. -/
def smallSquare : List (Vector K) := [⟨-1, 0, -1⟩, ⟨1, 0, -1⟩, ⟨1, 0, 1⟩, ⟨-1, 0, 1⟩]

/-- The shape with the origin as its only vertex. -/
def originPoint : List (Vector K) := [⟨0, 0, 0⟩]

/-! ## Vocabulary of the statements on the simplex tests -/

/-- The side of the point `x` relative to the line through `p` and `q`: positive on one
side, negative on the other, zero on the line. -/
def sideOfLine (p q x : Vector K) : K := cross2 (q - p) (x - p)

/-- The point `x` is strictly inside the triangle `a b c`: a combination of the three
corners with positive weights of sum one. -/
def StrictlyInside (a b c x : Vector K) : Prop :=
  ∃ wa wb wc : K, 0 < wa ∧ 0 < wb ∧ 0 < wc ∧ wa + wb + wc = 1 ∧
    scale a wa + scale b wb + scale c wc = x

/-- The state of the scan of `findClosestEdge` after the edges `0 .. m - 1`: nothing yet
when all of them have zero length, otherwise the record of the first edge of least
distance among those of non-zero length. -/
def FirstMin (sqrt : K → K) (simplex : List (Vector K)) (m : Nat) : Option (Edge K) → Prop
  | none => ∀ j, j < m → dot (rawNormal simplex j) (rawNormal simplex j) = 0
  | some e => ∃ i, i < m ∧ dot (rawNormal simplex i) (rawNormal simplex i) ≠ 0 ∧
      e = edgeAt sqrt simplex i ∧
      (∀ j, j < m → dot (rawNormal simplex j) (rawNormal simplex j) ≠ 0 →
        (edgeAt sqrt simplex i).distance ≤ (edgeAt sqrt simplex j).distance) ∧
      (∀ j, j < i → dot (rawNormal simplex j) (rawNormal simplex j) ≠ 0 →
        (edgeAt sqrt simplex i).distance < (edgeAt sqrt simplex j).distance)

/-- The perpendicular of the edge vector `e` after the orientation test that the
three-point case of `doContainsOrigin` makes against the point `third`: `perp e`, negated
when `dot (perp e) third ≥ 0`. -/
def orientedPerp (e third : Vector K) : Vector K :=
  if dot (perp e) third ≥ 0 then -perp e else perp e

/-- A triangle with a corner at `(-1, 0, 0)`. -/
def cornerLeft : List (Vector K) := [⟨-1, 0, 0⟩, ⟨1, 0, -2⟩, ⟨0, 0, 0⟩]

/-- A second triangle with a corner at `(-1, 0, 0)`. -/
def cornerRight : List (Vector K) := [⟨-1, 0, -2⟩, ⟨-2, 0, 0⟩, ⟨-1, 0, 0⟩]

/-- One pass of the `while (true)` loop of `GJK` that goes on to another pass: the pair
`(simplex, direction)` after it.  `none` when the pass returns, or fails. -/
def GJKPass (_shapeA _shapeB : List (Vector K)) (state : List (Vector K) × Vector K) :
    Option (List (Vector K) × Vector K) :=
  match support _shapeA _shapeB state.2 with
  | .error _ => none
  | .ok p =>
    if dot p state.2 < 0 then none
    else
      match doContainsOrigin (state.1 ++ [p]) state.2 with
      | .ok (false, simplex2, direction2) => some (simplex2, direction2)
      | _ => none

/-- The pairs `(simplex, direction)` that `GJK` holds at the start of pass number `n` of
its loop (`n = 0` for the first pass). -/
inductive GJKState (shapeA shapeB : List (Vector K)) :
    Nat → List (Vector K) × Vector K → Prop where
  | first (p : Vector K) : support shapeA shapeB ⟨1, 0, 1⟩ = .ok p →
      GJKState shapeA shapeB 0 ([p], -⟨1, 0, 1⟩)
  | next (n : Nat) (state state2 : List (Vector K) × Vector K) :
      GJKState shapeA shapeB n state → GJKPass shapeA shapeB state = some state2 →
      GJKState shapeA shapeB (n + 1) state2

/-! ## A triangle and a segment that share a corner -/

/-- The list `p, t, p, t, ...` with `k` copies of the pair `p, t`. -/
def zigzag (p t : Vector K) : Nat → List (Vector K)
  | 0 => []
  | k + 1 => p :: t :: zigzag p t k

/-- A triangle with a corner at `(-2, 0, 0)`. -/
def touchTriangle : List (Vector K) := [⟨1, 0, -3⟩, ⟨1, 0, -1⟩, ⟨-2, 0, 0⟩]

/-- A segment that ends in `(-2, 0, 0)`: a shape of zero area. -/
def touchSegment : List (Vector K) := [⟨0, 0, -2⟩, ⟨-2, 0, 0⟩]

/-- The polygon of `EPA` on `touchTriangle` and `touchSegment` after `2 * k + 1` passes. -/
def touchPolygon1 (k : Nat) : List (Vector K) :=
  zigzag ⟨1, 0, 1⟩ ⟨3, 0, -3⟩ k ++ [⟨1, 0, 1⟩, ⟨1, 0, -1⟩, ⟨1, 0, 1⟩, ⟨-2, 0, 2⟩]

/-- The polygon of `EPA` on `touchTriangle` and `touchSegment` after `2 * k + 2` passes. -/
def touchPolygon2 (k : Nat) : List (Vector K) :=
  zigzag ⟨1, 0, 1⟩ ⟨3, 0, -3⟩ k ++ [⟨1, 0, 1⟩, ⟨3, 0, -3⟩, ⟨1, 0, -1⟩, ⟨1, 0, 1⟩, ⟨-2, 0, 2⟩]

end GJK_EPA

/-! ## The grid planner: `steerlib/src/AStarPlanner.cpp` -/

/-- The calls the planner makes on a `SteerLib::GridDatabase2D`.  The class itself is not
among the sources, so a database is any value of this record; every argument is the value
written at the call site, and `P` stands for `Util::Point`. -/
structure GridDatabase2D (K P : Type) where
  getCellIndexFromLocation : P → Int
  getLocationFromIndex : Int → P
  getGridCoordinatesFromIndex : Int → Nat × Nat
  getCellIndexFromGridCoords : Int → Int → Int
  getTraversalCost : Int → K
  getNumCellsX : Nat
  getNumCellsZ : Nat

/-- The class `SearchNode`; `previous = none` is the null pointer.  The fields `_index`,
`_g`, `_h`, `_previous`. -/
inductive SearchNode (K : Type) where
  | mk (index : Nat) (g h : K) (previous : Option (SearchNode K)) : SearchNode K

namespace SearchNode

variable {K : Type} [LinearOrderedField K]

/-- `SearchNode::index()`; the conversion of the cell index to `float` is taken as exact. -/
def index : SearchNode K → Nat
  | mk i _ _ _ => i

/-- `SearchNode::g()`. -/
def g : SearchNode K → K
  | mk _ g _ _ => g

/-- `SearchNode::h()`. -/
def h : SearchNode K → K
  | mk _ _ h _ => h

/-- `SearchNode::f()`. -/
def f (n : SearchNode K) : K := n.g + n.h

/-- `SearchNode::prev()`. -/
def prev : SearchNode K → Option (SearchNode K)
  | mk _ _ _ p => p

end SearchNode

namespace AStarPlanner

variable {K P : Type} [LinearOrderedField K]

/-- Conversion of an `int` to `unsigned int` (32 bits). -/
def toUnsigned (i : Int) : Nat := (i % 4294967296).toNat

/-- Conversion of an `unsigned int` to `int` (32 bits, two's complement). -/
def toSigned (n : Nat) : Int :=
  if n % 4294967296 < 2147483648 then ((n % 4294967296 : Nat) : Int)
  else ((n % 4294967296 : Nat) : Int) - 4294967296

/-- The values `lo, lo + 1, ..., hi` of a loop `for (int i = lo; i <= hi; i += GRID_STEP)`
with `GRID_STEP = 1`. -/
def intRange (lo hi : Int) : List Int :=
  (List.range (hi + 1 - lo).toNat).map (fun k => lo + (k : Int))

/-- `AStarPlanner::canBeTraversed`, with `OBSTACLE_CLEARANCE = 1` and
`COLLISION_COST = 1000`.  `x` and `z` are `unsigned int`, so `x - 1` and `x + 1` wrap
modulo `2^32` and both `MAX` and `MIN` compare unsigned values; the results are then
stored in `int` variables. -/
def canBeTraversed (db : GridDatabase2D K P) (id : Int) : Bool :=
  let x := (db.getGridCoordinatesFromIndex id).1 % 4294967296
  let z := (db.getGridCoordinatesFromIndex id).2 % 4294967296
  let xm := (x + 4294967296 - 1) % 4294967296
  let xp := (x + 1) % 4294967296
  let zm := (z + 4294967296 - 1) % 4294967296
  let zp := (z + 1) % 4294967296
  let x_range_min := toSigned (if xm > 0 then xm else 0)
  let x_range_max := toSigned (if xp < db.getNumCellsX % 4294967296 then xp else db.getNumCellsX)
  let z_range_min := toSigned (if zm > 0 then zm else 0)
  let z_range_max := toSigned (if zp < db.getNumCellsZ % 4294967296 then zp else db.getNumCellsZ)
  let traversal_cost : K :=
    (intRange x_range_min x_range_max).foldl
      (fun cost i => (intRange z_range_min z_range_max).foldl
        (fun cost2 j => cost2 + db.getTraversalCost (db.getCellIndexFromGridCoords i j)) cost)
      0
  if traversal_cost > 1000 then false else true

/-- `operator==` on `SearchNodePtr`: equal cell index. -/
def nodeEq (a b : SearchNode K) : Bool := decide (a.index = b.index)

/-- `operator<` on `SearchNodePtr`: smaller `f`, and on equal `f` the larger `g`. -/
def nodeLt (a b : SearchNode K) : Bool :=
  if a.f = b.f then decide (a.g > b.g) else decide (a.f < b.f)

/-- The scan of `std::min_element`: `(position, node)` of the current smallest element,
replaced only by a strictly smaller one. -/
def minScan : List (SearchNode K) → Nat → Nat × SearchNode K → Nat × SearchNode K
  | [], _, best => best
  | n :: rest, i, best =>
    if nodeLt n best.2 then minScan rest (i + 1) (i, n) else minScan rest (i + 1) best

/-- `std::min_element(openSet.begin(), openSet.end())` on a non-empty vector. -/
def minElement : List (SearchNode K) → Option (Nat × SearchNode K)
  | [] => none
  | n :: rest => some (minScan rest 1 (0, n))

/-- `AStarPlanner::_tryToAdd`: the vector `out` after the call. -/
def _tryToAdd (db : GridDatabase2D K P) (distanceBetween : P → P → K) (x z : Nat)
    (fromNode : SearchNode K) (cost : K) (goal : P) (out : List (SearchNode K)) :
    List (SearchNode K) :=
  let index := db.getCellIndexFromGridCoords (x : Int) (z : Int)
  if !canBeTraversed db index then out
  else
    let p := db.getLocationFromIndex index
    let h := distanceBetween p goal
    out ++ [SearchNode.mk (toUnsigned index) (fromNode.g + cost) h none]

/-- `AStarPlanner::_expand`: the eight neighbours, each with cost 1; `x` and `z` are
`unsigned int`, so `x - 1` and `x + 1` wrap modulo `2^32`. -/
def _expand (db : GridDatabase2D K P) (distanceBetween : P → P → K) (node : SearchNode K)
    (goal : P) : List (SearchNode K) :=
  let x := (db.getGridCoordinatesFromIndex (node.index : Int)).1 % 4294967296
  let z := (db.getGridCoordinatesFromIndex (node.index : Int)).2 % 4294967296
  let xm := (x + 4294967296 - 1) % 4294967296
  let xp := (x + 1) % 4294967296
  let zm := (z + 4294967296 - 1) % 4294967296
  let zp := (z + 1) % 4294967296
  let out0 : List (SearchNode K) := []
  let out1 := _tryToAdd db distanceBetween xm z node 1 goal out0
  let out2 := _tryToAdd db distanceBetween xp z node 1 goal out1
  let out3 := _tryToAdd db distanceBetween x zm node 1 goal out2
  let out4 := _tryToAdd db distanceBetween x zp node 1 goal out3
  let out5 := _tryToAdd db distanceBetween xm zm node 1 goal out4
  let out6 := _tryToAdd db distanceBetween xm zp node 1 goal out5
  let out7 := _tryToAdd db distanceBetween xp zm node 1 goal out6
  _tryToAdd db distanceBetween xp zp node 1 goal out7

/-- The assignments `(*iter)->g(expandedNode->g()); (*iter)->prev(minNode)` on the first
node of the open set that has the cell index of `expandedNode`, made when
`expandedNode->g() < (*iter)->g()`; `none` when `std::find` reaches the end. -/
def relax (minNode expandedNode : SearchNode K) :
    List (SearchNode K) → Option (List (SearchNode K))
  | [] => none
  | n :: rest =>
    if nodeEq n expandedNode then
      if expandedNode.g < n.g then
        some (SearchNode.mk n.index expandedNode.g n.h (some minNode) :: rest)
      else some (n :: rest)
    else
      match relax minNode expandedNode rest with
      | none => none
      | some rest2 => some (n :: rest2)

/-- The body of the loop over `expandedList`: the open set after one `expandedNode`. -/
def visit (minNode : SearchNode K) (closedSet openSet : List (SearchNode K))
    (expandedNode : SearchNode K) : List (SearchNode K) :=
  match relax minNode expandedNode openSet with
  | some openSet2 => openSet2
  | none =>
    if closedSet.any (fun n => nodeEq n expandedNode) then openSet
    else openSet ++ [SearchNode.mk expandedNode.index expandedNode.g expandedNode.h
      (some minNode)]

/-- The `while (!openSet.empty())` loop of `computePath`, one iteration per unit of fuel;
the result is `goalNode` (`none` for the null pointer). -/
def searchLoop (db : GridDatabase2D K P) (distanceBetween : P → P → K) (goal : P)
    (goalIndex : Int) : Nat → List (SearchNode K) → List (SearchNode K) →
    Except Fault (Option (SearchNode K))
  | 0, _, _ => .error .outOfFuel
  | fuel + 1, openSet, closedSet =>
    match minElement openSet with
    | none => .ok none
    | some (k, minNode) =>
      let openSet1 := openSet.eraseIdx k
      if (minNode.index : Int) = goalIndex then .ok (some minNode)
      else
        let expandedList := _expand db distanceBetween minNode goal
        let openSet2 := expandedList.foldl (visit minNode closedSet) openSet1
        searchLoop db distanceBetween goal goalIndex fuel openSet2 (closedSet ++ [minNode])

/-- The loop `while (ptr != nullptr)` of `computePath` started at a non-null `ptr`: each
pass inserts the location of the node at the front of `agent_path`. -/
def tracePath (db : GridDatabase2D K P) : SearchNode K → List P → List P
  | .mk i _ _ none, agent_path => db.getLocationFromIndex (i : Int) :: agent_path
  | .mk i _ _ (some p), agent_path =>
    tracePath db p (db.getLocationFromIndex (i : Int) :: agent_path)

/-- `AStarPlanner::computePath`: the returned flag and `agent_path` after the call.  The
body never reads `append_to_path`. -/
def computePath (db : GridDatabase2D K P) (distanceBetween : P → P → K) (fuel : Nat)
    (agent_path : List P) (start goal : P) (append_to_path : Bool) :
    Except Fault (Bool × List P) :=
  let startIndex := db.getCellIndexFromLocation start
  let startNode : SearchNode K := SearchNode.mk (toUnsigned startIndex) 0 0 none
  let goalIndex := db.getCellIndexFromLocation goal
  match searchLoop db distanceBetween goal goalIndex fuel [startNode] [] with
  | .error f => .error f
  | .ok none => .ok (false, agent_path)
  | .ok (some goalNode) => .ok (true, tracePath db goalNode agent_path)

/-- A database of `n` by `n` unit cells without obstacles; a point is a pair of whole
grid coordinates and cell `(x, z)` has index `x * n + z`. -/
def lattice (n : Nat) : GridDatabase2D ℚ (Int × Int) where
  getCellIndexFromLocation := fun p => p.1 * n + p.2
  getLocationFromIndex := fun i => (i / n, i % n)
  getGridCoordinatesFromIndex := fun i => ((i / n).toNat, (i % n).toNat)
  getCellIndexFromGridCoords := fun x z => x * n + z
  getTraversalCost := fun _ => 0
  getNumCellsX := n
  getNumCellsZ := n

/-! ## Vocabulary of the statements on the planner -/

/-- The coordinate pairs `(i, j)` that the two nested loops of `canBeTraversed` pass to
`getCellIndexFromGridCoords`, in the order of the calls. -/
def clearanceBox (db : GridDatabase2D K P) (id : Int) : List (Int × Int) :=
  let x := (db.getGridCoordinatesFromIndex id).1 % 4294967296
  let z := (db.getGridCoordinatesFromIndex id).2 % 4294967296
  let xm := (x + 4294967296 - 1) % 4294967296
  let xp := (x + 1) % 4294967296
  let zm := (z + 4294967296 - 1) % 4294967296
  let zp := (z + 1) % 4294967296
  let x_range_min := toSigned (if xm > 0 then xm else 0)
  let x_range_max := toSigned (if xp < db.getNumCellsX % 4294967296 then xp else db.getNumCellsX)
  let z_range_min := toSigned (if zm > 0 then zm else 0)
  let z_range_max := toSigned (if zp < db.getNumCellsZ % 4294967296 then zp else db.getNumCellsZ)
  (intRange x_range_min x_range_max).flatMap
    (fun i => (intRange z_range_min z_range_max).map (fun j => (i, j)))

end AStarPlanner

end SteerLib

/-! ## Curves: `steerlib/src/Curve.cpp` -/

namespace Util

/-- Modelled from the spec: `Util::Point` (declared in `util/Geometry.h`, absent from the
sources) is a triple of coordinates. -/
structure Point (K : Type) where
  x : K
  y : K
  z : K
deriving DecidableEq

/-- Modelled from the spec: `Util::CurvePoint` (declared in `util/Curve.h`, absent from
the sources) is a time-stamped control point with a position and a tangent. -/
structure CurvePoint (K : Type) where
  position : Point K
  tangent : Vector K
  time : K

/-- The data members of the class `Curve` that `Curve.cpp` uses: the vector
`controlPoints` and the integer `type`. -/
structure Curve (K : Type) where
  controlPoints : List (CurvePoint K)
  type : Int

namespace Curve

open SteerLib

variable {K : Type} [LinearOrderedField K]

/-- `MyPointSortPredicate`. -/
def MyPointSortPredicate (point1 point2 : CurvePoint K) : Bool :=
  decide (point1.time < point2.time)

/-- The loop `for (int i = controlPoints.size() - 1; i > 0; i--)` of `sortControlPoints`,
from index `i` down to 1: the point at `i` is erased when its time equals that of the
point at `i - 1`.  `.at` outside the vector throws. -/
def eraseLoop : Nat → List (CurvePoint K) → Except Fault (List (CurvePoint K))
  | 0, controlPoints => .ok controlPoints
  | i + 1, controlPoints =>
    match controlPoints.get? (i + 1), controlPoints.get? i with
    | some a, some b =>
      if a.time = b.time then eraseLoop i (controlPoints.eraseIdx (i + 1))
      else eraseLoop i controlPoints
    | _, _ => .error .outOfRange

/-- `Curve::sortControlPoints`.  `std::sort` is a parameter: the standard fixes its
result only up to the order of points with equal times. -/
def sortControlPoints (sort : List (CurvePoint K) → List (CurvePoint K)) (c : Curve K) :
    Except Fault (Curve K) :=
  match eraseLoop ((sort c.controlPoints).length - 1) (sort c.controlPoints) with
  | .error f => .error f
  | .ok controlPoints => .ok ⟨controlPoints, c.type⟩

/-- The constructor `Curve::Curve(const CurvePoint& startPoint, int curveType)`. -/
def ofStartPoint (startPoint : CurvePoint K) (curveType : Int) : Curve K :=
  ⟨[startPoint], curveType⟩

/-- The constructor `Curve::Curve(const std::vector<CurvePoint>& inputPoints, int
curveType)`. -/
def ofPoints (sort : List (CurvePoint K) → List (CurvePoint K))
    (inputPoints : List (CurvePoint K)) (curveType : Int) : Except Fault (Curve K) :=
  sortControlPoints sort ⟨inputPoints, curveType⟩

/-- `Curve::addControlPoint`. -/
def addControlPoint (sort : List (CurvePoint K) → List (CurvePoint K)) (c : Curve K)
    (inputPoint : CurvePoint K) : Except Fault (Curve K) :=
  sortControlPoints sort ⟨c.controlPoints ++ [inputPoint], c.type⟩

/-- `Curve::addControlPoints`. -/
def addControlPoints (sort : List (CurvePoint K) → List (CurvePoint K)) (c : Curve K)
    (inputPoints : List (CurvePoint K)) : Except Fault (Curve K) :=
  sortControlPoints sort ⟨c.controlPoints ++ inputPoints, c.type⟩

/-- `Curve::checkRobust`; the constants `hermiteCurve` and `catmullCurve` of
`util/Curve.h` are parameters. -/
def checkRobust (hermiteCurve catmullCurve : Int) (c : Curve K) : Bool :=
  if c.type = hermiteCurve then
    if c.controlPoints.length ≥ 2 then true else false
  else if c.type = catmullCurve then
    if c.controlPoints.length ≥ 3 then true else false
  else false

/-- The `for` loop of `findTimeInterval` from index `i` on: the first index whose control
point has a time greater than `time`, `none` when the loop ends without `break`. -/
def timeScan (time : K) : List (CurvePoint K) → Nat → Option Nat
  | [], _ => none
  | CurrentPoint :: rest, i =>
    if CurrentPoint.time > time then some i else timeScan time rest (i + 1)

/-- `Curve::findTimeInterval`: the returned flag and the value of `nextPoint` after the
call.  `nextPoint = none` on entry stands for a variable that was never set; when the
loop does not set it either, the `return` reads an indeterminate value. -/
def findTimeInterval (c : Curve K) (nextPoint : Option Nat) (time : K) :
    Except Fault (Bool × Nat) :=
  match timeScan time c.controlPoints 0 with
  | some i => .ok (decide (i < c.controlPoints.length), i)
  | none =>
    match nextPoint with
    | none => .error .undefinedBehaviour
    | some n => .ok (decide (n < c.controlPoints.length), n)

/-- `controlPoints.at(i)`: throws outside the vector. -/
def pointAt (c : Curve K) (i : Nat) : Except Fault (CurvePoint K) :=
  match c.controlPoints.get? i with
  | some p => .ok p
  | none => .error .outOfRange

/-- `Curve::useHermiteCurve`.  `nextPoint` is an `unsigned int`, so `nextPoint - 1` wraps
modulo `2^32`; `pow(timeStep, n)` is the power. -/
def useHermiteCurve (c : Curve K) (nextPoint : Nat) (time : K) : Except Fault (Point K) :=
  match pointAt c nextPoint with
  | .error f => .error f
  | .ok nextCurvePoint =>
    match pointAt c ((nextPoint + 4294967296 - 1) % 4294967296) with
    | .error f => .error f
    | .ok previousCurvePoint =>
      let timeStep := (time - previousCurvePoint.time) /
        (nextCurvePoint.time - previousCurvePoint.time)
      let timeDiff := nextCurvePoint.time - previousCurvePoint.time
      let h1 := 2 * timeStep ^ 3 - 3 * timeStep ^ 2 + 1
      let h2 := -2 * timeStep ^ 3 + 3 * timeStep ^ 2
      let h3 := (timeStep ^ 3 - 2 * timeStep ^ 2 + timeStep) * timeDiff
      let h4 := (timeStep ^ 3 - timeStep ^ 2) * timeDiff
      .ok ⟨h1 * previousCurvePoint.position.x + h2 * nextCurvePoint.position.x +
          h3 * previousCurvePoint.tangent.x + h4 * nextCurvePoint.tangent.x,
        h1 * previousCurvePoint.position.y + h2 * nextCurvePoint.position.y +
          h3 * previousCurvePoint.tangent.y + h4 * nextCurvePoint.tangent.y,
        h1 * previousCurvePoint.position.z + h2 * nextCurvePoint.position.z +
          h3 * previousCurvePoint.tangent.z + h4 * nextCurvePoint.tangent.z⟩

/-- The expression of `tangentOneX` (and `Y`, `Z`) in case 1 of `useCatmullCurve`, for
the times `t0 t1 t2` and the coordinates `q0 q1 q2` of three consecutive points. -/
def tangentAtStart (t0 t1 t2 q0 q1 q2 : K) : K :=
  ((t2 - t0) / (t2 - t1)) * ((q1 - q0) / (t1 - t0)) -
    ((t1 - t0) / (t2 - t1)) * ((q2 - q0) / (t2 - t0))

/-- The expression of `tangentTwoX` in cases 1 and 3 and of `tangentOneX` in cases 2 and 3
of `useCatmullCurve` (and `Y`, `Z`): the tangent at the middle one of three consecutive
points. -/
def tangentInside (t0 t1 t2 q0 q1 q2 : K) : K :=
  ((t1 - t0) / (t2 - t0)) * ((q2 - q1) / (t2 - t1)) +
    ((t2 - t1) / (t2 - t0)) * ((q1 - q0) / (t1 - t0))

/-- The expression of `tangentTwoX` (and `Y`, `Z`) in case 2 of `useCatmullCurve`. -/
def tangentAtEnd (t0 t1 t2 q0 q1 q2 : K) : K :=
  ((t2 - t0) / (t2 - t1)) * ((q1 - q0) / (t1 - t0)) -
    ((t1 - t0) / (t2 - t1)) * ((q2 - q0) / (t2 - t0))

/-- The expression of `newPosition.x` (and `y`, `z`) at the end of `useCatmullCurve`. -/
def catmullBlend (timeStep timeDiff previous next tangentOne tangentTwo : K) : K :=
  (1 + 2 * timeStep) * (1 - timeStep) * (1 - timeStep) * previous +
    timeStep * (1 - timeStep) * (1 - timeStep) * timeDiff * tangentOne +
    timeStep * timeStep * (3 - 2 * timeStep) * next +
    timeStep * timeStep * (timeStep - 1) * timeDiff * tangentTwo

/-- The last lines of `useCatmullCurve`, once the two tangents of the segment are known:
`one` and `two` give the tangent for each coordinate. -/
def catmullPoint (previous next : CurvePoint K) (time : K)
    (one two : (Point K → K) → K) : Point K :=
  let timeStep := (time - previous.time) / (next.time - previous.time)
  let timeDiff := next.time - previous.time
  ⟨catmullBlend timeStep timeDiff previous.position.x next.position.x
      (one Point.x) (two Point.x),
    catmullBlend timeStep timeDiff previous.position.y next.position.y
      (one Point.y) (two Point.y),
    catmullBlend timeStep timeDiff previous.position.z next.position.z
      (one Point.z) (two Point.z)⟩

/-- `Curve::useCatmullCurve`.  `nextPoint - 1`, `nextPoint - 2` and `nextPoint + 1` are
`unsigned int` expressions and wrap modulo `2^32`; `controlPoints.size() - 1` is a
`size_t` expression and wraps modulo `2^64`.  The source writes every tangent three
times, for `x`, `y` and `z`; here the coordinate is the argument `q`. -/
def useCatmullCurve (c : Curve K) (nextPoint : Nat) (time : K) : Except Fault (Point K) :=
  match pointAt c nextPoint with
  | .error f => .error f
  | .ok nextCurvePoint =>
    match pointAt c ((nextPoint + 4294967296 - 1) % 4294967296) with
    | .error f => .error f
    | .ok previousCurvePoint =>
      if nextPoint = 1 then
        match pointAt c 0, pointAt c 1, pointAt c 2 with
        | .ok p0, .ok p1, .ok p2 =>
          .ok (catmullPoint previousCurvePoint nextCurvePoint time
            (fun q => tangentAtStart p0.time p1.time p2.time
              (q p0.position) (q p1.position) (q p2.position))
            (fun q => tangentInside p0.time p1.time p2.time
              (q p0.position) (q p1.position) (q p2.position)))
        | _, _, _ => .error .outOfRange
      else if nextPoint =
          (c.controlPoints.length + 18446744073709551616 - 1) % 18446744073709551616 then
        match pointAt c ((nextPoint + 4294967296 - 2) % 4294967296),
          pointAt c ((nextPoint + 4294967296 - 1) % 4294967296), pointAt c nextPoint with
        | .ok p0, .ok p1, .ok p2 =>
          .ok (catmullPoint previousCurvePoint nextCurvePoint time
            (fun q => tangentInside p0.time p1.time p2.time
              (q p0.position) (q p1.position) (q p2.position))
            (fun q => tangentAtEnd p0.time p1.time p2.time
              (q p0.position) (q p1.position) (q p2.position)))
        | _, _, _ => .error .outOfRange
      else
        match pointAt c ((nextPoint + 4294967296 - 2) % 4294967296),
          pointAt c ((nextPoint + 4294967296 - 1) % 4294967296), pointAt c nextPoint,
          pointAt c ((nextPoint + 1) % 4294967296) with
        | .ok p0, .ok p1, .ok p2, .ok p3 =>
          .ok (catmullPoint previousCurvePoint nextCurvePoint time
            (fun q => tangentInside p0.time p1.time p2.time
              (q p0.position) (q p1.position) (q p2.position))
            (fun q => tangentInside p1.time p2.time p3.time
              (q p1.position) (q p2.position) (q p3.position)))
        | _, _, _, _ => .error .outOfRange

/-- `Curve::calculatePoint`: the returned flag and the value of `outputPoint` after the
call.  The local `nextPoint` is not initialised. -/
def calculatePoint (hermiteCurve catmullCurve : Int) (c : Curve K) (outputPoint : Point K)
    (time : K) : Except Fault (Bool × Point K) :=
  if !checkRobust hermiteCurve catmullCurve c then .ok (false, outputPoint)
  else
    match findTimeInterval c none time with
    | .error f => .error f
    | .ok (false, _) => .ok (false, outputPoint)
    | .ok (true, nextPoint) =>
      if c.type = hermiteCurve then
        match useHermiteCurve c nextPoint time with
        | .error f => .error f
        | .ok p => .ok (true, p)
      else if c.type = catmullCurve then
        match useCatmullCurve c nextPoint time with
        | .error f => .error f
        | .ok p => .ok (true, p)
      else .ok (true, outputPoint)

/-! ## Vocabulary of the statements on curves -/

/-- What the standard asks of `std::sort` with `MyPointSortPredicate`: the result is a
rearrangement of the input in which no point comes before one of smaller time. -/
def IsSort (sort : List (CurvePoint K) → List (CurvePoint K)) : Prop :=
  ∀ l, (sort l).Perm l ∧ (sort l).Pairwise (fun a b => MyPointSortPredicate b a = false)

/-- Sorting by insertion, an instance of `std::sort` to run the definitions. -/
def insertByTime (p : CurvePoint K) : List (CurvePoint K) → List (CurvePoint K)
  | [] => [p]
  | q :: rest => if p.time ≤ q.time then p :: q :: rest else q :: insertByTime p rest

/-- Insertion sort by time. -/
def sortByTime : List (CurvePoint K) → List (CurvePoint K)
  | [] => []
  | p :: rest => insertByTime p (sortByTime rest)

/-- Two control points at the times 0 and 1. -/
def twoPoints : List (CurvePoint ℚ) :=
  [⟨⟨0, 0, 0⟩, ⟨1, 0, 0⟩, 0⟩, ⟨⟨1, 0, 1⟩, ⟨0, 0, 1⟩, 1⟩]

/-- Four control points; two of them share the time 1. -/
def fourPoints : List (CurvePoint ℚ) :=
  [⟨⟨2, 0, 0⟩, ⟨1, 0, 0⟩, 2⟩, ⟨⟨1, 0, 1⟩, ⟨0, 0, 1⟩, 1⟩, ⟨⟨0, 0, 0⟩, ⟨1, 0, 0⟩, 0⟩,
    ⟨⟨5, 0, 5⟩, ⟨0, 0, 1⟩, 1⟩]

/-- Three control points at the times 0, 1 and 3. -/
def threePoints : List (CurvePoint ℚ) :=
  [⟨⟨0, 0, 0⟩, ⟨1, 0, 0⟩, 0⟩, ⟨⟨1, 0, 1⟩, ⟨0, 0, 1⟩, 1⟩, ⟨⟨4, 0, 2⟩, ⟨1, 0, 1⟩, 3⟩]

end Curve

end Util

/-! ## Vector algebra -/

namespace Util

variable {K : Type} [LinearOrderedField K]

@[simp] theorem sub_mk (a b c d e f : K) :
    (⟨a, b, c⟩ : Vector K) - ⟨d, e, f⟩ = ⟨a - d, b - e, c - f⟩ := rfl

@[simp] theorem add_mk (a b c d e f : K) :
    (⟨a, b, c⟩ : Vector K) + ⟨d, e, f⟩ = ⟨a + d, b + e, c + f⟩ := rfl

@[simp] theorem neg_mk (a b c : K) : -(⟨a, b, c⟩ : Vector K) = ⟨-a, -b, -c⟩ := rfl

theorem zero_mk : (0 : Vector K) = ⟨0, 0, 0⟩ := rfl

@[simp] theorem dot_mk (a b c d e f : K) :
    dot (⟨a, b, c⟩ : Vector K) ⟨d, e, f⟩ = a * d + b * e + c * f := rfl

@[simp] theorem scale_mk (a b c k : K) :
    scale (⟨a, b, c⟩ : Vector K) k = ⟨a * k, b * k, c * k⟩ := rfl

@[simp] theorem sub_x (a b : Vector K) : (a - b).x = a.x - b.x := rfl
@[simp] theorem sub_y (a b : Vector K) : (a - b).y = a.y - b.y := rfl
@[simp] theorem sub_z (a b : Vector K) : (a - b).z = a.z - b.z := rfl
@[simp] theorem add_x (a b : Vector K) : (a + b).x = a.x + b.x := rfl
@[simp] theorem add_y (a b : Vector K) : (a + b).y = a.y + b.y := rfl
@[simp] theorem add_z (a b : Vector K) : (a + b).z = a.z + b.z := rfl
@[simp] theorem neg_x (a : Vector K) : (-a).x = -a.x := rfl
@[simp] theorem neg_y (a : Vector K) : (-a).y = -a.y := rfl
@[simp] theorem neg_z (a : Vector K) : (-a).z = -a.z := rfl
@[simp] theorem zero_x : (0 : Vector K).x = 0 := rfl
@[simp] theorem zero_y : (0 : Vector K).y = 0 := rfl
@[simp] theorem zero_z : (0 : Vector K).z = 0 := rfl
@[simp] theorem scale_x (a : Vector K) (k : K) : (scale a k).x = a.x * k := rfl
@[simp] theorem scale_y (a : Vector K) (k : K) : (scale a k).y = a.y * k := rfl
@[simp] theorem scale_z (a : Vector K) (k : K) : (scale a k).z = a.z * k := rfl

theorem dot_def (a b : Vector K) : dot a b = a.x * b.x + a.y * b.y + a.z * b.z := rfl

theorem vec_ext {a b : Vector K} (hx : a.x = b.x) (hy : a.y = b.y) (hz : a.z = b.z) :
    a = b := by
  cases a; cases b; simp_all

theorem dot_sub_left (a b d : Vector K) : dot (a - b) d = dot a d - dot b d := by
  simp only [dot_def, sub_x, sub_y, sub_z]; ring

theorem dot_add_left (a b d : Vector K) : dot (a + b) d = dot a d + dot b d := by
  simp only [dot_def, add_x, add_y, add_z]; ring

theorem dot_neg_right (a d : Vector K) : dot a (-d) = -dot a d := by
  simp only [dot_def, neg_x, neg_y, neg_z]; ring

theorem dot_neg_left (a d : Vector K) : dot (-a) d = -dot a d := by
  simp only [dot_def, neg_x, neg_y, neg_z]; ring

theorem dot_scale_right (a d : Vector K) (k : K) : dot a (scale d k) = dot a d * k := by
  simp only [dot_def, scale_x, scale_y, scale_z]; ring

theorem dot_scale_left (a d : Vector K) (k : K) : dot (scale a k) d = dot a d * k := by
  simp only [dot_def, scale_x, scale_y, scale_z]; ring

theorem neg_scale (d : Vector K) (k : K) : -(scale d k) = scale (-d) k := by
  apply vec_ext <;> simp

end Util

namespace SteerLib

namespace GJK_EPA

open Util

variable {K : Type} [LinearOrderedField K]

/-! ## The support function -/

theorem farthestScan_spec (d : Vector K) :
    ∀ (rest pre : List (Vector K)) (mi : Nat) (vm : Vector K),
      (pre ++ rest).get? mi = some vm → vm ∈ pre → (∀ v ∈ pre, dot v d ≤ dot vm d) →
      ∃ v, (pre ++ rest).get? (farthestScan d rest pre.length mi (dot vm d)) = some v ∧
        v ∈ pre ++ rest ∧ ∀ w ∈ pre ++ rest, dot w d ≤ dot v d := by
  intro rest
  induction rest with
  | nil =>
    intro pre mi vm hget hmem hmax
    refine ⟨vm, ?_, ?_, ?_⟩
    · simpa [farthestScan] using hget
    · simpa using hmem
    · simpa using hmax
  | cons v vs ih =>
    intro pre mi vm hget hmem hmax
    have hsplit : pre ++ v :: vs = (pre ++ [v]) ++ vs := by simp
    have hlen : (pre ++ [v]).length = pre.length + 1 := by simp
    rw [farthestScan]
    by_cases hgt : dot v d > dot vm d
    · rw [if_pos hgt, hsplit, ← hlen]
      apply ih (pre ++ [v]) pre.length v
      · rw [List.get?_eq_getElem?, List.append_assoc,
          List.getElem?_append_right (le_refl _)]
        simp
      · simp
      · intro w hw
        rcases List.mem_append.1 hw with hw | hw
        · exact le_trans (hmax w hw) (le_of_lt hgt)
        · simp at hw; subst hw; exact le_refl _
    · rw [if_neg hgt, hsplit, ← hlen]
      apply ih (pre ++ [v]) mi vm
      · rw [← hsplit]; exact hget
      · simp [hmem]
      · intro w hw
        rcases List.mem_append.1 hw with hw | hw
        · exact hmax w hw
        · simp at hw; subst hw; exact not_lt.1 hgt

/-- What `getFarthestPointInDirection` returns is a vertex of the shape that no vertex
beats along the direction. -/
theorem getFarthest_spec {shape : List (Vector K)} {d v : Vector K}
    (h : getFarthestPointInDirection shape d = .ok v) :
    v ∈ shape ∧ ∀ w ∈ shape, dot w d ≤ dot v d := by
  cases shape with
  | nil => simp [getFarthestPointInDirection] at h
  | cons v0 rest =>
    obtain ⟨u, hu, hmem, hmax⟩ := farthestScan_spec d rest [v0] 0 v0 (by simp) (by simp)
      (by simp)
    simp only [getFarthestPointInDirection] at h
    have hu2 : (v0 :: rest).get? (farthestScan d rest 1 0 (dot v0 d)) = some u := by
      simpa using hu
    rw [hu2] at h
    simp at h
    subst h
    exact ⟨by simpa using hmem, by simpa using hmax⟩

/-- On a non-empty shape `getFarthestPointInDirection` returns. -/
theorem getFarthest_ok {shape : List (Vector K)} (d : Vector K) (hne : shape ≠ []) :
    ∃ v, getFarthestPointInDirection shape d = .ok v := by
  cases shape with
  | nil => exact absurd rfl hne
  | cons v0 rest =>
    obtain ⟨u, hu, -, -⟩ := farthestScan_spec d rest [v0] 0 v0 (by simp) (by simp) (by simp)
    have hu2 : (v0 :: rest).get? (farthestScan d rest 1 0 (dot v0 d)) = some u := by
      simpa using hu
    exact ⟨u, by simp only [getFarthestPointInDirection]; rw [hu2]⟩

/-- An empty shape makes `getFarthestPointInDirection` fail. -/
theorem getFarthest_ne_nil {shape : List (Vector K)} {d v : Vector K}
    (h : getFarthestPointInDirection shape d = .ok v) : shape ≠ [] := by
  intro hnil; subst hnil; simp [getFarthestPointInDirection] at h

/-- The parts of a support point. -/
theorem support_spec {shapeA shapeB : List (Vector K)} {d p : Vector K}
    (h : support shapeA shapeB d = .ok p) :
    ∃ a b, a ∈ shapeA ∧ b ∈ shapeB ∧ p = a - b ∧
      getFarthestPointInDirection shapeA d = .ok a ∧
      getFarthestPointInDirection shapeB (-d) = .ok b ∧
      (∀ w ∈ shapeA, dot w d ≤ dot a d) ∧ (∀ w ∈ shapeB, dot b d ≤ dot w d) := by
  unfold support at h
  cases ha : getFarthestPointInDirection shapeA d with
  | error f => rw [ha] at h; simp at h
  | ok a =>
    rw [ha] at h
    cases hb : getFarthestPointInDirection shapeB (-d) with
    | error f => rw [hb] at h; simp at h
    | ok b =>
      rw [hb] at h
      simp at h
      obtain ⟨hma, hxa⟩ := getFarthest_spec ha
      obtain ⟨hmb, hxb⟩ := getFarthest_spec hb
      refine ⟨a, b, hma, hmb, h.symm, rfl, rfl, hxa, ?_⟩
      intro w hw
      have := hxb w hw
      rw [dot_neg_right, dot_neg_right] at this
      linarith

/-- On non-empty shapes `support` returns. -/
theorem support_ok {shapeA shapeB : List (Vector K)} (d : Vector K)
    (hA : shapeA ≠ []) (hB : shapeB ≠ []) : ∃ p, support shapeA shapeB d = .ok p := by
  obtain ⟨a, ha⟩ := getFarthest_ok d hA
  obtain ⟨b, hb⟩ := getFarthest_ok (-d) hB
  exact ⟨a - b, by simp [support, ha, hb]⟩

theorem support_ne_nil {shapeA shapeB : List (Vector K)} {d p : Vector K}
    (h : support shapeA shapeB d = .ok p) : shapeA ≠ [] ∧ shapeB ≠ [] := by
  obtain ⟨a, b, -, -, -, ha, hb, -, -⟩ := support_spec h
  exact ⟨getFarthest_ne_nil ha, getFarthest_ne_nil hb⟩

theorem mem_minkowskiDifference {shapeA shapeB : List (Vector K)} {m : Vector K} :
    m ∈ minkowskiDifference shapeA shapeB ↔ ∃ a ∈ shapeA, ∃ b ∈ shapeB, m = a - b := by
  induction shapeA with
  | nil => simp [minkowskiDifference]
  | cons a rest ih =>
    simp only [minkowskiDifference, List.mem_append, List.mem_map, ih, List.mem_cons]
    constructor
    · rintro (⟨b, hb, rfl⟩ | ⟨a2, ha2, b, hb, rfl⟩)
      · exact ⟨a, Or.inl rfl, b, hb, rfl⟩
      · exact ⟨a2, Or.inr ha2, b, hb, rfl⟩
    · rintro ⟨a2, ha2 | ha2, b, hb, rfl⟩
      · subst ha2; exact Or.inl ⟨b, hb, rfl⟩
      · exact Or.inr ⟨a2, ha2, b, hb, rfl⟩

theorem support_mem {shapeA shapeB : List (Vector K)} {d p : Vector K}
    (h : support shapeA shapeB d = .ok p) : p ∈ minkowskiDifference shapeA shapeB := by
  obtain ⟨a, b, ha, hb, hp, -⟩ := support_spec h
  exact mem_minkowskiDifference.2 ⟨a, ha, b, hb, hp⟩

/-! ## Convex hulls -/

theorem inHull_dot_le {shape : List (Vector K)} {x d : Vector K} {m : K}
    (hx : InHull shape x) (hm : ∀ v ∈ shape, dot v d ≤ m) : dot x d ≤ m := by
  induction hx with
  | vertex v hv => exact hm v hv
  | segment p q t _ _ h0 h1 ihp ihq =>
    rw [dot_add_left, dot_scale_left, dot_scale_left]
    have h2 : 0 ≤ 1 - t := by linarith
    nlinarith [mul_le_mul_of_nonneg_right ihp h2, mul_le_mul_of_nonneg_right ihq h0]

theorem inHull_dot_ge {shape : List (Vector K)} {x d : Vector K} {m : K}
    (hx : InHull shape x) (hm : ∀ v ∈ shape, m ≤ dot v d) : m ≤ dot x d := by
  induction hx with
  | vertex v hv => exact hm v hv
  | segment p q t _ _ h0 h1 ihp ihq =>
    rw [dot_add_left, dot_scale_left, dot_scale_left]
    have h2 : 0 ≤ 1 - t := by linarith
    nlinarith [mul_le_mul_of_nonneg_right ihp h2, mul_le_mul_of_nonneg_right ihq h0]

theorem inHull_planar {shape : List (Vector K)} {x : Vector K}
    (hx : InHull shape x) (h : Planar shape) : x.y = 0 := by
  induction hx with
  | vertex v hv => exact h v hv
  | segment p q t _ _ h0 h1 ihp ihq => simp [ihp, ihq]

theorem GJK_eq (fuel : Nat) (shapeA shapeB s0 : List (Vector K)) :
    GJK fuel shapeA shapeB s0 =
      match support shapeA shapeB (⟨1, 0, 1⟩ : Vector K) with
      | .error f => .error f
      | .ok p => GJKLoop shapeA shapeB s0 fuel [p] (-(⟨1, 0, 1⟩ : Vector K)) := rfl

theorem closestEdgeStep_eq (sqrt : K → K) (simplex : List (Vector K)) (i : Nat)
    (ce : Option (Edge K)) :
    closestEdgeStep sqrt simplex i ce =
      if dot (rawNormal simplex i) (rawNormal simplex i) = 0 then ce
      else match ce with
        | none => some (edgeAt sqrt simplex i)
        | some best =>
          if (edgeAt sqrt simplex i).distance < best.distance then
            some (edgeAt sqrt simplex i)
          else some best := rfl

theorem sqrt_pos_of_pos {sqrt : K → K} (hs : IsSqrt sqrt) {q : K} (hq : 0 < q) :
    0 < sqrt q := by
  obtain ⟨h0, h1⟩ := hs q (le_of_lt hq)
  rcases lt_or_eq_of_le h0 with h | h
  · exact h
  · rw [← h] at h1; simp at h1; linarith

theorem doContainsOrigin_two (b a d : Vector K) :
    doContainsOrigin [b, a] d =
      .ok (false, [b, a], if dot (perp (b - a)) (-a) < 0 then -perp (b - a)
        else perp (b - a)) := rfl

theorem erase_second (b c a : Vector K) : [b, c, a].erase c = [b, a] := by
  by_cases h : b = c
  · subst h; simp
  · rw [List.erase_cons_tail (by simpa using h)]
    simp

theorem doContainsOrigin_three (b c a d : Vector K) :
    doContainsOrigin [b, c, a] d =
      if dot (if dot (perp (b - a)) c ≥ 0 then -perp (b - a) else perp (b - a)) (-a) > 0 then
        .ok (false, [b, a], if dot (perp (b - a)) c ≥ 0 then -perp (b - a) else perp (b - a))
      else if dot (if dot (perp (c - a)) b ≥ 0 then -perp (c - a) else perp (c - a)) (-a) ≤ 0
      then .ok (true, [b, c, a], d)
      else .ok (false, [c, a],
        if dot (perp (c - a)) b ≥ 0 then -perp (c - a) else perp (c - a)) := by
  have h1 : doContainsOrigin [b, c, a] d =
      if dot (if dot (perp (b - a)) c ≥ 0 then -perp (b - a) else perp (b - a)) (-a) > 0 then
        .ok (false, [b, c, a].erase c,
          if dot (perp (b - a)) c ≥ 0 then -perp (b - a) else perp (b - a))
      else if dot (if dot (perp (c - a)) b ≥ 0 then -perp (c - a) else perp (c - a)) (-a) ≤ 0
      then .ok (true, [b, c, a], d)
      else .ok (false, [b, c, a].erase b,
        if dot (perp (c - a)) b ≥ 0 then -perp (c - a) else perp (c - a)) := rfl
  rw [h1, erase_second]
  simp

theorem doContainsOrigin_subset {simplex s2 : List (Vector K)} {d d2 : Vector K} {flag : Bool}
    (h : doContainsOrigin simplex d = .ok (flag, s2, d2)) : ∀ v ∈ s2, v ∈ simplex := by
  unfold doContainsOrigin at h
  cases hl : simplex.getLast? with
  | none => rw [hl] at h; simp at h
  | some a =>
    rw [hl] at h
    simp only at h
    split_ifs at h <;> simp at h <;> obtain ⟨-, rfl, -⟩ := h <;> intro v hv
    all_goals first
      | exact hv
      | exact List.mem_of_mem_erase hv

/-- Every point of the simplex `GJK` hands back is a vertex difference. -/
theorem GJKLoop_true_mem {shapeA shapeB s0 : List (Vector K)} :
    ∀ (fuel : Nat) (simplex : List (Vector K)) (direction : Vector K) (s : List (Vector K)),
      (∀ v ∈ simplex, v ∈ minkowskiDifference shapeA shapeB) →
      GJKLoop shapeA shapeB s0 fuel simplex direction = .ok (true, s) →
      ∀ v ∈ s, v ∈ minkowskiDifference shapeA shapeB := by
  intro fuel
  induction fuel with
  | zero => intro simplex direction s _ h; simp [GJKLoop] at h
  | succ n ih =>
    intro simplex direction s hsub h
    rw [GJKLoop] at h
    cases hs : support shapeA shapeB direction with
    | error f => rw [hs] at h; simp at h
    | ok p =>
      rw [hs] at h
      simp only at h
      by_cases hneg : dot p direction < 0
      · rw [if_pos hneg] at h; simp at h
      · rw [if_neg hneg] at h
        have hsub1 : ∀ v ∈ simplex ++ [p], v ∈ minkowskiDifference shapeA shapeB := by
          intro v hv
          rcases List.mem_append.1 hv with hv | hv
          · exact hsub v hv
          · simp at hv; rw [hv]; exact support_mem hs
        cases hdo : doContainsOrigin (simplex ++ [p]) direction with
        | error f => rw [hdo] at h; simp at h
        | ok r =>
          obtain ⟨flag, s2, d2⟩ := r
          rw [hdo] at h
          have hsub2 : ∀ v ∈ s2, v ∈ minkowskiDifference shapeA shapeB :=
            fun v hv => hsub1 v (doContainsOrigin_subset hdo v hv)
          cases flag with
          | true => simp at h; rw [← h]; exact hsub2
          | false => exact ih s2 d2 s hsub2 h

theorem GJK_true_mem {shapeA shapeB s0 s : List (Vector K)} {fuel : Nat}
    (h : GJK fuel shapeA shapeB s0 = .ok (true, s)) :
    ∀ v ∈ s, v ∈ minkowskiDifference shapeA shapeB := by
  rw [GJK_eq] at h
  cases hs : support shapeA shapeB (⟨1, 0, 1⟩ : Vector K) with
  | error f => rw [hs] at h; simp at h
  | ok p =>
    rw [hs] at h
    refine GJKLoop_true_mem fuel [p] _ s ?_ h
    intro v hv
    simp at hv; rw [hv]; exact support_mem hs

/-- The result `true` of `intersect` is the result `true` of `GJK` followed by `EPA`. -/
theorem intersect_true {sqrt : K → K} {fuel : Nat} {rd d : K} {rv n : Vector K}
    {shapeA shapeB : List (Vector K)}
    (h : intersect sqrt fuel rd rv shapeA shapeB = .ok (true, d, n)) :
    ∃ s, GJK fuel shapeA shapeB [] = .ok (true, s) ∧
      EPA sqrt shapeA shapeB fuel s = .ok (d, n) := by
  unfold intersect at h
  cases hg : GJK fuel shapeA shapeB [] with
  | error f => rw [hg] at h; simp at h
  | ok r =>
    obtain ⟨flag, s⟩ := r
    rw [hg] at h
    cases flag with
    | false => simp at h
    | true =>
      simp only at h
      cases he : EPA sqrt shapeA shapeB fuel s with
      | error f => rw [he] at h; simp at h
      | ok r2 =>
        obtain ⟨d2, n2⟩ := r2
        rw [he] at h
        simp at h
        exact ⟨s, rfl, by rw [he, h.1, h.2]⟩

/-- The result `false` of `intersect` is the result `false` of `GJK`; the two
out-parameters keep their values. -/
theorem intersect_false {sqrt : K → K} {fuel : Nat} {rd d : K} {rv n : Vector K}
    {shapeA shapeB : List (Vector K)}
    (h : intersect sqrt fuel rd rv shapeA shapeB = .ok (false, d, n)) :
    (∃ s, GJK fuel shapeA shapeB [] = .ok (false, s)) ∧ d = rd ∧ n = rv := by
  unfold intersect at h
  cases hg : GJK fuel shapeA shapeB [] with
  | error f => rw [hg] at h; simp at h
  | ok r =>
    obtain ⟨flag, s⟩ := r
    rw [hg] at h
    cases flag with
    | false =>
      simp at h
      exact ⟨⟨s, rfl⟩, h.1.symm, h.2.symm⟩
    | true =>
      simp only at h
      cases he : EPA sqrt shapeA shapeB fuel s with
      | error f => rw [he] at h; simp at h
      | ok r2 =>
        obtain ⟨d2, n2⟩ := r2
        rw [he] at h
        simp at h

/-! ## Tools for running the functions on given shapes -/

theorem getFarthest_unique {shape : List (Vector K)} {d v : Vector K} (hv : v ∈ shape)
    (h : ∀ w ∈ shape, w ≠ v → dot w d < dot v d) :
    getFarthestPointInDirection shape d = .ok v := by
  obtain ⟨u, hu⟩ := getFarthest_ok d (List.ne_nil_of_mem hv)
  obtain ⟨hmem, hmax⟩ := getFarthest_spec hu
  by_cases huv : u = v
  · rw [hu, huv]
  · have h1 := h u hmem huv
    have h2 := hmax v hv
    exact absurd h1 (not_lt.2 h2)

theorem support_unique {shapeA shapeB : List (Vector K)} {d a b : Vector K}
    (ha : a ∈ shapeA) (hamax : ∀ w ∈ shapeA, w ≠ a → dot w d < dot a d)
    (hb : b ∈ shapeB) (hbmin : ∀ w ∈ shapeB, w ≠ b → dot b d < dot w d) :
    support shapeA shapeB d = .ok (a - b) := by
  have h1 := getFarthest_unique ha hamax
  have h2 : getFarthestPointInDirection shapeB (-d) = .ok b := by
    apply getFarthest_unique hb
    intro w hw hne
    rw [dot_neg_right, dot_neg_right]
    have := hbmin w hw hne
    linarith
  simp [support, h1, h2]

theorem support_value {shapeA shapeB : List (Vector K)} {d p a b : Vector K}
    (h : support shapeA shapeB d = .ok p)
    (ha : a ∈ shapeA) (hamax : ∀ w ∈ shapeA, dot w d ≤ dot a d)
    (hb : b ∈ shapeB) (hbmin : ∀ w ∈ shapeB, dot b d ≤ dot w d) :
    dot p d = dot a d - dot b d := by
  obtain ⟨a0, b0, ha0, hb0, hp, -, -, hxa, hxb⟩ := support_spec h
  rw [hp, dot_sub_left]
  have h1 := hamax a0 ha0
  have h2 := hxa a ha
  have h3 := hbmin b0 hb0
  have h4 := hxb b hb
  linarith

theorem farthestScan_scale (d : Vector K) {k : K} (hk : 0 < k) :
    ∀ (rest : List (Vector K)) (i mi : Nat) (mx : K),
      farthestScan (scale d k) rest i mi (mx * k) = farthestScan d rest i mi mx := by
  intro rest
  induction rest with
  | nil => intro i mi mx; rfl
  | cons v vs ih =>
    intro i mi mx
    rw [farthestScan, farthestScan, dot_scale_right]
    have hiff : dot v d * k > mx * k ↔ dot v d > mx := by
      constructor
      · intro h; exact lt_of_mul_lt_mul_right h (le_of_lt hk)
      · intro h; exact mul_lt_mul_of_pos_right h hk
    by_cases hgt : dot v d > mx
    · rw [if_pos hgt, if_pos (hiff.2 hgt)]; exact ih _ _ _
    · rw [if_neg hgt, if_neg (fun h => hgt (hiff.1 h))]; exact ih _ _ _

/-- Scaling the direction by a positive factor does not change the farthest vertex. -/
theorem getFarthest_scale (shape : List (Vector K)) (d : Vector K) {k : K} (hk : 0 < k) :
    getFarthestPointInDirection shape (scale d k) = getFarthestPointInDirection shape d := by
  cases shape with
  | nil => rfl
  | cons v0 rest =>
    simp only [getFarthestPointInDirection]
    rw [dot_scale_right, farthestScan_scale d hk]

theorem support_scale (shapeA shapeB : List (Vector K)) (d : Vector K) {k : K} (hk : 0 < k) :
    support shapeA shapeB (scale d k) = support shapeA shapeB d := by
  simp only [support]
  rw [getFarthest_scale shapeA d hk, neg_scale, getFarthest_scale shapeB (-d) hk]

theorem sqrt_mul_self {sqrt : K → K} (hs : IsSqrt sqrt) {c : K} (hc : 0 ≤ c) :
    sqrt (c * c) = c := by
  obtain ⟨h0, h1⟩ := hs (c * c) (mul_self_nonneg c)
  rcases mul_self_eq_mul_self_iff.1 h1 with h | h
  · exact h
  · have : c = 0 := by linarith
    rw [h, this]; simp

theorem EPA_done {sqrt : K → K} {shapeA shapeB simplex : List (Vector K)} {e : Edge K}
    {p : Vector K} (fuel : Nat) (he : findClosestEdge sqrt simplex = some e)
    (hp : support shapeA shapeB e.normal = .ok p)
    (hc : |dot p e.normal - e.distance| < 1 / 100) :
    EPA sqrt shapeA shapeB (fuel + 1) simplex = .ok (dot p e.normal, e.normal) := by
  rw [EPA, he]
  simp only
  rw [hp]
  simp only
  rw [if_pos hc]

theorem EPA_more {sqrt : K → K} {shapeA shapeB simplex : List (Vector K)} {e : Edge K}
    {p : Vector K} (fuel : Nat) (he : findClosestEdge sqrt simplex = some e)
    (hp : support shapeA shapeB e.normal = .ok p)
    (hc : ¬ |dot p e.normal - e.distance| < 1 / 100) :
    EPA sqrt shapeA shapeB (fuel + 1) simplex =
      EPA sqrt shapeA shapeB fuel (insertAt simplex e.index p) := by
  rw [EPA, he]
  simp only
  rw [hp]
  simp only
  rw [if_neg hc]

theorem GJKLoop_stop {shapeA shapeB s0 simplex : List (Vector K)} {direction p : Vector K}
    (fuel : Nat) (hp : support shapeA shapeB direction = .ok p)
    (hneg : dot p direction < 0) :
    GJKLoop shapeA shapeB s0 (fuel + 1) simplex direction = .ok (false, s0) := by
  rw [GJKLoop, hp]
  simp only
  rw [if_pos hneg]

theorem GJKLoop_step {shapeA shapeB s0 simplex : List (Vector K)} {direction p : Vector K}
    (fuel : Nat) (hp : support shapeA shapeB direction = .ok p)
    (hneg : ¬ dot p direction < 0) :
    GJKLoop shapeA shapeB s0 (fuel + 1) simplex direction =
      match doContainsOrigin (simplex ++ [p]) direction with
      | .error f => .error f
      | .ok (true, simplex2, _) => .ok (true, simplex2)
      | .ok (false, simplex2, direction2) =>
        GJKLoop shapeA shapeB s0 fuel simplex2 direction2 := by
  rw [GJKLoop, hp]
  simp only
  rw [if_neg hneg]

theorem findClosestEdge_three (sqrt : K → K) (a b c : Vector K) :
    findClosestEdge sqrt [a, b, c] =
      closestEdgeStep sqrt [a, b, c] 2 (closestEdgeStep sqrt [a, b, c] 1
        (closestEdgeStep sqrt [a, b, c] 0 none)) := rfl

theorem findClosestEdge_four (sqrt : K → K) (a b c d : Vector K) :
    findClosestEdge sqrt [a, b, c, d] =
      closestEdgeStep sqrt [a, b, c, d] 3 (closestEdgeStep sqrt [a, b, c, d] 2
        (closestEdgeStep sqrt [a, b, c, d] 1 (closestEdgeStep sqrt [a, b, c, d] 0 none))) :=
  rfl

/-! ## Two unit squares overlapping along the x axis -/


theorem translateBy_unitSquare (t : K) : translateBy (unitSquare : List (Vector K)) ⟨t, 0, 0⟩ = squareT t := by
  simp [translateBy, unitSquare, squareT]

theorem overlap_s0 (t : K) : support (unitSquare : List (Vector K)) (squareT t) ⟨1, 0, 1⟩ = .ok ⟨1 - t, 0, 1⟩ := by
  have := @support_unique K _ unitSquare (squareT t) ⟨1,0,1⟩ ⟨1,0,1⟩ ⟨t,0,0⟩
    (by simp [unitSquare])
    (by intro w hw hne; simp [unitSquare] at hw; rcases hw with rfl | rfl | rfl | rfl <;> simp at hne ⊢ <;> try linarith)
    (by simp [squareT])
    (by intro w hw hne; simp [squareT] at hw; rcases hw with rfl | rfl | rfl | rfl <;> simp at hne ⊢ <;> try linarith)
  rw [this]; simp

theorem overlap_s1 (t : K) : support (unitSquare : List (Vector K)) (squareT t) (-⟨1, 0, 1⟩) = .ok ⟨-1 - t, 0, -1⟩ := by
  have := @support_unique K _ unitSquare (squareT t) (-⟨1,0,1⟩) ⟨0,0,0⟩ ⟨1+t,0,1⟩
    (by simp [unitSquare])
    (by intro w hw hne; simp [unitSquare] at hw; rcases hw with rfl | rfl | rfl | rfl <;> simp at hne ⊢ <;> try linarith)
    (by simp [squareT])
    (by intro w hw hne; simp [squareT] at hw; rcases hw with rfl | rfl | rfl | rfl <;> simp at hne ⊢ <;> try linarith)
  rw [this]; simp; ring

theorem overlap_s2 (t : K) : support (unitSquare : List (Vector K)) (squareT t) ⟨2, 0, -2⟩ = .ok ⟨1 - t, 0, -1⟩ := by
  have := @support_unique K _ unitSquare (squareT t) ⟨2,0,-2⟩ ⟨1,0,0⟩ ⟨t,0,1⟩
    (by simp [unitSquare])
    (by intro w hw hne; simp [unitSquare] at hw; rcases hw with rfl | rfl | rfl | rfl <;> simp at hne ⊢ <;> try linarith)
    (by simp [squareT])
    (by intro w hw hne; simp [squareT] at hw; rcases hw with rfl | rfl | rfl | rfl <;> simp at hne ⊢ <;> try linarith)
  rw [this]; simp

theorem overlap_gjk (t : K) (h0 : 0 < t) (h1 : t < 1) (fuel : Nat) (si : List (Vector K)) :
    GJK (fuel + 2) (unitSquare : List (Vector K)) (squareT t) si =
      .ok (true, [⟨1 - t, 0, 1⟩, ⟨-1 - t, 0, -1⟩, ⟨1 - t, 0, -1⟩]) := by
  rw [GJK_eq, overlap_s0]
  simp only
  rw [GJKLoop_step (fuel + 1) (overlap_s1 t) (by simp; linarith)]
  have hd : doContainsOrigin ([(⟨1 - t, 0, 1⟩ : Vector K)] ++ [⟨-1 - t, 0, -1⟩]) (-⟨1, 0, 1⟩) =
      .ok (false, [⟨1 - t, 0, 1⟩, ⟨-1 - t, 0, -1⟩], ⟨2, 0, -2⟩) := by
    rw [List.singleton_append, doContainsOrigin_two]
    have : dot (perp ((⟨1 - t, 0, 1⟩ : Vector K) - ⟨-1 - t, 0, -1⟩)) (-⟨-1 - t, 0, -1⟩) < 0 := by
      simp [perp]; linarith
    rw [if_pos this]
    simp [perp]; constructor <;> ring
  rw [hd]
  simp only
  rw [GJKLoop_step fuel (overlap_s2 t) (by simp; linarith)]
  have hd2 : doContainsOrigin ([(⟨1 - t, 0, 1⟩ : Vector K), ⟨-1 - t, 0, -1⟩] ++ [⟨1 - t, 0, -1⟩]) ⟨2, 0, -2⟩ =
      .ok (true, [⟨1 - t, 0, 1⟩, ⟨-1 - t, 0, -1⟩, ⟨1 - t, 0, -1⟩], ⟨2, 0, -2⟩) := by
    have : [(⟨1 - t, 0, 1⟩ : Vector K), ⟨-1 - t, 0, -1⟩] ++ [⟨1 - t, 0, -1⟩] = [⟨1 - t, 0, 1⟩, ⟨-1 - t, 0, -1⟩, ⟨1 - t, 0, -1⟩] := rfl
    rw [this, doContainsOrigin_three]
    have c1 : dot (perp ((⟨1 - t, 0, 1⟩ : Vector K) - ⟨1 - t, 0, -1⟩)) ⟨-1 - t, 0, -1⟩ ≥ 0 := by
      simp [perp]; linarith
    rw [if_pos c1]
    have c2 : ¬ dot (-perp ((⟨1 - t, 0, 1⟩ : Vector K) - ⟨1 - t, 0, -1⟩)) (-⟨1 - t, 0, -1⟩) > 0 := by
      simp [perp]; linarith
    rw [if_neg c2]
    have c3 : ¬ dot (perp ((⟨-1 - t, 0, -1⟩ : Vector K) - ⟨1 - t, 0, -1⟩)) ⟨1 - t, 0, 1⟩ ≥ 0 := by
      simp [perp]
    rw [if_neg c3]
    have c4 : dot (perp ((⟨-1 - t, 0, -1⟩ : Vector K) - ⟨1 - t, 0, -1⟩)) (-⟨1 - t, 0, -1⟩) ≤ 0 := by
      simp [perp]
    rw [if_pos c4]
  rw [hd2]

theorem sqrt_four {sqrt : K → K} (hs : IsSqrt sqrt) : sqrt 4 = 2 := by
  have := sqrt_mul_self hs (show (0:K) ≤ 2 by norm_num)
  norm_num at this
  exact this

theorem sqrt_eight {sqrt : K → K} (hs : IsSqrt sqrt) : 2 < sqrt 8 ∧ sqrt 8 < 3 ∧ sqrt 8 * sqrt 8 = 8 := by
  obtain ⟨h0, h1⟩ := hs 8 (by norm_num)
  refine ⟨?_, ?_, h1⟩
  · by_contra h; push_neg at h; nlinarith
  · by_contra h; push_neg at h; nlinarith

theorem rawNormal_of_ge (simplex : List (Vector K)) (i : Nat) (a b : Vector K)
    (ha : simplex.getD i 0 = a)
    (hb : simplex.getD (if i + 1 = simplex.length then 0 else i + 1) 0 = b)
    (h : dot (perp (b - a)) (-a) ≥ 0) : rawNormal simplex i = -perp (b - a) := by
  simp only [rawNormal, ha, hb]
  rw [if_pos h]

theorem rawNormal_of_lt (simplex : List (Vector K)) (i : Nat) (a b : Vector K)
    (ha : simplex.getD i 0 = a)
    (hb : simplex.getD (if i + 1 = simplex.length then 0 else i + 1) 0 = b)
    (h : dot (perp (b - a)) (-a) < 0) : rawNormal simplex i = perp (b - a) := by
  simp only [rawNormal, ha, hb]
  rw [if_neg (not_le.2 h)]

theorem edgeAt_eq {sqrt : K → K} {simplex : List (Vector K)} {i : Nat} {n1 : Vector K} {r : K}
    (hn : rawNormal simplex i = n1) (hr : sqrt (dot n1 n1) = r) :
    edgeAt sqrt simplex i = ⟨dot (simplex.getD i 0) (scale n1 (1 / r)),
      if i + 1 = simplex.length then 0 else i + 1, scale n1 (1 / r)⟩ := by
  simp only [edgeAt, hn, hr]

section
variable (sqrt : K → K) (t : K)

theorem overlap_raw0 (h0 : 0 < t) : rawNormal [(⟨1 - t, 0, 1⟩ : Vector K), ⟨-1 - t, 0, -1⟩, ⟨1 - t, 0, -1⟩] 0 = ⟨-2, 0, 2⟩ := by
  rw [rawNormal_of_ge [(⟨1 - t, 0, 1⟩ : Vector K), ⟨-1 - t, 0, -1⟩, ⟨1 - t, 0, -1⟩] 0 ⟨1 - t, 0, 1⟩ ⟨-1 - t, 0, -1⟩ rfl rfl (by simp [perp]; linarith)]
  apply vec_ext <;> simp [perp] <;> ring

theorem overlap_raw1 : rawNormal [(⟨1 - t, 0, 1⟩ : Vector K), ⟨-1 - t, 0, -1⟩, ⟨1 - t, 0, -1⟩] 1 = ⟨0, 0, -2⟩ := by
  rw [rawNormal_of_ge [(⟨1 - t, 0, 1⟩ : Vector K), ⟨-1 - t, 0, -1⟩, ⟨1 - t, 0, -1⟩] 1 ⟨-1 - t, 0, -1⟩ ⟨1 - t, 0, -1⟩ rfl rfl (by simp [perp])]
  apply vec_ext <;> simp [perp] <;> ring

theorem overlap_raw2 (h1 : t < 1) : rawNormal [(⟨1 - t, 0, 1⟩ : Vector K), ⟨-1 - t, 0, -1⟩, ⟨1 - t, 0, -1⟩] 2 = ⟨2, 0, 0⟩ := by
  rw [rawNormal_of_ge [(⟨1 - t, 0, 1⟩ : Vector K), ⟨-1 - t, 0, -1⟩, ⟨1 - t, 0, -1⟩] 2 ⟨1 - t, 0, -1⟩ ⟨1 - t, 0, 1⟩ rfl rfl (by simp [perp]; nlinarith)]
  apply vec_ext <;> simp [perp] <;> ring

theorem overlap_edge0 (h0 : 0 < t) : edgeAt sqrt [(⟨1 - t, 0, 1⟩ : Vector K), ⟨-1 - t, 0, -1⟩, ⟨1 - t, 0, -1⟩] 0 =
    ⟨2 * t / sqrt 8, 1, scale ⟨-2, 0, 2⟩ (1 / sqrt 8)⟩ := by
  rw [edgeAt_eq (overlap_raw0 t h0) (show sqrt (dot (⟨-2, 0, 2⟩ : Vector K) ⟨-2, 0, 2⟩) = sqrt 8 by norm_num)]
  simp
  ring

theorem overlap_edge1 (hs : IsSqrt sqrt) : edgeAt sqrt [(⟨1 - t, 0, 1⟩ : Vector K), ⟨-1 - t, 0, -1⟩, ⟨1 - t, 0, -1⟩] 1 =
    ⟨1, 2, ⟨0, 0, -1⟩⟩ := by
  rw [edgeAt_eq (overlap_raw1 t) (show sqrt (dot (⟨0, 0, -2⟩ : Vector K) ⟨0, 0, -2⟩) = 2 by norm_num; exact sqrt_four hs)]
  norm_num

theorem overlap_edge2 (hs : IsSqrt sqrt) (h1 : t < 1) : edgeAt sqrt [(⟨1 - t, 0, 1⟩ : Vector K), ⟨-1 - t, 0, -1⟩, ⟨1 - t, 0, -1⟩] 2 =
    ⟨1 - t, 0, ⟨1, 0, 0⟩⟩ := by
  rw [edgeAt_eq (overlap_raw2 t h1) (show sqrt (dot (⟨2, 0, 0⟩ : Vector K) ⟨2, 0, 0⟩) = 2 by norm_num; exact sqrt_four hs)]
  norm_num
end

section
variable (sqrt : K → K) (t : K)

theorem overlap_closest (hs : IsSqrt sqrt) (h0 : 0 < t) (h1 : t < 1) :
    findClosestEdge sqrt [(⟨1 - t, 0, 1⟩ : Vector K), ⟨-1 - t, 0, -1⟩, ⟨1 - t, 0, -1⟩] =
      if 1 - t < 2 * t / sqrt 8 then some ⟨1 - t, 0, ⟨1, 0, 0⟩⟩
      else some ⟨2 * t / sqrt 8, 1, scale ⟨-2, 0, 2⟩ (1 / sqrt 8)⟩ := by
  obtain ⟨h8a, h8b, h8c⟩ := sqrt_eight hs
  have hpos : (0 : K) < sqrt 8 := by linarith
  rw [findClosestEdge_three, closestEdgeStep_eq, closestEdgeStep_eq, closestEdgeStep_eq,
    overlap_edge0 sqrt t h0, overlap_edge1 sqrt t hs, overlap_edge2 sqrt t hs h1, overlap_raw0 t h0, overlap_raw1 t, overlap_raw2 t h1]
  have hlt : ¬ (1 : K) < 2 * t / sqrt 8 := by
    rw [lt_div_iff hpos]; nlinarith
  norm_num [hlt]

theorem overlap_value {p : Vector K} (hp : support (unitSquare : List (Vector K)) (squareT t) ⟨1, 0, 0⟩ = .ok p) :
    dot p ⟨1, 0, 0⟩ = 1 - t := by
  rw [support_value hp (a := ⟨1, 0, 0⟩) (b := ⟨t, 0, 0⟩)]
  · simp
  · simp [unitSquare]
  · intro w hw; simp [unitSquare] at hw; rcases hw with rfl | rfl | rfl | rfl <;> simp
  · simp [squareT]
  · intro w hw; simp [squareT] at hw; rcases hw with rfl | rfl | rfl | rfl <;> simp
end

section
variable (sqrt : K → K) (t : K)

theorem overlap_s3 (hs : IsSqrt sqrt) : support (unitSquare : List (Vector K)) (squareT t) (scale ⟨-2, 0, 2⟩ (1 / sqrt 8)) = .ok ⟨-1 - t, 0, 1⟩ := by
  obtain ⟨h8a, h8b, h8c⟩ := sqrt_eight hs
  rw [support_scale _ _ _ (one_div_pos.2 (by linarith))]
  have := @support_unique K _ unitSquare (squareT t) ⟨-2,0,2⟩ ⟨0,0,1⟩ ⟨1+t,0,0⟩
    (by simp [unitSquare])
    (by intro w hw hne; simp [unitSquare] at hw; rcases hw with rfl | rfl | rfl | rfl <;> simp at hne ⊢ <;> try linarith)
    (by simp [squareT])
    (by intro w hw hne; simp [squareT] at hw; rcases hw with rfl | rfl | rfl | rfl <;> simp at hne ⊢ <;> try linarith)
  rw [this]; simp; ring

theorem overlap_raw4_0 : rawNormal [(⟨1 - t, 0, 1⟩ : Vector K), ⟨-1 - t, 0, 1⟩, ⟨-1 - t, 0, -1⟩, ⟨1 - t, 0, -1⟩] 0 = ⟨0, 0, 2⟩ := by
  rw [rawNormal_of_ge [(⟨1 - t, 0, 1⟩ : Vector K), ⟨-1 - t, 0, 1⟩, ⟨-1 - t, 0, -1⟩, ⟨1 - t, 0, -1⟩] 0 ⟨1 - t, 0, 1⟩ ⟨-1 - t, 0, 1⟩ rfl rfl (by simp [perp]; try nlinarith)]
  apply vec_ext <;> simp [perp] <;> ring

theorem overlap_raw4_1 (h0 : 0 < t) : rawNormal [(⟨1 - t, 0, 1⟩ : Vector K), ⟨-1 - t, 0, 1⟩, ⟨-1 - t, 0, -1⟩, ⟨1 - t, 0, -1⟩] 1 = ⟨-2, 0, 0⟩ := by
  rw [rawNormal_of_ge [(⟨1 - t, 0, 1⟩ : Vector K), ⟨-1 - t, 0, 1⟩, ⟨-1 - t, 0, -1⟩, ⟨1 - t, 0, -1⟩] 1 ⟨-1 - t, 0, 1⟩ ⟨-1 - t, 0, -1⟩ rfl rfl (by simp [perp]; try nlinarith)]
  apply vec_ext <;> simp [perp] <;> ring

theorem overlap_raw4_2 : rawNormal [(⟨1 - t, 0, 1⟩ : Vector K), ⟨-1 - t, 0, 1⟩, ⟨-1 - t, 0, -1⟩, ⟨1 - t, 0, -1⟩] 2 = ⟨0, 0, -2⟩ := by
  rw [rawNormal_of_ge [(⟨1 - t, 0, 1⟩ : Vector K), ⟨-1 - t, 0, 1⟩, ⟨-1 - t, 0, -1⟩, ⟨1 - t, 0, -1⟩] 2 ⟨-1 - t, 0, -1⟩ ⟨1 - t, 0, -1⟩ rfl rfl (by simp [perp]; try nlinarith)]
  apply vec_ext <;> simp [perp] <;> ring

theorem overlap_raw4_3 (h1 : t < 1) : rawNormal [(⟨1 - t, 0, 1⟩ : Vector K), ⟨-1 - t, 0, 1⟩, ⟨-1 - t, 0, -1⟩, ⟨1 - t, 0, -1⟩] 3 = ⟨2, 0, 0⟩ := by
  rw [rawNormal_of_ge [(⟨1 - t, 0, 1⟩ : Vector K), ⟨-1 - t, 0, 1⟩, ⟨-1 - t, 0, -1⟩, ⟨1 - t, 0, -1⟩] 3 ⟨1 - t, 0, -1⟩ ⟨1 - t, 0, 1⟩ rfl rfl (by simp [perp]; try nlinarith)]
  apply vec_ext <;> simp [perp] <;> ring

theorem overlap_closest4 (hs : IsSqrt sqrt) (h0 : 0 < t) (h1 : t < 1) :
    findClosestEdge sqrt [(⟨1 - t, 0, 1⟩ : Vector K), ⟨-1 - t, 0, 1⟩, ⟨-1 - t, 0, -1⟩, ⟨1 - t, 0, -1⟩] =
      some ⟨1 - t, 0, ⟨1, 0, 0⟩⟩ := by
  have h4 := sqrt_four hs
  rw [findClosestEdge_four, closestEdgeStep_eq, closestEdgeStep_eq, closestEdgeStep_eq, closestEdgeStep_eq,
    edgeAt_eq (overlap_raw4_0 t) (show sqrt (dot (⟨0, 0, 2⟩ : Vector K) ⟨0, 0, 2⟩) = 2 by norm_num; exact h4),
    edgeAt_eq (overlap_raw4_1 t h0) (show sqrt (dot (⟨-2, 0, 0⟩ : Vector K) ⟨-2, 0, 0⟩) = 2 by norm_num; exact h4),
    edgeAt_eq (overlap_raw4_2 t) (show sqrt (dot (⟨0, 0, -2⟩ : Vector K) ⟨0, 0, -2⟩) = 2 by norm_num; exact h4),
    edgeAt_eq (overlap_raw4_3 t h1) (show sqrt (dot (⟨2, 0, 0⟩ : Vector K) ⟨2, 0, 0⟩) = 2 by norm_num; exact h4),
    overlap_raw4_0 t, overlap_raw4_1 t h0, overlap_raw4_2 t, overlap_raw4_3 t h1]
  have e1 : ¬ t < 0 := by linarith
  norm_num [e1, h0]

end

section
variable (sqrt : K → K) (t : K)

theorem overlap_epa (hs : IsSqrt sqrt) (h0 : 0 < t) (h1 : t < 1) (fuel : Nat) :
    EPA sqrt (unitSquare : List (Vector K)) (squareT t) (fuel + 2)
      [⟨1 - t, 0, 1⟩, ⟨-1 - t, 0, -1⟩, ⟨1 - t, 0, -1⟩] = .ok (1 - t, ⟨1, 0, 0⟩) := by
  obtain ⟨h8a, h8b, h8c⟩ := sqrt_eight hs
  have hpos : (0 : K) < sqrt 8 := by linarith
  obtain ⟨p, hp⟩ := support_ok (⟨1, 0, 0⟩ : Vector K) (show (unitSquare : List (Vector K)) ≠ [] by simp [unitSquare])
    (show squareT t ≠ [] by simp [squareT])
  have hv := overlap_value t hp
  by_cases hc : 1 - t < 2 * t / sqrt 8
  · have he := overlap_closest sqrt t hs h0 h1
    rw [if_pos hc] at he
    have := EPA_done (fuel + 1) he hp (by simp [hv])
    rw [this]
    simp [hv]
  · have he := overlap_closest sqrt t hs h0 h1
    rw [if_neg hc] at he
    have hs3 := overlap_s3 sqrt t hs
    have hbig : ¬ |dot (⟨-1 - t, 0, 1⟩ : Vector K) (scale ⟨-2, 0, 2⟩ (1 / sqrt 8)) - 2 * t / sqrt 8| < 1 / 100 := by
      have : dot (⟨-1 - t, 0, 1⟩ : Vector K) (scale ⟨-2, 0, 2⟩ (1 / sqrt 8)) - 2 * t / sqrt 8 = 4 / sqrt 8 := by
        simp; field_simp; ring
      rw [this, abs_of_pos (div_pos (by norm_num) hpos), not_lt, div_le_div_iff (by norm_num) hpos]
      linarith
    rw [EPA_more (fuel + 1) he hs3 hbig]
    have hins : insertAt [(⟨1 - t, 0, 1⟩ : Vector K), ⟨-1 - t, 0, -1⟩, ⟨1 - t, 0, -1⟩] 1 ⟨-1 - t, 0, 1⟩ =
        [⟨1 - t, 0, 1⟩, ⟨-1 - t, 0, 1⟩, ⟨-1 - t, 0, -1⟩, ⟨1 - t, 0, -1⟩] := rfl
    simp only
    rw [hins]
    have := EPA_done fuel (overlap_closest4 sqrt t hs h0 h1) hp (by simp [hv])
    rw [this]
    simp [hv]

theorem overlap_intersect (hs : IsSqrt sqrt) (h0 : 0 < t) (h1 : t < 1) (fuel : Nat) (rd : K) (rv : Vector K) :
    intersect sqrt (fuel + 2) rd rv (unitSquare : List (Vector K)) (squareT t) = .ok (true, 1 - t, ⟨1, 0, 0⟩) := by
  rw [intersect, overlap_gjk t h0 h1 fuel]
  simp only
  rw [overlap_epa sqrt t hs h0 h1 fuel]
end

/-! ## A square against itself -/

section
variable (sqrt : K → K) (x0 z0 s : K) (S : List (Vector K))

end

section
variable (sqrt : K → K) (x0 z0 s : K) (S : List (Vector K))

theorem sqrt_two_mul (hs : IsSqrt sqrt) (hpos : 0 < s) (w : K) (hw : w = 2 * s * (2 * s)) : sqrt w = 2 * s := by
  rw [hw]; exact sqrt_mul_self hs (by linarith)

theorem square_raw0 : rawNormal [(⟨s, 0, s⟩ : Vector K), ⟨-s, 0, -s⟩, ⟨-s, 0, s⟩] 0 = ⟨-(2 * s), 0, 2 * s⟩ := by
  rw [rawNormal_of_ge [(⟨s, 0, s⟩ : Vector K), ⟨-s, 0, -s⟩, ⟨-s, 0, s⟩] 0 ⟨s, 0, s⟩ ⟨-s, 0, -s⟩ rfl rfl
    (by simp [perp]; apply le_of_eq; ring)]
  apply vec_ext <;> simp [perp] <;> ring

theorem square_raw1 (hpos : 0 < s) : rawNormal [(⟨s, 0, s⟩ : Vector K), ⟨-s, 0, -s⟩, ⟨-s, 0, s⟩] 1 = ⟨-(2 * s), 0, 0⟩ := by
  rw [rawNormal_of_lt [(⟨s, 0, s⟩ : Vector K), ⟨-s, 0, -s⟩, ⟨-s, 0, s⟩] 1 ⟨-s, 0, -s⟩ ⟨-s, 0, s⟩ rfl rfl
    (by simp [perp]; nlinarith)]
  apply vec_ext <;> simp [perp] <;> ring

theorem square_raw2 (hpos : 0 < s) : rawNormal [(⟨s, 0, s⟩ : Vector K), ⟨-s, 0, -s⟩, ⟨-s, 0, s⟩] 2 = ⟨0, 0, 2 * s⟩ := by
  rw [rawNormal_of_lt [(⟨s, 0, s⟩ : Vector K), ⟨-s, 0, -s⟩, ⟨-s, 0, s⟩] 2 ⟨-s, 0, s⟩ ⟨s, 0, s⟩ rfl rfl
    (by simp [perp]; nlinarith)]
  apply vec_ext <;> simp [perp] <;> ring

theorem scale_unit_x (hpos : 0 < s) : scale (⟨-(2 * s), 0, 0⟩ : Vector K) (1 / (2 * s)) = ⟨-1, 0, 0⟩ := by
  have hne : s ≠ 0 := ne_of_gt hpos
  apply vec_ext <;> simp <;> field_simp <;> ring

theorem scale_unit_z (hpos : 0 < s) : scale (⟨0, 0, 2 * s⟩ : Vector K) (1 / (2 * s)) = ⟨0, 0, 1⟩ := by
  have hne : s ≠ 0 := ne_of_gt hpos
  apply vec_ext <;> simp <;> field_simp <;> ring

theorem square_edge0 : edgeAt sqrt [(⟨s, 0, s⟩ : Vector K), ⟨-s, 0, -s⟩, ⟨-s, 0, s⟩] 0 =
    ⟨0, 1, scale ⟨-(2 * s), 0, 2 * s⟩ (1 / sqrt (8 * s * s))⟩ := by
  rw [edgeAt_eq (square_raw0 s) (show sqrt (dot (⟨-(2 * s), 0, 2 * s⟩ : Vector K) ⟨-(2 * s), 0, 2 * s⟩) = sqrt (8 * s * s) by
      congr 1; simp; ring)]
  simp

theorem square_edge1 (hs : IsSqrt sqrt) (hpos : 0 < s) : edgeAt sqrt [(⟨s, 0, s⟩ : Vector K), ⟨-s, 0, -s⟩, ⟨-s, 0, s⟩] 1 =
    ⟨s, 2, ⟨-1, 0, 0⟩⟩ := by
  rw [edgeAt_eq (square_raw1 s hpos) (sqrt_two_mul sqrt s hs hpos _ (by simp)), scale_unit_x s hpos]
  simp

theorem square_edge2 (hs : IsSqrt sqrt) (hpos : 0 < s) : edgeAt sqrt [(⟨s, 0, s⟩ : Vector K), ⟨-s, 0, -s⟩, ⟨-s, 0, s⟩] 2 =
    ⟨s, 0, ⟨0, 0, 1⟩⟩ := by
  rw [edgeAt_eq (square_raw2 s hpos) (sqrt_two_mul sqrt s hs hpos _ (by simp)), scale_unit_z s hpos]
  simp

theorem square_closest (hs : IsSqrt sqrt) (hpos : 0 < s) :
    findClosestEdge sqrt [(⟨s, 0, s⟩ : Vector K), ⟨-s, 0, -s⟩, ⟨-s, 0, s⟩] =
      some ⟨0, 1, scale ⟨-(2 * s), 0, 2 * s⟩ (1 / sqrt (8 * s * s))⟩ := by
  have hne : s ≠ 0 := ne_of_gt hpos
  rw [findClosestEdge_three, closestEdgeStep_eq, closestEdgeStep_eq, closestEdgeStep_eq,
    square_edge0, square_edge1 sqrt s hs hpos, square_edge2 sqrt s hs hpos,
    square_raw0 s, square_raw1 s hpos, square_raw2 s hpos]
  have e1 : ¬ s < 0 := by linarith
  simp [hne, e1]
end

section
variable (sqrt : K → K) (x0 z0 s : K) (S : List (Vector K))

theorem square_raw4_0 (hpos : 0 < s) : rawNormal [(⟨s, 0, s⟩ : Vector K), ⟨-s, 0, s⟩, ⟨-s, 0, -s⟩, ⟨-s, 0, s⟩] 0 = ⟨0, 0, 2 * s⟩ := by
  rw [rawNormal_of_ge [(⟨s, 0, s⟩ : Vector K), ⟨-s, 0, s⟩, ⟨-s, 0, -s⟩, ⟨-s, 0, s⟩] 0 ⟨s, 0, s⟩ ⟨-s, 0, s⟩ rfl rfl
    (by simp [perp]; nlinarith)]
  apply vec_ext <;> simp [perp] <;> ring

theorem square_raw4_1 (hpos : 0 < s) : rawNormal [(⟨s, 0, s⟩ : Vector K), ⟨-s, 0, s⟩, ⟨-s, 0, -s⟩, ⟨-s, 0, s⟩] 1 = ⟨-(2 * s), 0, 0⟩ := by
  rw [rawNormal_of_ge [(⟨s, 0, s⟩ : Vector K), ⟨-s, 0, s⟩, ⟨-s, 0, -s⟩, ⟨-s, 0, s⟩] 1 ⟨-s, 0, s⟩ ⟨-s, 0, -s⟩ rfl rfl
    (by simp [perp]; nlinarith)]
  apply vec_ext <;> simp [perp] <;> ring

theorem square_raw4_2 (hpos : 0 < s) : rawNormal [(⟨s, 0, s⟩ : Vector K), ⟨-s, 0, s⟩, ⟨-s, 0, -s⟩, ⟨-s, 0, s⟩] 2 = ⟨-(2 * s), 0, 0⟩ := by
  rw [rawNormal_of_lt [(⟨s, 0, s⟩ : Vector K), ⟨-s, 0, s⟩, ⟨-s, 0, -s⟩, ⟨-s, 0, s⟩] 2 ⟨-s, 0, -s⟩ ⟨-s, 0, s⟩ rfl rfl
    (by simp [perp]; nlinarith)]
  apply vec_ext <;> simp [perp] <;> ring

theorem square_raw4_3 (hpos : 0 < s) : rawNormal [(⟨s, 0, s⟩ : Vector K), ⟨-s, 0, s⟩, ⟨-s, 0, -s⟩, ⟨-s, 0, s⟩] 3 = ⟨0, 0, 2 * s⟩ := by
  rw [rawNormal_of_lt [(⟨s, 0, s⟩ : Vector K), ⟨-s, 0, s⟩, ⟨-s, 0, -s⟩, ⟨-s, 0, s⟩] 3 ⟨-s, 0, s⟩ ⟨s, 0, s⟩ rfl rfl
    (by simp [perp]; nlinarith)]
  apply vec_ext <;> simp [perp] <;> ring

theorem square_closest4 (hs : IsSqrt sqrt) (hpos : 0 < s) :
    findClosestEdge sqrt [(⟨s, 0, s⟩ : Vector K), ⟨-s, 0, s⟩, ⟨-s, 0, -s⟩, ⟨-s, 0, s⟩] =
      some ⟨s, 1, ⟨0, 0, 1⟩⟩ := by
  have hne : s ≠ 0 := ne_of_gt hpos
  have g0 : edgeAt sqrt [(⟨s, 0, s⟩ : Vector K), ⟨-s, 0, s⟩, ⟨-s, 0, -s⟩, ⟨-s, 0, s⟩] 0 = ⟨s, 1, ⟨0, 0, 1⟩⟩ := by
    rw [edgeAt_eq (square_raw4_0 s hpos) (sqrt_two_mul sqrt s hs hpos _ (by simp)), scale_unit_z s hpos]; simp
  have g1 : edgeAt sqrt [(⟨s, 0, s⟩ : Vector K), ⟨-s, 0, s⟩, ⟨-s, 0, -s⟩, ⟨-s, 0, s⟩] 1 = ⟨s, 2, ⟨-1, 0, 0⟩⟩ := by
    rw [edgeAt_eq (square_raw4_1 s hpos) (sqrt_two_mul sqrt s hs hpos _ (by simp)), scale_unit_x s hpos]; simp
  have g2 : edgeAt sqrt [(⟨s, 0, s⟩ : Vector K), ⟨-s, 0, s⟩, ⟨-s, 0, -s⟩, ⟨-s, 0, s⟩] 2 = ⟨s, 3, ⟨-1, 0, 0⟩⟩ := by
    rw [edgeAt_eq (square_raw4_2 s hpos) (sqrt_two_mul sqrt s hs hpos _ (by simp)), scale_unit_x s hpos]; simp
  have g3 : edgeAt sqrt [(⟨s, 0, s⟩ : Vector K), ⟨-s, 0, s⟩, ⟨-s, 0, -s⟩, ⟨-s, 0, s⟩] 3 = ⟨s, 0, ⟨0, 0, 1⟩⟩ := by
    rw [edgeAt_eq (square_raw4_3 s hpos) (sqrt_two_mul sqrt s hs hpos _ (by simp)), scale_unit_z s hpos]; simp
  rw [findClosestEdge_four, closestEdgeStep_eq, closestEdgeStep_eq, closestEdgeStep_eq, closestEdgeStep_eq,
    g0, g1, g2, g3, square_raw4_0 s hpos, square_raw4_1 s hpos, square_raw4_2 s hpos, square_raw4_3 s hpos]
  simp [hne]

end

section
variable (sqrt : K → K) (x0 z0 s : K) (S : List (Vector K))
end

/-! ## Soundness of the answer `true` of GJK -/

theorem dot_perp (u v : Vector K) : dot (perp u) v = cross2 u v := by
  simp only [dot_def, perp, cross2]; ring

theorem inHull_three {shape : List (Vector K)} {a b c : Vector K} (ha : InHull shape a)
    (hb : InHull shape b) (hc : InHull shape c) {wa wb wc : K} (h0a : 0 ≤ wa) (h0b : 0 ≤ wb)
    (h0c : 0 ≤ wc) (hsum : wa + wb + wc = 1) :
    InHull shape (scale a wa + scale b wb + scale c wc) := by
  by_cases hz : wb + wc = 0
  · have hb0 : wb = 0 := by linarith
    have hc0 : wc = 0 := by linarith
    have ha1 : wa = 1 := by linarith
    have : scale a wa + scale b wb + scale c wc = a := by
      apply vec_ext <;> simp [hb0, hc0, ha1]
    rw [this]; exact ha
  · have hpos : 0 < wb + wc := lt_of_le_of_ne (by linarith) (Ne.symm hz)
    have hy := InHull.segment b c (wc / (wb + wc)) hb hc (div_nonneg h0c (le_of_lt hpos))
      (by rw [div_le_one hpos]; linarith)
    have hx := InHull.segment a _ (wb + wc) ha hy (le_of_lt hpos) (by linarith)
    have : scale a wa + scale b wb + scale c wc =
        scale a (1 - (wb + wc)) + scale (scale b (1 - wc / (wb + wc)) + scale c (wc / (wb + wc)))
          (wb + wc) := by
      have e1 : wa = 1 - (wb + wc) := by linarith
      apply vec_ext <;> simp [e1] <;> field_simp <;> ring
    rw [this]; exact hx

/-- The origin is in the closed triangle when the three planar cross products have one
sign. -/
theorem origin_in_triangle {b c a : Vector K} (hb : b.y = 0) (hc : c.y = 0) (ha : a.y = 0)
    (h : (0 ≤ cross2 b c ∧ 0 ≤ cross2 c a ∧ 0 ≤ cross2 a b ∧
        0 < cross2 b c + cross2 c a + cross2 a b) ∨
      (cross2 b c ≤ 0 ∧ cross2 c a ≤ 0 ∧ cross2 a b ≤ 0 ∧
        cross2 b c + cross2 c a + cross2 a b < 0)) :
    InHull [b, c, a] 0 := by
  have hD : cross2 b c + cross2 c a + cross2 a b ≠ 0 := by
    rcases h with h | h
    · exact ne_of_gt h.2.2.2
    · exact ne_of_lt h.2.2.2
  have key := @inHull_three K _ [b, c, a] a b c (InHull.vertex a (by simp))
    (InHull.vertex b (by simp)) (InHull.vertex c (by simp))
    (cross2 b c / (cross2 b c + cross2 c a + cross2 a b))
    (cross2 c a / (cross2 b c + cross2 c a + cross2 a b))
    (cross2 a b / (cross2 b c + cross2 c a + cross2 a b))
    (by rcases h with h | h
        · exact div_nonneg h.1 (le_of_lt h.2.2.2)
        · exact div_nonneg_of_nonpos h.1 (le_of_lt h.2.2.2))
    (by rcases h with h | h
        · exact div_nonneg h.2.1 (le_of_lt h.2.2.2)
        · exact div_nonneg_of_nonpos h.2.1 (le_of_lt h.2.2.2))
    (by rcases h with h | h
        · exact div_nonneg h.2.2.1 (le_of_lt h.2.2.2)
        · exact div_nonneg_of_nonpos h.2.2.1 (le_of_lt h.2.2.2))
    (by field_simp)
  have e : scale a (cross2 b c / (cross2 b c + cross2 c a + cross2 a b)) +
      scale b (cross2 c a / (cross2 b c + cross2 c a + cross2 a b)) +
      scale c (cross2 a b / (cross2 b c + cross2 c a + cross2 a b)) = 0 := by
    apply vec_ext
    · simp; field_simp; simp only [cross2]; ring
    · simp [hb, hc, ha]
    · simp; field_simp; simp only [cross2]; ring
  rw [e] at key; exact key


/-- A point of an axis-aligned box lies in every hull that holds the four corners. -/
theorem inHull_box {shape : List (Vector K)} {x0 x1 z0 z1 : K} (hx : x0 < x1) (hz : z0 < z1)
    (h00 : InHull shape ⟨x0, 0, z0⟩) (h10 : InHull shape ⟨x1, 0, z0⟩)
    (h11 : InHull shape ⟨x1, 0, z1⟩) (h01 : InHull shape ⟨x0, 0, z1⟩)
    {p : Vector K} (hy : p.y = 0) (hpx0 : x0 ≤ p.x) (hpx1 : p.x ≤ x1)
    (hpz0 : z0 ≤ p.z) (hpz1 : p.z ≤ z1) : InHull shape p := by
  have hdx : 0 < x1 - x0 := by linarith
  have hdz : 0 < z1 - z0 := by linarith
  have hlo := InHull.segment _ _ ((p.x - x0) / (x1 - x0)) h00 h10
    (div_nonneg (by linarith) (le_of_lt hdx)) (by rw [div_le_one hdx]; linarith)
  have hhi := InHull.segment _ _ ((p.x - x0) / (x1 - x0)) h01 h11
    (div_nonneg (by linarith) (le_of_lt hdx)) (by rw [div_le_one hdx]; linarith)
  have hp := InHull.segment _ _ ((p.z - z0) / (z1 - z0)) hlo hhi
    (div_nonneg (by linarith) (le_of_lt hdz)) (by rw [div_le_one hdz]; linarith)
  have e : p = scale (scale (⟨x0, 0, z0⟩ : Vector K) (1 - (p.x - x0) / (x1 - x0)) +
      scale ⟨x1, 0, z0⟩ ((p.x - x0) / (x1 - x0))) (1 - (p.z - z0) / (z1 - z0)) +
      scale (scale (⟨x0, 0, z1⟩ : Vector K) (1 - (p.x - x0) / (x1 - x0)) +
      scale ⟨x1, 0, z1⟩ ((p.x - x0) / (x1 - x0))) ((p.z - z0) / (z1 - z0)) := by
    have hne1 : x1 - x0 ≠ 0 := ne_of_gt hdx
    have hne2 : z1 - z0 ≠ 0 := ne_of_gt hdz
    apply vec_ext
    · simp; field_simp; ring
    · simp [hy]
    · simp; field_simp; ring
  rw [e]; exact hp

/-- A point well inside an axis-aligned box is an interior point of every hull that holds
the four corners. -/
theorem interior_box {shape : List (Vector K)} {x0 x1 z0 z1 r : K} (hr : 0 < r)
    (h00 : InHull shape ⟨x0, 0, z0⟩) (h10 : InHull shape ⟨x1, 0, z0⟩)
    (h11 : InHull shape ⟨x1, 0, z1⟩) (h01 : InHull shape ⟨x0, 0, z1⟩)
    {p : Vector K} (hy : p.y = 0) (hpx0 : x0 + r ≤ p.x) (hpx1 : p.x + r ≤ x1)
    (hpz0 : z0 + r ≤ p.z) (hpz1 : p.z + r ≤ z1) : InteriorPt shape p := by
  refine ⟨r, hr, ?_⟩
  intro v hvy hvv
  have hx2 : v.x * v.x ≤ r * r := by
    rw [dot_def] at hvv; nlinarith [mul_self_nonneg v.y, mul_self_nonneg v.z]
  have hz2 : v.z * v.z ≤ r * r := by
    rw [dot_def] at hvv; nlinarith [mul_self_nonneg v.y, mul_self_nonneg v.x]
  have hxa := abs_le_of_sq_le_sq' (by nlinarith) (le_of_lt hr) (a := v.x) (b := r)
  have hza := abs_le_of_sq_le_sq' (by nlinarith) (le_of_lt hr) (a := v.z) (b := r)
  apply inHull_box (by linarith) (by linarith) h00 h10 h11 h01
  · simp [hy, hvy]
  · simp; linarith [hxa.1]
  · simp; linarith [hxa.2]
  · simp; linarith [hza.1]
  · simp; linarith [hza.2]

theorem tri_s0 : support (triangleLeft : List (Vector K)) triangleRight ⟨1, 0, 1⟩ = .ok ⟨-2, 0, 0⟩ := by
  norm_num [support, getFarthestPointInDirection, farthestScan, triangleLeft, triangleRight]

theorem tri_s1 : support (triangleLeft : List (Vector K)) triangleRight (-⟨1, 0, 1⟩) = .ok ⟨-10, 0, 0⟩ := by
  norm_num [support, getFarthestPointInDirection, farthestScan, triangleLeft, triangleRight]

theorem tri_s2 : support (triangleLeft : List (Vector K)) triangleRight ⟨0, 0, 8⟩ = .ok ⟨-6, 0, 0⟩ := by
  norm_num [support, getFarthestPointInDirection, farthestScan, triangleLeft, triangleRight]

theorem tri_s3 : support (triangleLeft : List (Vector K)) triangleRight ⟨0, 0, 1⟩ = .ok ⟨-6, 0, 0⟩ := by
  norm_num [support, getFarthestPointInDirection, farthestScan, triangleLeft, triangleRight]

theorem tri_gjk (fuel : Nat) (si : List (Vector K)) :
    GJK (fuel + 2) (triangleLeft : List (Vector K)) triangleRight si =
      .ok (true, [⟨-2, 0, 0⟩, ⟨-10, 0, 0⟩, ⟨-6, 0, 0⟩]) := by
  rw [GJK_eq, tri_s0]
  simp only
  rw [GJKLoop_step (fuel + 1) tri_s1 (by norm_num)]
  have hd : doContainsOrigin ([(⟨-2, 0, 0⟩ : Vector K)] ++ [⟨-10, 0, 0⟩]) (-⟨1, 0, 1⟩) =
      .ok (false, [⟨-2, 0, 0⟩, ⟨-10, 0, 0⟩], ⟨0, 0, 8⟩) := by
    rw [List.singleton_append, doContainsOrigin_two]
    norm_num [perp]
  rw [hd]
  simp only
  rw [GJKLoop_step fuel tri_s2 (by norm_num)]
  have hd2 : doContainsOrigin ([(⟨-2, 0, 0⟩ : Vector K), ⟨-10, 0, 0⟩] ++ [⟨-6, 0, 0⟩]) ⟨0, 0, 8⟩ =
      .ok (true, [⟨-2, 0, 0⟩, ⟨-10, 0, 0⟩, ⟨-6, 0, 0⟩], ⟨0, 0, 8⟩) := by
    have : [(⟨-2, 0, 0⟩ : Vector K), ⟨-10, 0, 0⟩] ++ [⟨-6, 0, 0⟩] = [⟨-2, 0, 0⟩, ⟨-10, 0, 0⟩, ⟨-6, 0, 0⟩] := rfl
    rw [this, doContainsOrigin_three]
    norm_num [perp]
  rw [hd2]

theorem tri_closest {sqrt : K → K} (hs : IsSqrt sqrt) :
    findClosestEdge sqrt [(⟨-2, 0, 0⟩ : Vector K), ⟨-10, 0, 0⟩, ⟨-6, 0, 0⟩] =
      some ⟨0, 1, ⟨0, 0, 1⟩⟩ := by
  have h64 : sqrt 64 = 8 := by
    have := sqrt_mul_self hs (show (0 : K) ≤ 8 by norm_num); norm_num at this; exact this
  have h16 : sqrt 16 = 4 := by
    have := sqrt_mul_self hs (show (0 : K) ≤ 4 by norm_num); norm_num at this; exact this
  norm_num [findClosestEdge, closestEdgeLoop, closestEdgeStep, perp, h64, h16]

theorem tri_intersect {sqrt : K → K} (hs : IsSqrt sqrt) (fuel : Nat) (rd : K) (rv : Vector K) :
    intersect sqrt (fuel + 2) rd rv (triangleLeft : List (Vector K)) triangleRight =
      .ok (true, 0, ⟨0, 0, 1⟩) := by
  rw [intersect, tri_gjk]
  simp only
  have := EPA_done (fuel + 1) (tri_closest hs) (tri_s3 (K := K)) (by norm_num)
  rw [this]
  norm_num

theorem tri_disjoint : ¬ ∃ x, InHull (triangleLeft : List (Vector K)) x ∧ InHull triangleRight x := by
  rintro ⟨x, hA, hB⟩
  have h1 := inHull_dot_le (d := ⟨1, 0, 0⟩) (m := 4) hA (by
    intro v hv; simp [triangleLeft] at hv; rcases hv with rfl | rfl | rfl <;> norm_num)
  have h2 := inHull_dot_ge (d := ⟨1, 0, 0⟩) (m := 6) hB (by
    intro v hv; simp [triangleRight] at hv; rcases hv with rfl | rfl | rfl <;> norm_num)
  linarith

theorem tri_simplex_misses_origin :
    ¬ InHull [(⟨-2, 0, 0⟩ : Vector K), ⟨-10, 0, 0⟩, ⟨-6, 0, 0⟩] 0 := by
  intro h
  have h1 := inHull_dot_le (d := ⟨1, 0, 0⟩) (m := -2) h (by
    intro v hv; simp at hv; rcases hv with rfl | rfl | rfl <;> norm_num)
  simp [dot_def] at h1
  linarith

/-! ## A cut square against a small square -/


theorem cut_s0 : support (cutSquare : List (Vector K)) smallSquare ⟨1, 0, 1⟩ = .ok ⟨3, 0, 3⟩ := by
  norm_num [support, getFarthestPointInDirection, farthestScan, cutSquare, smallSquare]

theorem cut_s1 : support (cutSquare : List (Vector K)) smallSquare (-⟨1, 0, 1⟩) = .ok ⟨-3, 0, -3⟩ := by
  norm_num [support, getFarthestPointInDirection, farthestScan, cutSquare, smallSquare]

theorem cut_s2 : support (cutSquare : List (Vector K)) smallSquare ⟨-6, 0, 6⟩ = .ok ⟨-3, 0, 3⟩ := by
  norm_num [support, getFarthestPointInDirection, farthestScan, cutSquare, smallSquare]

theorem cut_s3 : support (cutSquare : List (Vector K)) smallSquare ⟨0, 0, 1⟩ = .ok ⟨3, 0, 3⟩ := by
  norm_num [support, getFarthestPointInDirection, farthestScan, cutSquare, smallSquare]

theorem cut_gjk (fuel : Nat) (si : List (Vector K)) :
    GJK (fuel + 2) (cutSquare : List (Vector K)) smallSquare si =
      .ok (true, [⟨3, 0, 3⟩, ⟨-3, 0, -3⟩, ⟨-3, 0, 3⟩]) := by
  rw [GJK_eq, cut_s0]
  simp only
  rw [GJKLoop_step (fuel + 1) cut_s1 (by norm_num)]
  have hd : doContainsOrigin ([(⟨3, 0, 3⟩ : Vector K)] ++ [⟨-3, 0, -3⟩]) (-⟨1, 0, 1⟩) =
      .ok (false, [⟨3, 0, 3⟩, ⟨-3, 0, -3⟩], ⟨-6, 0, 6⟩) := by
    rw [List.singleton_append, doContainsOrigin_two]
    norm_num [perp]
  rw [hd]
  simp only
  rw [GJKLoop_step fuel cut_s2 (by norm_num)]
  have hd2 : doContainsOrigin ([(⟨3, 0, 3⟩ : Vector K), ⟨-3, 0, -3⟩] ++ [⟨-3, 0, 3⟩]) ⟨-6, 0, 6⟩ =
      .ok (true, [⟨3, 0, 3⟩, ⟨-3, 0, -3⟩, ⟨-3, 0, 3⟩], ⟨-6, 0, 6⟩) := by
    have : [(⟨3, 0, 3⟩ : Vector K), ⟨-3, 0, -3⟩] ++ [⟨-3, 0, 3⟩] = [⟨3, 0, 3⟩, ⟨-3, 0, -3⟩, ⟨-3, 0, 3⟩] := rfl
    rw [this, doContainsOrigin_three]
    norm_num [perp]
  rw [hd2]

theorem cut_epa {sqrt : K → K} (hs : IsSqrt sqrt) (fuel : Nat) :
    EPA sqrt (cutSquare : List (Vector K)) smallSquare (fuel + 2)
      [⟨3, 0, 3⟩, ⟨-3, 0, -3⟩, ⟨-3, 0, 3⟩] = .ok (3, ⟨0, 0, 1⟩) := by
  have h3 : (0 : K) < 3 := by norm_num
  have he := square_closest sqrt (3 : K) hs h3
  have he4 := square_closest4 sqrt (3 : K) hs h3
  have hq : (0 : K) < 8 * 3 * 3 := by norm_num
  have hr := sqrt_pos_of_pos hs hq
  obtain ⟨-, hrr⟩ := hs _ (le_of_lt hq)
  have hr9 : sqrt (8 * 3 * 3) < 9 := by
    by_contra h; push_neg at h; nlinarith
  have hdir : support (cutSquare : List (Vector K)) smallSquare
      (scale ⟨-(2 * 3), 0, 2 * 3⟩ (1 / sqrt (8 * 3 * 3))) = .ok ⟨-3, 0, 3⟩ := by
    rw [support_scale _ _ _ (one_div_pos.2 hr)]
    have : (⟨-(2 * 3), 0, 2 * 3⟩ : Vector K) = ⟨-6, 0, 6⟩ := by norm_num
    rw [this]; exact cut_s2
  have hbig : ¬ |dot (⟨-3, 0, 3⟩ : Vector K) (scale ⟨-(2 * 3), 0, 2 * 3⟩ (1 / sqrt (8 * 3 * 3))) - 0|
      < 1 / 100 := by
    have : dot (⟨-3, 0, 3⟩ : Vector K) (scale ⟨-(2 * 3), 0, 2 * 3⟩ (1 / sqrt (8 * 3 * 3))) - 0 =
        36 / sqrt (8 * 3 * 3) := by
      simp; field_simp; ring
    rw [this, abs_of_pos (div_pos (by norm_num) hr), not_lt, div_le_div_iff (by norm_num) hr]
    linarith
  have e1 : ([(⟨3, 0, 3⟩ : Vector K), ⟨-3, 0, -3⟩, ⟨-3, 0, 3⟩]) = [⟨3, 0, 3⟩, ⟨-3, 0, -3⟩, ⟨-3, 0, 3⟩] := rfl
  rw [EPA_more (fuel + 1) he hdir hbig]
  have hins : insertAt [(⟨3, 0, 3⟩ : Vector K), ⟨-3, 0, -3⟩, ⟨-3, 0, 3⟩] 1 ⟨-3, 0, 3⟩ =
      [⟨3, 0, 3⟩, ⟨-3, 0, 3⟩, ⟨-3, 0, -3⟩, ⟨-3, 0, 3⟩] := rfl
  simp only
  rw [hins]
  have := EPA_done fuel he4 (cut_s3 (K := K)) (by norm_num)
  rw [this]
  norm_num

theorem cut_intersect {sqrt : K → K} (hs : IsSqrt sqrt) (fuel : Nat) (rd : K) (rv : Vector K) :
    intersect sqrt (fuel + 2) rd rv (cutSquare : List (Vector K)) smallSquare =
      .ok (true, 3, ⟨0, 0, 1⟩) := by
  rw [intersect, cut_gjk]
  simp only
  rw [cut_epa hs]

theorem cut_extent : ∀ m ∈ minkowskiDifference (cutSquare : List (Vector K)) smallSquare,
    dot m ⟨3 / 5, 0, -4 / 5⟩ ≤ 12 / 5 := by
  intro m hm
  obtain ⟨a, ha, b, hb, rfl⟩ := mem_minkowskiDifference.1 hm
  simp [cutSquare] at ha
  simp [smallSquare] at hb
  rcases ha with rfl | rfl | rfl | rfl | rfl <;> rcases hb with rfl | rfl | rfl | rfl <;> norm_num

theorem cut_interior : InteriorPt (minkowskiDifference (cutSquare : List (Vector K)) smallSquare) 0 := by
  have m1 : InHull (minkowskiDifference (cutSquare : List (Vector K)) smallSquare) ⟨3, 0, 3⟩ :=
    InHull.vertex _ (mem_minkowskiDifference.2 ⟨⟨2, 0, 2⟩, by simp [cutSquare], ⟨-1, 0, -1⟩,
      by simp [smallSquare], by norm_num⟩)
  have m2 : InHull (minkowskiDifference (cutSquare : List (Vector K)) smallSquare) ⟨-3, 0, -3⟩ :=
    InHull.vertex _ (mem_minkowskiDifference.2 ⟨⟨-2, 0, -2⟩, by simp [cutSquare], ⟨1, 0, 1⟩,
      by simp [smallSquare], by norm_num⟩)
  have m3 : InHull (minkowskiDifference (cutSquare : List (Vector K)) smallSquare) ⟨-3, 0, 3⟩ :=
    InHull.vertex _ (mem_minkowskiDifference.2 ⟨⟨-2, 0, 2⟩, by simp [cutSquare], ⟨1, 0, -1⟩,
      by simp [smallSquare], by norm_num⟩)
  have m4 : InHull (minkowskiDifference (cutSquare : List (Vector K)) smallSquare) ⟨3, 0, 0⟩ :=
    InHull.vertex _ (mem_minkowskiDifference.2 ⟨⟨2, 0, 1⟩, by simp [cutSquare], ⟨-1, 0, 1⟩,
      by simp [smallSquare], by norm_num⟩)
  have c11 : InHull (minkowskiDifference (cutSquare : List (Vector K)) smallSquare) ⟨1, 0, 1⟩ := by
    have := InHull.segment _ _ (1 / 3) m1 m2 (by norm_num) (by norm_num)
    norm_num at this; exact this
  have c00 : InHull (minkowskiDifference (cutSquare : List (Vector K)) smallSquare) ⟨-1, 0, -1⟩ := by
    have := InHull.segment _ _ (2 / 3) m1 m2 (by norm_num) (by norm_num)
    norm_num at this; exact this
  have c10 : InHull (minkowskiDifference (cutSquare : List (Vector K)) smallSquare) ⟨1, 0, -1⟩ := by
    have := InHull.segment _ _ (1 / 3) m4 m2 (by norm_num) (by norm_num)
    norm_num at this; exact this
  have c01 : InHull (minkowskiDifference (cutSquare : List (Vector K)) smallSquare) ⟨-1, 0, 1⟩ := by
    have := InHull.segment _ _ (1 / 2) m3 c10 (by norm_num) (by norm_num)
    norm_num at this; exact this
  exact interior_box (r := 1) one_pos c00 c10 c11 c01 (by simp) (by simp) (by simp) (by simp) (by simp)

/-! ## A tiny kite against a point -/


theorem far_s0 : support (squareAt0 : List (Vector K)) squareAt10 ⟨1, 0, 1⟩ = .ok ⟨-9, 0, 1⟩ := by
  norm_num [support, getFarthestPointInDirection, farthestScan, squareAt0, squareAt10]

theorem far_s1 :
    support (squareAt0 : List (Vector K)) squareAt10 (-⟨1, 0, 1⟩) = .ok ⟨-11, 0, -1⟩ := by
  norm_num [support, getFarthestPointInDirection, farthestScan, squareAt0, squareAt10]

theorem far_s2 :
    support (squareAt0 : List (Vector K)) squareAt10 ⟨2, 0, -2⟩ = .ok ⟨-9, 0, -1⟩ := by
  norm_num [support, getFarthestPointInDirection, farthestScan, squareAt0, squareAt10]

theorem far_gjk (fuel : Nat) (si : List (Vector K)) :
    GJK (fuel + 2) (squareAt0 : List (Vector K)) squareAt10 si = .ok (false, si) := by
  rw [GJK_eq, far_s0]
  simp only
  rw [GJKLoop_step (fuel + 1) far_s1 (by norm_num)]
  have hd : doContainsOrigin ([(⟨-9, 0, 1⟩ : Vector K)] ++ [⟨-11, 0, -1⟩]) (-⟨1, 0, 1⟩) =
      .ok (false, [⟨-9, 0, 1⟩, ⟨-11, 0, -1⟩], ⟨2, 0, -2⟩) := by
    rw [List.singleton_append, doContainsOrigin_two]
    norm_num [perp]
  rw [hd]
  simp only
  rw [GJKLoop_stop fuel far_s2 (by norm_num)]

theorem isSqrt_real : IsSqrt Real.sqrt :=
  fun x hx => ⟨Real.sqrt_nonneg x, Real.mul_self_sqrt hx⟩

/-! ## The first maximum of the scan, and failure on an empty shape -/

theorem getFarthest_error {shape : List (Vector K)} {d : Vector K} {f : Fault}
    (h : getFarthestPointInDirection shape d = .error f) : shape = [] ∧ f = .outOfRange := by
  cases shape with
  | nil => simp [getFarthestPointInDirection] at h; exact ⟨rfl, h.symm⟩
  | cons v0 rest =>
    obtain ⟨v, hv⟩ := getFarthest_ok d (List.cons_ne_nil v0 rest)
    rw [hv] at h; simp at h

theorem support_error {shapeA shapeB : List (Vector K)} {d : Vector K} {f : Fault}
    (h : support shapeA shapeB d = .error f) :
    (shapeA = [] ∨ shapeB = []) ∧ f = .outOfRange := by
  unfold support at h
  cases ha : getFarthestPointInDirection shapeA d with
  | error f1 =>
    rw [ha] at h; simp at h
    obtain ⟨h1, h2⟩ := getFarthest_error ha
    exact ⟨Or.inl h1, by rw [← h, h2]⟩
  | ok a =>
    rw [ha] at h
    cases hb : getFarthestPointInDirection shapeB (-d) with
    | error f1 =>
      rw [hb] at h; simp at h
      obtain ⟨h1, h2⟩ := getFarthest_error hb
      exact ⟨Or.inr h1, by rw [← h, h2]⟩
    | ok b => rw [hb] at h; simp at h

theorem support_nil_left (shapeB : List (Vector K)) (d : Vector K) :
    support ([] : List (Vector K)) shapeB d = .error .outOfRange := rfl

theorem support_nil_right (shapeA : List (Vector K)) (d : Vector K) :
    support shapeA ([] : List (Vector K)) d = .error .outOfRange := by
  unfold support
  cases ha : getFarthestPointInDirection shapeA d with
  | error f1 =>
    obtain ⟨-, h2⟩ := getFarthest_error ha
    simp [h2]
  | ok a => simp [getFarthestPointInDirection]

/-! ## The three-point test in terms of cross products -/

theorem sideOfLine_origin (b c : Vector K) : sideOfLine b c 0 = cross2 b c := by
  simp only [sideOfLine, cross2, sub_x, sub_z, zero_x, zero_z]; ring

theorem sideOfLine_third (b c a : Vector K) :
    sideOfLine b c a = cross2 b c + cross2 c a + cross2 a b := by
  simp only [sideOfLine, cross2, sub_x, sub_z]; ring

/-- The two tests of the three-point case in terms of the planar cross products. -/
theorem three_tests (b c a : Vector K) :
    dot (if dot (perp (b - a)) c ≥ 0 then -perp (b - a) else perp (b - a)) (-a) =
        (if cross2 b c + cross2 c a ≥ 0 then -cross2 a b else cross2 a b) ∧
    dot (if dot (perp (c - a)) b ≥ 0 then -perp (c - a) else perp (c - a)) (-a) =
        (if -cross2 b c - cross2 a b ≥ 0 then cross2 c a else -cross2 c a) := by
  have e1 : dot (perp (b - a)) c = cross2 b c + cross2 c a := by
    rw [dot_perp]; simp only [cross2, sub_x, sub_z]; ring
  have e3 : dot (perp (c - a)) b = -cross2 b c - cross2 a b := by
    rw [dot_perp]; simp only [cross2, sub_x, sub_z]; ring
  constructor
  · rw [e1]
    split_ifs
    · rw [dot_neg_left, dot_neg_right, dot_perp]; simp only [cross2, sub_x, sub_z]; ring
    · rw [dot_neg_right, dot_perp]; simp only [cross2, sub_x, sub_z]; ring
  · rw [e3]
    split_ifs
    · rw [dot_neg_left, dot_neg_right, dot_perp]; simp only [cross2, sub_x, sub_z]; ring
    · rw [dot_neg_right, dot_perp]; simp only [cross2, sub_x, sub_z]; ring

theorem side_signs (X Y Z : K) (hD : X + Y + Z ≠ 0) (hside : 0 ≤ X * (X + Y + Z))
    (h3 : ¬ (if X + Y ≥ 0 then -Z else Z) > 0)
    (h4 : (if -X - Z ≥ 0 then Y else -Y) ≤ 0) :
    (0 ≤ X ∧ 0 ≤ Y ∧ 0 ≤ Z ∧ 0 < X + Y + Z) ∨ (X ≤ 0 ∧ Y ≤ 0 ∧ Z ≤ 0 ∧ X + Y + Z < 0) := by
  rcases lt_or_gt_of_ne hD with hneg | hpos
  · have hX : X ≤ 0 := by
      by_contra hc
      push_neg at hc
      nlinarith [mul_pos hc (neg_pos.2 hneg)]
    split_ifs at h3 h4 <;>
    first
      | (exfalso; linarith)
      | (right; refine ⟨?_, ?_, ?_, ?_⟩ <;> linarith)
  · have hX : 0 ≤ X := by
      by_contra hc
      push_neg at hc
      nlinarith [mul_pos (neg_pos.2 hc) hpos]
    split_ifs at h3 h4 <;>
    first
      | (exfalso; linarith)
      | (left; refine ⟨?_, ?_, ?_, ?_⟩ <;> linarith)

/-- Positive weights that combine `a`, `b`, `c` to the origin are the three cross
products divided by their sum. -/
theorem weights_cross {b c a : Vector K} {wa wb wc : K} (hsum : wa + wb + wc = 1)
    (h0 : scale a wa + scale b wb + scale c wc = 0) :
    cross2 b c = (cross2 b c + cross2 c a + cross2 a b) * wa ∧
    cross2 c a = (cross2 b c + cross2 c a + cross2 a b) * wb ∧
    cross2 a b = (cross2 b c + cross2 c a + cross2 a b) * wc := by
  have hx : a.x * wa + b.x * wb + c.x * wc = 0 := by
    have := congrArg Vector.x h0; simpa using this
  have hz : a.z * wa + b.z * wb + c.z * wc = 0 := by
    have := congrArg Vector.z h0; simpa using this
  simp only [cross2]
  refine ⟨?_, ?_, ?_⟩
  · linear_combination (c.z - b.z) * hx - (c.x - b.x) * hz - (b.x * c.z - b.z * c.x) * hsum
  · linear_combination (a.z - c.z) * hx - (a.x - c.x) * hz - (c.x * a.z - c.z * a.x) * hsum
  · linear_combination (b.z - a.z) * hx - (b.x - a.x) * hz - (a.x * b.z - a.z * b.x) * hsum

theorem three_inside {b c a : Vector K} (d : Vector K)
    (hnd : sideOfLine b c a ≠ 0) (hin : StrictlyInside a b c 0) :
    doContainsOrigin [b, c, a] d = .ok (true, [b, c, a], d) := by
  obtain ⟨wa, wb, wc, ha, hb, hc, hsum, h0⟩ := hin
  obtain ⟨hX, hY, hZ⟩ := weights_cross hsum h0
  rw [sideOfLine_third] at hnd
  obtain ⟨t1, t2⟩ := three_tests b c a
  rw [doContainsOrigin_three, t1, t2]
  generalize cross2 b c = X at *
  generalize cross2 c a = Y at *
  generalize cross2 a b = Z at *
  rcases lt_or_gt_of_ne hnd with hneg | hpos
  · have x0 : X < 0 := by rw [hX]; exact mul_neg_of_neg_of_pos hneg ha
    have y0 : Y < 0 := by rw [hY]; exact mul_neg_of_neg_of_pos hneg hb
    have z0 : Z < 0 := by rw [hZ]; exact mul_neg_of_neg_of_pos hneg hc
    rw [if_neg (by linarith : ¬ X + Y ≥ 0), if_neg (by linarith : ¬ Z > 0),
      if_pos (by linarith : -X - Z ≥ 0), if_pos (le_of_lt y0)]
  · have x0 : 0 < X := by rw [hX]; exact mul_pos hpos ha
    have y0 : 0 < Y := by rw [hY]; exact mul_pos hpos hb
    have z0 : 0 < Z := by rw [hZ]; exact mul_pos hpos hc
    rw [if_pos (by linarith : X + Y ≥ 0), if_neg (by linarith : ¬ -Z > 0),
      if_neg (by linarith : ¬ -X - Z ≥ 0), if_pos (by linarith : -Y ≤ 0)]

theorem three_true_side {b c a d d2 : Vector K} {s : List (Vector K)}
    (hb : b.y = 0) (hc : c.y = 0) (ha : a.y = 0)
    (hnd : sideOfLine b c a ≠ 0) (hside : 0 ≤ sideOfLine b c 0 * sideOfLine b c a)
    (h : doContainsOrigin [b, c, a] d = .ok (true, s, d2)) :
    InHull [b, c, a] 0 ∧ s = [b, c, a] ∧ d2 = d := by
  obtain ⟨t1, t2⟩ := three_tests b c a
  rw [sideOfLine_origin, sideOfLine_third] at hside
  rw [sideOfLine_third] at hnd
  rw [doContainsOrigin_three, t1, t2] at h
  by_cases c2 : (if cross2 b c + cross2 c a ≥ 0 then -cross2 a b else cross2 a b) > 0
  · rw [if_pos c2] at h; simp at h
  · rw [if_neg c2] at h
    by_cases c4 : (if -cross2 b c - cross2 a b ≥ 0 then cross2 c a else -cross2 c a) ≤ 0
    · rw [if_pos c4] at h
      simp at h
      exact ⟨origin_in_triangle hb hc ha (side_signs _ _ _ hnd hside c2 c4), h.1.symm, h.2.symm⟩
    · rw [if_neg c4] at h; simp at h

/-- What the two-point case hands back. -/
theorem two_false (b a d : Vector K) :
    ∃ d2, doContainsOrigin [b, a] d = .ok (false, [b, a], d2) ∧ dot d2 (b - a) = 0 ∧
      0 ≤ dot d2 (-a) ∧ d2.y = 0 := by
  rw [doContainsOrigin_two]
  refine ⟨_, rfl, ?_, ?_, ?_⟩
  · split_ifs
    · rw [dot_neg_left, dot_perp]; simp [cross2]; ring
    · rw [dot_perp]; simp [cross2]; ring
  · split_ifs with hlt
    · rw [dot_neg_left]; linarith
    · exact not_lt.1 hlt
  · split_ifs <;> simp [perp]

theorem three_false_shape {b c a d d2 : Vector K} {s : List (Vector K)}
    (h : doContainsOrigin [b, c, a] d = .ok (false, s, d2)) :
    ∃ r, (r = b ∨ r = c) ∧ s = [r, a] ∧ dot d2 (r - a) = 0 ∧ 0 < dot d2 (-a) ∧ d2.y = 0 := by
  rw [doContainsOrigin_three] at h
  by_cases c2 : dot (if dot (perp (b - a)) c ≥ 0 then -perp (b - a) else perp (b - a)) (-a) > 0
  · rw [if_pos c2] at h
    simp at h
    obtain ⟨hs, hd⟩ := h
    refine ⟨b, Or.inl rfl, hs.symm, ?_, by rw [← hd]; exact c2, ?_⟩
    · rw [← hd]; split_ifs
      · rw [dot_neg_left, dot_perp]; simp [cross2]; ring
      · rw [dot_perp]; simp [cross2]; ring
    · rw [← hd]; split_ifs <;> simp [perp]
  · rw [if_neg c2] at h
    by_cases c4 : dot (if dot (perp (c - a)) b ≥ 0 then -perp (c - a) else perp (c - a)) (-a) ≤ 0
    · rw [if_pos c4] at h; simp at h
    · rw [if_neg c4] at h
      simp at h
      obtain ⟨hs, hd⟩ := h
      refine ⟨c, Or.inr rfl, hs.symm, ?_, by rw [← hd]; exact not_le.1 c4, ?_⟩
      · rw [← hd]; split_ifs
        · rw [dot_neg_left, dot_perp]; simp [cross2]; ring
        · rw [dot_perp]; simp [cross2]; ring
      · rw [← hd]; split_ifs <;> simp [perp]

/-! ## The scan of the closest edge -/

theorem closestEdgeStep_firstMin (sqrt : K → K) (simplex : List (Vector K)) (m : Nat)
    (ce : Option (Edge K)) (h : FirstMin sqrt simplex m ce) :
    FirstMin sqrt simplex (m + 1) (closestEdgeStep sqrt simplex m ce) := by
  rw [closestEdgeStep_eq]
  by_cases hq : dot (rawNormal simplex m) (rawNormal simplex m) = 0
  · rw [if_pos hq]
    cases ce with
    | none =>
      intro j hj
      rcases Nat.lt_succ_iff_lt_or_eq.1 hj with hj | hj
      · exact h j hj
      · rw [hj]; exact hq
    | some e =>
      obtain ⟨i, hi, hgood, he, hmin, hfirst⟩ := h
      refine ⟨i, by omega, hgood, he, ?_, hfirst⟩
      intro j hj hgj
      rcases Nat.lt_succ_iff_lt_or_eq.1 hj with hj | hj
      · exact hmin j hj hgj
      · rw [hj] at hgj; exact absurd hq hgj
  · rw [if_neg hq]
    cases ce with
    | none =>
      refine ⟨m, by omega, hq, rfl, ?_, ?_⟩
      · intro j hj hgj
        rcases Nat.lt_succ_iff_lt_or_eq.1 hj with hj | hj
        · exact absurd (h j hj) hgj
        · rw [hj]
      · intro j hj hgj
        exact absurd (h j hj) hgj
    | some e =>
      obtain ⟨i, hi, hgood, he, hmin, hfirst⟩ := h
      simp only
      by_cases hlt : (edgeAt sqrt simplex m).distance < e.distance
      · rw [if_pos hlt]
        rw [he] at hlt
        refine ⟨m, by omega, hq, rfl, ?_, ?_⟩
        · intro j hj hgj
          rcases Nat.lt_succ_iff_lt_or_eq.1 hj with hj | hj
          · exact le_trans (le_of_lt hlt) (hmin j hj hgj)
          · rw [hj]
        · intro j hj hgj
          exact lt_of_lt_of_le hlt (hmin j hj hgj)
      · rw [if_neg hlt]
        rw [he] at hlt
        refine ⟨i, by omega, hgood, he, ?_, hfirst⟩
        intro j hj hgj
        rcases Nat.lt_succ_iff_lt_or_eq.1 hj with hj | hj
        · exact hmin j hj hgj
        · rw [hj]; exact not_lt.1 hlt

theorem closestEdgeLoop_firstMin (sqrt : K → K) (simplex : List (Vector K)) :
    ∀ (k i : Nat) (ce : Option (Edge K)), FirstMin sqrt simplex i ce →
      FirstMin sqrt simplex (i + k) (closestEdgeLoop sqrt simplex k i ce) := by
  intro k
  induction k with
  | zero => intro i ce h; simpa [closestEdgeLoop] using h
  | succ n ih =>
    intro i ce h
    rw [closestEdgeLoop]
    have := ih (i + 1) _ (closestEdgeStep_firstMin sqrt simplex i ce h)
    rw [show i + (n + 1) = i + 1 + n by omega]
    exact this

theorem findClosestEdge_firstMin (sqrt : K → K) (simplex : List (Vector K)) :
    FirstMin sqrt simplex simplex.length (findClosestEdge sqrt simplex) := by
  have := closestEdgeLoop_firstMin sqrt simplex simplex.length 0 none (by intro j hj; omega)
  simpa [findClosestEdge] using this

theorem support_origin (d : Vector K) :
    support (originPoint : List (Vector K)) originPoint d = .ok ⟨0, 0, 0⟩ := by
  simp [support, getFarthestPointInDirection, farthestScan, originPoint]

theorem origin_gjk (fuel : Nat) (si : List (Vector K)) :
    GJK (fuel + 2) (originPoint : List (Vector K)) originPoint si =
      .ok (true, [⟨0, 0, 0⟩, ⟨0, 0, 0⟩, ⟨0, 0, 0⟩]) := by
  rw [GJK_eq, support_origin]
  simp only
  rw [GJKLoop_step (fuel + 1) (support_origin _) (by simp [dot_def])]
  have hd : doContainsOrigin ([(⟨0, 0, 0⟩ : Vector K)] ++ [⟨0, 0, 0⟩]) (-⟨1, 0, 1⟩) =
      .ok (false, [⟨0, 0, 0⟩, ⟨0, 0, 0⟩], ⟨0, 0, 0⟩) := by
    rw [List.singleton_append, doContainsOrigin_two]
    simp [perp, dot_def]
  rw [hd]
  simp only
  rw [GJKLoop_step fuel (support_origin _) (by simp [dot_def])]
  have hd2 : doContainsOrigin ([(⟨0, 0, 0⟩ : Vector K), ⟨0, 0, 0⟩] ++ [⟨0, 0, 0⟩]) ⟨0, 0, 0⟩ =
      .ok (true, [⟨0, 0, 0⟩, ⟨0, 0, 0⟩, ⟨0, 0, 0⟩], ⟨0, 0, 0⟩) := by
    have : [(⟨0, 0, 0⟩ : Vector K), ⟨0, 0, 0⟩] ++ [⟨0, 0, 0⟩] =
      [⟨0, 0, 0⟩, ⟨0, 0, 0⟩, ⟨0, 0, 0⟩] := rfl
    rw [this, doContainsOrigin_three]
    simp [perp, dot_def]
  rw [hd2]

theorem origin_closest (sqrt : K → K) :
    findClosestEdge sqrt [(⟨0, 0, 0⟩ : Vector K), ⟨0, 0, 0⟩, ⟨0, 0, 0⟩] = none := by
  simp [findClosestEdge, closestEdgeLoop, closestEdgeStep, perp, dot_def]

theorem origin_epa (sqrt : K → K) (fuel : Nat) (r : K × Vector K) :
    EPA sqrt (originPoint : List (Vector K)) originPoint fuel
      [⟨0, 0, 0⟩, ⟨0, 0, 0⟩, ⟨0, 0, 0⟩] ≠ .ok r := by
  cases fuel with
  | zero => simp [EPA]
  | succ n => rw [EPA, origin_closest]; simp

theorem origin_intersect (sqrt : K → K) (fuel : Nat) (rd : K) (rv : Vector K)
    (r : Bool × K × Vector K) :
    intersect sqrt fuel rd rv (originPoint : List (Vector K)) originPoint ≠ .ok r := by
  intro h
  obtain ⟨flag, d, n⟩ := r
  cases flag with
  | true =>
    obtain ⟨s, hg, he⟩ := intersect_true h
    match fuel, hg, he with
    | 0, hg, _ => simp [GJK_eq, support_origin, GJKLoop] at hg
    | 1, hg, _ =>
      rw [GJK_eq, support_origin] at hg
      simp only at hg
      rw [GJKLoop_step 0 (support_origin _) (by simp [dot_def])] at hg
      rw [List.singleton_append, doContainsOrigin_two] at hg
      simp [GJKLoop] at hg
    | k + 2, hg, he =>
      rw [origin_gjk] at hg
      simp at hg
      rw [← hg] at he
      exact origin_epa sqrt _ _ he
  | false =>
    obtain ⟨⟨s, hg⟩, -, -⟩ := intersect_false h
    match fuel, hg with
    | 0, hg => simp [GJK_eq, support_origin, GJKLoop] at hg
    | 1, hg =>
      rw [GJK_eq, support_origin] at hg
      simp only at hg
      rw [GJKLoop_step 0 (support_origin _) (by simp [dot_def])] at hg
      rw [List.singleton_append, doContainsOrigin_two] at hg
      simp [GJKLoop] at hg
    | k + 2, hg =>
      rw [origin_gjk] at hg
      simp at hg

theorem intersect_of_true {sqrt : K → K} {fuel : Nat} {rd d : K} {rv n : Vector K}
    {shapeA shapeB s : List (Vector K)} (hg : GJK fuel shapeA shapeB [] = .ok (true, s))
    (he : EPA sqrt shapeA shapeB fuel s = .ok (d, n)) :
    intersect sqrt fuel rd rv shapeA shapeB = .ok (true, d, n) := by
  simp [intersect, hg, he]

theorem intersect_of_false {sqrt : K → K} {fuel : Nat} {rd : K} {rv : Vector K}
    {shapeA shapeB s : List (Vector K)} (hg : GJK fuel shapeA shapeB [] = .ok (false, s)) :
    intersect sqrt fuel rd rv shapeA shapeB = .ok (false, rd, rv) := by
  simp [intersect, hg]

/-! ## Two triangles that share a corner -/

/-- The run of `GJK` on the two triangles that share the corner `(-1, 0, 0)`, up to the
third pass of the loop. -/
theorem corner_gjk (fuel : Nat) (si : List (Vector K)) :
    GJK (fuel + 3) (cornerLeft : List (Vector K)) cornerRight si =
      GJKLoop cornerLeft cornerRight si (fuel + 1) [⟨1, 0, 2⟩, ⟨0, 0, 2⟩] ⟨0, 0, -1⟩ := by
  have h0 : support (cornerLeft : List (Vector K)) cornerRight ⟨1, 0, 1⟩ = .ok ⟨1, 0, 2⟩ := by
    norm_num [support, getFarthestPointInDirection, farthestScan, cornerLeft, cornerRight]
  have h1 : support (cornerLeft : List (Vector K)) cornerRight (-⟨1, 0, 1⟩) = .ok ⟨0, 0, 0⟩ := by
    norm_num [support, getFarthestPointInDirection, farthestScan, cornerLeft, cornerRight]
  have h2 : support (cornerLeft : List (Vector K)) cornerRight ⟨-2, 0, 1⟩ = .ok ⟨0, 0, 2⟩ := by
    norm_num [support, getFarthestPointInDirection, farthestScan, cornerLeft, cornerRight]
  rw [GJK_eq, h0]
  simp only
  rw [GJKLoop_step (fuel + 2) h1 (by norm_num)]
  have hd : doContainsOrigin ([(⟨1, 0, 2⟩ : Vector K)] ++ [⟨0, 0, 0⟩]) (-⟨1, 0, 1⟩) =
      .ok (false, [⟨1, 0, 2⟩, ⟨0, 0, 0⟩], ⟨-2, 0, 1⟩) := by
    rw [List.singleton_append, doContainsOrigin_two]
    norm_num [perp]
  rw [hd]
  simp only
  rw [GJKLoop_step (fuel + 1) h2 (by norm_num)]
  have hd2 : doContainsOrigin ([(⟨1, 0, 2⟩ : Vector K), ⟨0, 0, 0⟩] ++ [⟨0, 0, 2⟩]) ⟨-2, 0, 1⟩ =
      .ok (false, [⟨1, 0, 2⟩, ⟨0, 0, 2⟩], ⟨0, 0, -1⟩) := by
    have : [(⟨1, 0, 2⟩ : Vector K), ⟨0, 0, 0⟩] ++ [⟨0, 0, 2⟩] =
      [⟨1, 0, 2⟩, ⟨0, 0, 0⟩, ⟨0, 0, 2⟩] := rfl
    rw [this, doContainsOrigin_three]
    norm_num [perp]
  rw [hd2]

theorem corner_support :
    support (cornerLeft : List (Vector K)) cornerRight ⟨0, 0, -1⟩ = .ok ⟨3, 0, -2⟩ := by
  norm_num [support, getFarthestPointInDirection, farthestScan, cornerLeft, cornerRight]

theorem corner_three (d : Vector K) :
    doContainsOrigin [(⟨1, 0, 2⟩ : Vector K), ⟨0, 0, 2⟩, ⟨3, 0, -2⟩] d =
      .ok (false, [⟨1, 0, 2⟩, ⟨3, 0, -2⟩], ⟨-4, 0, -2⟩) := by
  rw [doContainsOrigin_three]
  norm_num [perp]

theorem corner_step (fuel : Nat) (si : List (Vector K)) :
    GJKLoop (cornerLeft : List (Vector K)) cornerRight si (fuel + 1)
        [⟨1, 0, 2⟩, ⟨0, 0, 2⟩] ⟨0, 0, -1⟩ =
      GJKLoop cornerLeft cornerRight si fuel [⟨1, 0, 2⟩, ⟨3, 0, -2⟩] ⟨-4, 0, -2⟩ := by
  rw [GJKLoop_step fuel corner_support (by norm_num)]
  have : [(⟨1, 0, 2⟩ : Vector K), ⟨0, 0, 2⟩] ++ [⟨3, 0, -2⟩] =
      [⟨1, 0, 2⟩, ⟨0, 0, 2⟩, ⟨3, 0, -2⟩] := rfl
  rw [this, corner_three]

/-- The three-point case written with the two oriented perpendiculars. -/
theorem doContainsOrigin_oriented (b c a d : Vector K) :
    doContainsOrigin [b, c, a] d =
      if dot (orientedPerp (b - a) c) (-a) > 0 then
        .ok (false, [b, a], orientedPerp (b - a) c)
      else if dot (orientedPerp (c - a) b) (-a) ≤ 0 then .ok (true, [b, c, a], d)
      else .ok (false, [c, a], orientedPerp (c - a) b) :=
  doContainsOrigin_three b c a d

theorem orientedPerp_third (e third : Vector K) : dot (orientedPerp e third) third ≤ 0 := by
  simp only [orientedPerp]
  split_ifs with h
  · rw [dot_neg_left]; linarith
  · exact le_of_lt (not_le.1 h)

theorem orientedPerp_edge (p a third : Vector K) :
    dot (orientedPerp (p - a) third) p = dot (orientedPerp (p - a) third) a := by
  simp only [orientedPerp]
  split_ifs
  · rw [dot_neg_left, dot_neg_left, dot_perp, dot_perp]; simp [cross2]; ring
  · rw [dot_perp, dot_perp]; simp [cross2]; ring

/-! ## The polygons of EPA and the passes of GJK -/

theorem GJKLoop_pass {shapeA shapeB s0 simplex simplex2 : List (Vector K)}
    {direction direction2 : Vector K} (fuel : Nat)
    (h : GJKPass shapeA shapeB (simplex, direction) = some (simplex2, direction2)) :
    GJKLoop shapeA shapeB s0 (fuel + 1) simplex direction =
      GJKLoop shapeA shapeB s0 fuel simplex2 direction2 := by
  unfold GJKPass at h
  simp only at h
  cases hs : support shapeA shapeB direction with
  | error f => rw [hs] at h; simp at h
  | ok p =>
    rw [hs] at h
    simp only at h
    by_cases hneg : dot p direction < 0
    · rw [if_pos hneg] at h; simp at h
    · rw [if_neg hneg] at h
      rw [GJKLoop_step fuel hs hneg]
      cases hd : doContainsOrigin (simplex ++ [p]) direction with
      | error f => rw [hd] at h; simp at h
      | ok r =>
        obtain ⟨flag, s2, d2⟩ := r
        rw [hd] at h
        cases flag with
        | true => simp at h
        | false =>
          simp at h
          simp only
          rw [h.1, h.2]

/-- The simplex after a call of `doContainsOrigin` that answers `false`: two points when
it was given two or three. -/
theorem doContainsOrigin_false_length {simplex s2 : List (Vector K)} {d d2 : Vector K}
    (hl : simplex.length = 2 ∨ simplex.length = 3)
    (h : doContainsOrigin simplex d = .ok (false, s2, d2)) : s2.length = 2 := by
  rcases hl with hl | hl
  · match simplex, hl with
    | [b, a], _ =>
      rw [doContainsOrigin_two] at h
      simp at h
      rw [← h.1]; rfl
  · match simplex, hl with
    | [b, c, a], _ =>
      obtain ⟨r, -, hs, -⟩ := three_false_shape h
      rw [hs]; rfl

theorem doContainsOrigin_true_length {simplex s2 : List (Vector K)} {d d2 : Vector K}
    (hl : simplex.length = 2 ∨ simplex.length = 3)
    (h : doContainsOrigin simplex d = .ok (true, s2, d2)) : s2.length = 3 := by
  rcases hl with hl | hl
  · match simplex, hl with
    | [b, a], _ =>
      rw [doContainsOrigin_two] at h
      simp at h
  · match simplex, hl with
    | [b, c, a], _ =>
      rw [doContainsOrigin_three] at h
      split_ifs at h <;> simp at h
      all_goals (rw [← h.1]; rfl)

theorem GJKState_shape {shapeA shapeB : List (Vector K)} {n : Nat}
    {state : List (Vector K) × Vector K} (h : GJKState shapeA shapeB n state) :
    state.1.length = (if n = 0 then 1 else 2) ∧
      ∀ v ∈ state.1, v ∈ minkowskiDifference shapeA shapeB := by
  induction h with
  | first p hp =>
    refine ⟨rfl, ?_⟩
    intro v hv
    simp at hv
    rw [hv]; exact support_mem hp
  | next n st st2 _ hpass ih =>
    unfold GJKPass at hpass
    cases hs : support shapeA shapeB st.2 with
    | error f => rw [hs] at hpass; simp at hpass
    | ok p =>
      rw [hs] at hpass
      simp only at hpass
      by_cases hneg : dot p st.2 < 0
      · rw [if_pos hneg] at hpass; simp at hpass
      · rw [if_neg hneg] at hpass
        cases hd : doContainsOrigin (st.1 ++ [p]) st.2 with
        | error f => rw [hd] at hpass; simp at hpass
        | ok r =>
          obtain ⟨flag, s2, d2⟩ := r
          rw [hd] at hpass
          cases flag with
          | true => simp at hpass
          | false =>
            simp at hpass
            rw [← hpass]
            have hlen : (st.1 ++ [p]).length = 2 ∨ (st.1 ++ [p]).length = 3 := by
              rw [List.length_append, ih.1]
              split_ifs
              · left; rfl
              · right; rfl
            refine ⟨by simp [doContainsOrigin_false_length hlen hd], ?_⟩
            intro v hv
            have := doContainsOrigin_subset hd v hv
            rcases List.mem_append.1 this with h1 | h1
            · exact ih.2 v h1
            · simp at h1; rw [h1]; exact support_mem hs

/-- A simplex handed back by the loop of `GJK` has three points. -/
theorem GJKLoop_true_length {shapeA shapeB s0 : List (Vector K)} :
    ∀ (fuel : Nat) (simplex : List (Vector K)) (direction : Vector K) (s : List (Vector K)),
      simplex.length = 1 ∨ simplex.length = 2 →
      GJKLoop shapeA shapeB s0 fuel simplex direction = .ok (true, s) → s.length = 3 := by
  intro fuel
  induction fuel with
  | zero => intro simplex direction s _ h; simp [GJKLoop] at h
  | succ n ih =>
    intro simplex direction s hl h
    rw [GJKLoop] at h
    cases hs : support shapeA shapeB direction with
    | error f => rw [hs] at h; simp at h
    | ok p =>
      rw [hs] at h
      simp only at h
      by_cases hneg : dot p direction < 0
      · rw [if_pos hneg] at h; simp at h
      · rw [if_neg hneg] at h
        have hlen : (simplex ++ [p]).length = 2 ∨ (simplex ++ [p]).length = 3 := by
          rw [List.length_append]
          rcases hl with hl | hl
          · left; rw [hl]; rfl
          · right; rw [hl]; rfl
        cases hdo : doContainsOrigin (simplex ++ [p]) direction with
        | error f => rw [hdo] at h; simp at h
        | ok r =>
          obtain ⟨flag, s2, d2⟩ := r
          rw [hdo] at h
          cases flag with
          | true =>
            simp at h
            rw [← h]
            exact doContainsOrigin_true_length hlen hdo
          | false =>
            exact ih s2 d2 s (Or.inr (doContainsOrigin_false_length hlen hdo)) h

theorem GJK_true_length {shapeA shapeB s0 s : List (Vector K)} {fuel : Nat}
    (h : GJK fuel shapeA shapeB s0 = .ok (true, s)) : s.length = 3 := by
  rw [GJK_eq] at h
  cases hs : support shapeA shapeB (⟨1, 0, 1⟩ : Vector K) with
  | error f => rw [hs] at h; simp at h
  | ok p =>
    rw [hs] at h
    exact GJKLoop_true_length fuel [p] _ s (Or.inl rfl) h

/-- The pairs of `GJKState` are the ones the loop of `GJK` holds: after `n` passes that
go on, the loop continues from the pair. -/
theorem GJK_reaches {shapeA shapeB : List (Vector K)} (s0 : List (Vector K)) {n : Nat}
    {state : List (Vector K) × Vector K} (h : GJKState shapeA shapeB n state) :
    ∀ fuel, GJK (fuel + n) shapeA shapeB s0 =
      GJKLoop shapeA shapeB s0 fuel state.1 state.2 := by
  induction h with
  | first p hp =>
    intro fuel
    rw [GJK_eq, hp]
    rfl
  | next n st st2 _ hpass ih =>
    intro fuel
    have := ih (fuel + 1)
    rw [show fuel + (n + 1) = fuel + 1 + n by omega, this]
    exact GJKLoop_pass fuel hpass

/-! ## A triangle and a segment that share a corner: EPA does not converge -/

theorem zigzag_length (p t : Vector K) : ∀ k, (zigzag p t k).length = 2 * k
  | 0 => rfl
  | k + 1 => by simp [zigzag, zigzag_length p t k]; omega

theorem zigzag_snoc (p t : Vector K) : ∀ k, zigzag p t k ++ [p, t] = zigzag p t (k + 1)
  | 0 => rfl
  | k + 1 => by
    rw [zigzag, List.cons_append, List.cons_append, zigzag_snoc p t k]
    rfl

theorem zigzag_getD_tail (p t : Vector K) (s : List (Vector K)) (j : Nat) :
    ∀ k, (zigzag p t k ++ s).getD (2 * k + j) 0 = s.getD j 0
  | 0 => by simp [zigzag]
  | k + 1 => by
    have h : 2 * (k + 1) + j = (2 * k + j) + 1 + 1 := by omega
    rw [h, zigzag]
    simp only [List.cons_append, List.getD_cons_succ]
    exact zigzag_getD_tail p t s j k

theorem zigzag_getD_even (p t : Vector K) (s : List (Vector K)) :
    ∀ k m, m < k → (zigzag p t k ++ s).getD (2 * m) 0 = p
  | 0, m, h => by omega
  | k + 1, 0, _ => by simp [zigzag]
  | k + 1, m + 1, h => by
    have h2 : 2 * (m + 1) = 2 * m + 1 + 1 := by omega
    rw [h2, zigzag]
    simp only [List.cons_append, List.getD_cons_succ]
    exact zigzag_getD_even p t s k m (by omega)

theorem zigzag_getD_odd (p t : Vector K) (s : List (Vector K)) :
    ∀ k m, m < k → (zigzag p t k ++ s).getD (2 * m + 1) 0 = t
  | 0, m, h => by omega
  | k + 1, 0, _ => by simp [zigzag]
  | k + 1, m + 1, h => by
    have h2 : 2 * (m + 1) + 1 = (2 * m + 1) + 1 + 1 := by omega
    rw [h2, zigzag]
    simp only [List.cons_append, List.getD_cons_succ]
    exact zigzag_getD_odd p t s k m (by omega)

theorem zigzag_getD_zero (p t : Vector K) (s : List (Vector K)) :
    ∀ k, (zigzag p t k ++ p :: s).getD 0 0 = p
  | 0 => by simp [zigzag]
  | k + 1 => by simp [zigzag]

theorem insertAt_append (l s : List (Vector K)) (j : Nat) (x : Vector K) :
    insertAt (l ++ s) (l.length + j) x = l ++ insertAt s j x := by
  simp only [insertAt]
  rw [List.take_append, List.drop_append, List.append_assoc]

/-- The record of an edge depends only on its two end points. -/
theorem edgeAt_ends (sqrt : K → K) {simplex : List (Vector K)} {i : Nat} {a b n1 : Vector K}
    (ha : simplex.getD i 0 = a)
    (hb : simplex.getD (if i + 1 = simplex.length then 0 else i + 1) 0 = b)
    (hn : orientedPerp (b - a) (-a) = n1) :
    rawNormal simplex i = n1 ∧
      (edgeAt sqrt simplex i).distance = dot a n1 * (1 / sqrt (dot n1 n1)) ∧
      (edgeAt sqrt simplex i).normal = scale n1 (1 / sqrt (dot n1 n1)) ∧
      (edgeAt sqrt simplex i).index = (if i + 1 = simplex.length then 0 else i + 1) := by
  have hr : rawNormal simplex i = n1 := by
    simp only [rawNormal, ha, hb]
    exact hn
  refine ⟨hr, ?_, ?_, ?_⟩
  · simp only [edgeAt, hr, ha]
    rw [dot_scale_right]
  · simp only [edgeAt, hr]
  · simp only [edgeAt]

/-- The edge that `findClosestEdge` returns, from the distances of all edges. -/
theorem findClosestEdge_at (sqrt : K → K) (simplex : List (Vector K)) (i0 : Nat)
    (hi0 : i0 < simplex.length)
    (hgood : dot (rawNormal simplex i0) (rawNormal simplex i0) ≠ 0)
    (hbefore : ∀ j, j < i0 → dot (rawNormal simplex j) (rawNormal simplex j) ≠ 0 →
      (edgeAt sqrt simplex i0).distance < (edgeAt sqrt simplex j).distance)
    (hall : ∀ j, j < simplex.length → dot (rawNormal simplex j) (rawNormal simplex j) ≠ 0 →
      (edgeAt sqrt simplex i0).distance ≤ (edgeAt sqrt simplex j).distance) :
    findClosestEdge sqrt simplex = some (edgeAt sqrt simplex i0) := by
  have hfm := findClosestEdge_firstMin sqrt simplex
  cases hfe : findClosestEdge sqrt simplex with
  | none =>
    rw [hfe] at hfm
    exact absurd (hfm i0 hi0) hgood
  | some e =>
    rw [hfe] at hfm
    obtain ⟨i, hi, hgi, he, hmin, hfirst⟩ := hfm
    have : i = i0 := by
      rcases Nat.lt_trichotomy i i0 with h | h | h
      · have h1 := hbefore i h hgi
        have h2 := hmin i0 hi0 hgood
        exact absurd h1 (not_lt.2 h2)
      · exact h
      · have h1 := hfirst i0 h hgood
        have h2 := hall i hi hgi
        exact absurd h1 (not_lt.2 h2)
    rw [he, this]

theorem sqrt_bounds {sqrt : K → K} (hs : IsSqrt sqrt) :
    sqrt 4 = 2 ∧ (0 < sqrt 20 ∧ sqrt 20 < 6) ∧ (0 < sqrt 10 ∧ sqrt 10 < 4) ∧
      (0 < sqrt 8 ∧ sqrt 8 < 3) ∧ (0 < sqrt 18 ∧ sqrt 18 < 5) := by
  refine ⟨sqrt_four hs, ⟨sqrt_pos_of_pos hs (by norm_num), ?_⟩,
    ⟨sqrt_pos_of_pos hs (by norm_num), ?_⟩, ⟨sqrt_pos_of_pos hs (by norm_num), ?_⟩,
    ⟨sqrt_pos_of_pos hs (by norm_num), ?_⟩⟩
  · obtain ⟨h0, h1⟩ := hs 20 (by norm_num)
    by_contra h; push_neg at h; nlinarith
  · obtain ⟨h0, h1⟩ := hs 10 (by norm_num)
    by_contra h; push_neg at h; nlinarith
  · obtain ⟨h0, h1⟩ := hs 8 (by norm_num)
    by_contra h; push_neg at h; nlinarith
  · obtain ⟨h0, h1⟩ := hs 18 (by norm_num)
    by_contra h; push_neg at h; nlinarith

section
variable (sqrt : K → K) (simplex : List (Vector K)) (i : Nat)

/-- The edge from `(1,0,1)` to `(1,0,-1)`: distance 1 along `(1,0,0)`. -/
theorem edge_PQ (hs : IsSqrt sqrt) (ha : simplex.getD i 0 = ⟨1, 0, 1⟩)
    (hb : simplex.getD (if i + 1 = simplex.length then 0 else i + 1) 0 = ⟨1, 0, -1⟩) :
    dot (rawNormal simplex i) (rawNormal simplex i) ≠ 0 ∧
      (edgeAt sqrt simplex i).distance = 1 ∧ (edgeAt sqrt simplex i).normal = ⟨1, 0, 0⟩ := by
  obtain ⟨h4, -⟩ := sqrt_bounds hs
  have hn : orientedPerp ((⟨1, 0, -1⟩ : Vector K) - ⟨1, 0, 1⟩) (-⟨1, 0, 1⟩) = ⟨2, 0, 0⟩ := by
    norm_num [orientedPerp, perp]
  obtain ⟨h1, h2, h3, -⟩ := edgeAt_ends sqrt ha hb hn
  have hq : dot (⟨2, 0, 0⟩ : Vector K) ⟨2, 0, 0⟩ = 4 := by norm_num
  rw [hq, h4] at h2 h3
  refine ⟨by rw [h1, hq]; norm_num, by rw [h2]; norm_num, by rw [h3]; norm_num⟩

/-- The edge from `(1,0,-1)` to `(1,0,1)`: distance 1. -/
theorem edge_QP (hs : IsSqrt sqrt) (ha : simplex.getD i 0 = ⟨1, 0, -1⟩)
    (hb : simplex.getD (if i + 1 = simplex.length then 0 else i + 1) 0 = ⟨1, 0, 1⟩) :
    dot (rawNormal simplex i) (rawNormal simplex i) ≠ 0 ∧
      (edgeAt sqrt simplex i).distance = 1 := by
  obtain ⟨h4, -⟩ := sqrt_bounds hs
  have hn : orientedPerp ((⟨1, 0, 1⟩ : Vector K) - ⟨1, 0, -1⟩) (-⟨1, 0, -1⟩) = ⟨2, 0, 0⟩ := by
    norm_num [orientedPerp, perp]
  obtain ⟨h1, h2, -, -⟩ := edgeAt_ends sqrt ha hb hn
  have hq : dot (⟨2, 0, 0⟩ : Vector K) ⟨2, 0, 0⟩ = 4 := by norm_num
  rw [hq, h4] at h2
  exact ⟨by rw [h1, hq]; norm_num, by rw [h2]; norm_num⟩

/-- The edge from `(1,0,1)` to `(3,0,-3)`: distance above 1. -/
theorem edge_PT (hs : IsSqrt sqrt) (ha : simplex.getD i 0 = ⟨1, 0, 1⟩)
    (hb : simplex.getD (if i + 1 = simplex.length then 0 else i + 1) 0 = ⟨3, 0, -3⟩) :
    dot (rawNormal simplex i) (rawNormal simplex i) ≠ 0 ∧
      1 < (edgeAt sqrt simplex i).distance := by
  obtain ⟨-, ⟨h0, h6⟩, -⟩ := sqrt_bounds hs
  have hn : orientedPerp ((⟨3, 0, -3⟩ : Vector K) - ⟨1, 0, 1⟩) (-⟨1, 0, 1⟩) = ⟨4, 0, 2⟩ := by
    norm_num [orientedPerp, perp]
  obtain ⟨h1, h2, -, -⟩ := edgeAt_ends sqrt ha hb hn
  have hq : dot (⟨4, 0, 2⟩ : Vector K) ⟨4, 0, 2⟩ = 20 := by norm_num
  rw [hq] at h2
  refine ⟨by rw [h1, hq]; norm_num, ?_⟩
  rw [h2]
  have : dot (⟨1, 0, 1⟩ : Vector K) ⟨4, 0, 2⟩ = 6 := by norm_num
  rw [this, mul_one_div, lt_div_iff h0]
  linarith

/-- The edge from `(3,0,-3)` to `(1,0,1)`: distance above 1. -/
theorem edge_TP (hs : IsSqrt sqrt) (ha : simplex.getD i 0 = ⟨3, 0, -3⟩)
    (hb : simplex.getD (if i + 1 = simplex.length then 0 else i + 1) 0 = ⟨1, 0, 1⟩) :
    dot (rawNormal simplex i) (rawNormal simplex i) ≠ 0 ∧
      1 < (edgeAt sqrt simplex i).distance := by
  obtain ⟨-, ⟨h0, h6⟩, -⟩ := sqrt_bounds hs
  have hn : orientedPerp ((⟨1, 0, 1⟩ : Vector K) - ⟨3, 0, -3⟩) (-⟨3, 0, -3⟩) = ⟨4, 0, 2⟩ := by
    norm_num [orientedPerp, perp]
  obtain ⟨h1, h2, -, -⟩ := edgeAt_ends sqrt ha hb hn
  have hq : dot (⟨4, 0, 2⟩ : Vector K) ⟨4, 0, 2⟩ = 20 := by norm_num
  rw [hq] at h2
  refine ⟨by rw [h1, hq]; norm_num, ?_⟩
  rw [h2]
  have : dot (⟨3, 0, -3⟩ : Vector K) ⟨4, 0, 2⟩ = 6 := by norm_num
  rw [this, mul_one_div, lt_div_iff h0]
  linarith

/-- The edge from `(1,0,1)` to `(-2,0,2)`: distance above 1. -/
theorem edge_PR (hs : IsSqrt sqrt) (ha : simplex.getD i 0 = ⟨1, 0, 1⟩)
    (hb : simplex.getD (if i + 1 = simplex.length then 0 else i + 1) 0 = ⟨-2, 0, 2⟩) :
    dot (rawNormal simplex i) (rawNormal simplex i) ≠ 0 ∧
      1 < (edgeAt sqrt simplex i).distance := by
  obtain ⟨-, -, ⟨h0, h4⟩, -⟩ := sqrt_bounds hs
  have hn : orientedPerp ((⟨-2, 0, 2⟩ : Vector K) - ⟨1, 0, 1⟩) (-⟨1, 0, 1⟩) = ⟨1, 0, 3⟩ := by
    norm_num [orientedPerp, perp]
  obtain ⟨h1, h2, -, -⟩ := edgeAt_ends sqrt ha hb hn
  have hq : dot (⟨1, 0, 3⟩ : Vector K) ⟨1, 0, 3⟩ = 10 := by norm_num
  rw [hq] at h2
  refine ⟨by rw [h1, hq]; norm_num, ?_⟩
  rw [h2]
  have : dot (⟨1, 0, 1⟩ : Vector K) ⟨1, 0, 3⟩ = 4 := by norm_num
  rw [this, mul_one_div, lt_div_iff h0]
  linarith

/-- The edge from `(-2,0,2)` to `(1,0,1)`: distance above 1. -/
theorem edge_RP (hs : IsSqrt sqrt) (ha : simplex.getD i 0 = ⟨-2, 0, 2⟩)
    (hb : simplex.getD (if i + 1 = simplex.length then 0 else i + 1) 0 = ⟨1, 0, 1⟩) :
    dot (rawNormal simplex i) (rawNormal simplex i) ≠ 0 ∧
      1 < (edgeAt sqrt simplex i).distance := by
  obtain ⟨-, -, ⟨h0, h4⟩, -⟩ := sqrt_bounds hs
  have hn : orientedPerp ((⟨1, 0, 1⟩ : Vector K) - ⟨-2, 0, 2⟩) (-⟨-2, 0, 2⟩) = ⟨1, 0, 3⟩ := by
    norm_num [orientedPerp, perp]
  obtain ⟨h1, h2, -, -⟩ := edgeAt_ends sqrt ha hb hn
  have hq : dot (⟨1, 0, 3⟩ : Vector K) ⟨1, 0, 3⟩ = 10 := by norm_num
  rw [hq] at h2
  refine ⟨by rw [h1, hq]; norm_num, ?_⟩
  rw [h2]
  have : dot (⟨-2, 0, 2⟩ : Vector K) ⟨1, 0, 3⟩ = 4 := by norm_num
  rw [this, mul_one_div, lt_div_iff h0]
  linarith

/-- The edge from `(3,0,-3)` to `(1,0,-1)` lies on a line through the origin: distance 0,
and the orientation test turns the normal to `(2,0,2)`. -/
theorem edge_TQ (ha : simplex.getD i 0 = ⟨3, 0, -3⟩)
    (hb : simplex.getD (if i + 1 = simplex.length then 0 else i + 1) 0 = ⟨1, 0, -1⟩) :
    dot (rawNormal simplex i) (rawNormal simplex i) ≠ 0 ∧
      (edgeAt sqrt simplex i).distance = 0 ∧
      (edgeAt sqrt simplex i).normal = scale ⟨2, 0, 2⟩ (1 / sqrt 8) := by
  have hn : orientedPerp ((⟨1, 0, -1⟩ : Vector K) - ⟨3, 0, -3⟩) (-⟨3, 0, -3⟩) = ⟨2, 0, 2⟩ := by
    norm_num [orientedPerp, perp]
  obtain ⟨h1, h2, h3, -⟩ := edgeAt_ends sqrt ha hb hn
  have hq : dot (⟨2, 0, 2⟩ : Vector K) ⟨2, 0, 2⟩ = 8 := by norm_num
  rw [hq] at h2 h3
  refine ⟨by rw [h1, hq]; norm_num, ?_, h3⟩
  rw [h2]
  have : dot (⟨3, 0, -3⟩ : Vector K) ⟨2, 0, 2⟩ = 0 := by norm_num
  rw [this, zero_mul]

/-- The edge from `(1,0,-1)` to `(-2,0,2)` lies on a line through the origin. -/
theorem edge_QR (ha : simplex.getD i 0 = ⟨1, 0, -1⟩)
    (hb : simplex.getD (if i + 1 = simplex.length then 0 else i + 1) 0 = ⟨-2, 0, 2⟩) :
    dot (rawNormal simplex i) (rawNormal simplex i) ≠ 0 ∧
      (edgeAt sqrt simplex i).distance = 0 ∧
      (edgeAt sqrt simplex i).normal = scale ⟨3, 0, 3⟩ (1 / sqrt 18) := by
  have hn : orientedPerp ((⟨-2, 0, 2⟩ : Vector K) - ⟨1, 0, -1⟩) (-⟨1, 0, -1⟩) = ⟨3, 0, 3⟩ := by
    norm_num [orientedPerp, perp]
  obtain ⟨h1, h2, h3, -⟩ := edgeAt_ends sqrt ha hb hn
  have hq : dot (⟨3, 0, 3⟩ : Vector K) ⟨3, 0, 3⟩ = 18 := by norm_num
  rw [hq] at h2 h3
  refine ⟨by rw [h1, hq]; norm_num, ?_, h3⟩
  rw [h2]
  have : dot (⟨1, 0, -1⟩ : Vector K) ⟨3, 0, 3⟩ = 0 := by norm_num
  rw [this, zero_mul]
end

theorem touch_s0 :
    support (touchTriangle : List (Vector K)) touchSegment ⟨1, 0, 1⟩ = .ok ⟨1, 0, 1⟩ := by
  norm_num [support, getFarthestPointInDirection, farthestScan, touchTriangle, touchSegment]

theorem touch_s1 :
    support (touchTriangle : List (Vector K)) touchSegment (-⟨1, 0, 1⟩) = .ok ⟨1, 0, -1⟩ := by
  norm_num [support, getFarthestPointInDirection, farthestScan, touchTriangle, touchSegment]

theorem touch_s2 :
    support (touchTriangle : List (Vector K)) touchSegment ⟨-2, 0, 0⟩ = .ok ⟨-2, 0, 2⟩ := by
  norm_num [support, getFarthestPointInDirection, farthestScan, touchTriangle, touchSegment]

theorem touch_s3 :
    support (touchTriangle : List (Vector K)) touchSegment ⟨1, 0, 0⟩ = .ok ⟨3, 0, -3⟩ := by
  norm_num [support, getFarthestPointInDirection, farthestScan, touchTriangle, touchSegment]

theorem touch_s4 :
    support (touchTriangle : List (Vector K)) touchSegment ⟨2, 0, 2⟩ = .ok ⟨1, 0, 1⟩ := by
  norm_num [support, getFarthestPointInDirection, farthestScan, touchTriangle, touchSegment]

theorem touch_s5 :
    support (touchTriangle : List (Vector K)) touchSegment ⟨3, 0, 3⟩ = .ok ⟨1, 0, 1⟩ := by
  norm_num [support, getFarthestPointInDirection, farthestScan, touchTriangle, touchSegment]

theorem touch_gjk (fuel : Nat) (si : List (Vector K)) :
    GJK (fuel + 2) (touchTriangle : List (Vector K)) touchSegment si =
      .ok (true, [⟨1, 0, 1⟩, ⟨1, 0, -1⟩, ⟨-2, 0, 2⟩]) := by
  rw [GJK_eq, touch_s0]
  simp only
  rw [GJKLoop_step (fuel + 1) touch_s1 (by norm_num)]
  have hd : doContainsOrigin ([(⟨1, 0, 1⟩ : Vector K)] ++ [⟨1, 0, -1⟩]) (-⟨1, 0, 1⟩) =
      .ok (false, [⟨1, 0, 1⟩, ⟨1, 0, -1⟩], ⟨-2, 0, 0⟩) := by
    rw [List.singleton_append, doContainsOrigin_two]
    norm_num [perp]
  rw [hd]
  simp only
  rw [GJKLoop_step fuel touch_s2 (by norm_num)]
  have hd2 : doContainsOrigin ([(⟨1, 0, 1⟩ : Vector K), ⟨1, 0, -1⟩] ++ [⟨-2, 0, 2⟩]) ⟨-2, 0, 0⟩ =
      .ok (true, [⟨1, 0, 1⟩, ⟨1, 0, -1⟩, ⟨-2, 0, 2⟩], ⟨-2, 0, 0⟩) := by
    have : [(⟨1, 0, 1⟩ : Vector K), ⟨1, 0, -1⟩] ++ [⟨-2, 0, 2⟩] =
        [⟨1, 0, 1⟩, ⟨1, 0, -1⟩, ⟨-2, 0, 2⟩] := rfl
    rw [this, doContainsOrigin_three]
    norm_num [perp]
  rw [hd2]

theorem touch_gjk_fuel (fuel : Nat) (si : List (Vector K)) (h : fuel < 2) :
    GJK fuel (touchTriangle : List (Vector K)) touchSegment si = .error .outOfFuel := by
  rw [GJK_eq, touch_s0]
  simp only
  match fuel, h with
  | 0, _ => rfl
  | 1, _ =>
    rw [GJKLoop_step 0 touch_s1 (by norm_num)]
    have hd : doContainsOrigin ([(⟨1, 0, 1⟩ : Vector K)] ++ [⟨1, 0, -1⟩]) (-⟨1, 0, 1⟩) =
        .ok (false, [⟨1, 0, 1⟩, ⟨1, 0, -1⟩], ⟨-2, 0, 0⟩) := by
      rw [List.singleton_append, doContainsOrigin_two]
      norm_num [perp]
    rw [hd]
    rfl

section
variable (sqrt : K → K)

/-- The edges of the repeated part lie farther than 1 from the origin. -/
theorem touch_repeated (hs : IsSqrt sqrt) (k : Nat) (s : List (Vector K)) (j : Nat)
    (hj : j < 2 * k) :
    dot (rawNormal (zigzag ⟨1, 0, 1⟩ ⟨3, 0, -3⟩ k ++ ⟨1, 0, 1⟩ :: s) j)
        (rawNormal (zigzag ⟨1, 0, 1⟩ ⟨3, 0, -3⟩ k ++ ⟨1, 0, 1⟩ :: s) j) ≠ 0 ∧
      1 < (edgeAt sqrt (zigzag ⟨1, 0, 1⟩ ⟨3, 0, -3⟩ k ++ ⟨1, 0, 1⟩ :: s) j).distance := by
  have hlen : (zigzag (⟨1, 0, 1⟩ : Vector K) ⟨3, 0, -3⟩ k ++ ⟨1, 0, 1⟩ :: s).length =
      2 * k + (s.length + 1) := by
    rw [List.length_append, zigzag_length]; rfl
  have hne : ¬ j + 1 = (zigzag (⟨1, 0, 1⟩ : Vector K) ⟨3, 0, -3⟩ k ++ ⟨1, 0, 1⟩ :: s).length := by
    rw [hlen]; omega
  rcases Nat.even_or_odd' j with ⟨m, hm | hm⟩
  · subst hm
    apply edge_PT sqrt _ _ hs
    · exact zigzag_getD_even _ _ _ k m (by omega)
    · rw [if_neg hne]
      exact zigzag_getD_odd _ _ _ k m (by omega)
  · subst hm
    apply edge_TP sqrt _ _ hs
    · exact zigzag_getD_odd _ _ _ k m (by omega)
    · rw [if_neg hne]
      by_cases hmk : m + 1 < k
      · have := zigzag_getD_even (⟨1, 0, 1⟩ : Vector K) ⟨3, 0, -3⟩ (⟨1, 0, 1⟩ :: s) k (m + 1) hmk
        rw [show 2 * m + 1 + 1 = 2 * (m + 1) by omega]
        exact this
      · have hk : m + 1 = k := by omega
        have := zigzag_getD_tail (⟨1, 0, 1⟩ : Vector K) ⟨3, 0, -3⟩ (⟨1, 0, 1⟩ :: s) 0 k
        rw [show 2 * m + 1 + 1 = 2 * k + 0 by omega]
        rw [this]; rfl
end

theorem zigzag_tail_edge (p t : Vector K) (k : Nat) (s : List (Vector K)) (i : Nat)
    (hi : i + 1 < s.length) :
    (zigzag p t k ++ s).getD (2 * k + i) 0 = s.getD i 0 ∧
      (zigzag p t k ++ s).getD
        (if 2 * k + i + 1 = (zigzag p t k ++ s).length then 0 else 2 * k + i + 1) 0 =
        s.getD (i + 1) 0 := by
  refine ⟨zigzag_getD_tail p t s i k, ?_⟩
  have hne : ¬ 2 * k + i + 1 = (zigzag p t k ++ s).length := by
    rw [List.length_append, zigzag_length]; omega
  rw [if_neg hne]
  exact zigzag_getD_tail p t s (i + 1) k

theorem zigzag_last_edge (p t : Vector K) (k : Nat) (s : List (Vector K)) (i : Nat)
    (hi : i + 1 = s.length) :
    (zigzag p t k ++ s).getD (2 * k + i) 0 = s.getD i 0 ∧
      (zigzag p t k ++ s).getD
        (if 2 * k + i + 1 = (zigzag p t k ++ s).length then 0 else 2 * k + i + 1) 0 =
        (zigzag p t k ++ s).getD 0 0 := by
  refine ⟨zigzag_getD_tail p t s i k, ?_⟩
  have he : 2 * k + i + 1 = (zigzag p t k ++ s).length := by
    rw [List.length_append, zigzag_length]; omega
  rw [if_pos he]

section
variable (sqrt : K → K)

theorem touchPolygon1_edges (hs : IsSqrt sqrt) (k j : Nat)
    (hj : j < (touchPolygon1 k : List (Vector K)).length) :
    dot (rawNormal (touchPolygon1 k : List (Vector K)) j) (rawNormal (touchPolygon1 k) j) ≠ 0 ∧
      1 ≤ (edgeAt sqrt (touchPolygon1 k) j).distance ∧
      (j < 2 * k → 1 < (edgeAt sqrt (touchPolygon1 k) j).distance) ∧
      (j = 2 * k → (edgeAt sqrt (touchPolygon1 k) j).distance = 1 ∧
        (edgeAt sqrt (touchPolygon1 k) j).normal = ⟨1, 0, 0⟩) := by
  have hlen : (touchPolygon1 k : List (Vector K)).length = 2 * k + 4 := by
    rw [touchPolygon1, List.length_append, zigzag_length]; rfl
  rw [hlen] at hj
  by_cases hpre : j < 2 * k
  · obtain ⟨h1, h2⟩ := touch_repeated sqrt hs k [⟨1, 0, -1⟩, ⟨1, 0, 1⟩, ⟨-2, 0, 2⟩] j hpre
    exact ⟨h1, le_of_lt h2, fun _ => h2, fun h => absurd hpre (by omega)⟩
  · obtain ⟨i, rfl⟩ : ∃ i, j = 2 * k + i := ⟨j - 2 * k, by omega⟩
    have hi : i < 4 := by omega
    interval_cases i
    · obtain ⟨ha, hb⟩ := zigzag_tail_edge (⟨1, 0, 1⟩ : Vector K) ⟨3, 0, -3⟩ k
        [⟨1, 0, 1⟩, ⟨1, 0, -1⟩, ⟨1, 0, 1⟩, ⟨-2, 0, 2⟩] 0 (by simp)
      obtain ⟨h1, h2, h3⟩ := edge_PQ sqrt (touchPolygon1 k) (2 * k + 0) hs ha hb
      exact ⟨h1, le_of_eq h2.symm, fun h => absurd h (by omega), fun _ => ⟨h2, h3⟩⟩
    · obtain ⟨ha, hb⟩ := zigzag_tail_edge (⟨1, 0, 1⟩ : Vector K) ⟨3, 0, -3⟩ k
        [⟨1, 0, 1⟩, ⟨1, 0, -1⟩, ⟨1, 0, 1⟩, ⟨-2, 0, 2⟩] 1 (by simp)
      obtain ⟨h1, h2⟩ := edge_QP sqrt (touchPolygon1 k) (2 * k + 1) hs ha hb
      exact ⟨h1, le_of_eq h2.symm, fun h => absurd h (by omega), fun h => absurd h (by omega)⟩
    · obtain ⟨ha, hb⟩ := zigzag_tail_edge (⟨1, 0, 1⟩ : Vector K) ⟨3, 0, -3⟩ k
        [⟨1, 0, 1⟩, ⟨1, 0, -1⟩, ⟨1, 0, 1⟩, ⟨-2, 0, 2⟩] 2 (by simp)
      obtain ⟨h1, h2⟩ := edge_PR sqrt (touchPolygon1 k) (2 * k + 2) hs ha hb
      exact ⟨h1, le_of_lt h2, fun h => absurd h (by omega), fun h => absurd h (by omega)⟩
    · obtain ⟨ha, hb⟩ := zigzag_last_edge (⟨1, 0, 1⟩ : Vector K) ⟨3, 0, -3⟩ k
        [⟨1, 0, 1⟩, ⟨1, 0, -1⟩, ⟨1, 0, 1⟩, ⟨-2, 0, 2⟩] 3 (by simp)
      rw [zigzag_getD_zero] at hb
      obtain ⟨h1, h2⟩ := edge_RP sqrt (touchPolygon1 k) (2 * k + 3) hs ha hb
      exact ⟨h1, le_of_lt h2, fun h => absurd h (by omega), fun h => absurd h (by omega)⟩

theorem touchPolygon2_edges (hs : IsSqrt sqrt) (k j : Nat)
    (hj : j < (touchPolygon2 k : List (Vector K)).length) :
    dot (rawNormal (touchPolygon2 k : List (Vector K)) j) (rawNormal (touchPolygon2 k) j) ≠ 0 ∧
      0 ≤ (edgeAt sqrt (touchPolygon2 k) j).distance ∧
      (j < 2 * k + 1 → 0 < (edgeAt sqrt (touchPolygon2 k) j).distance) ∧
      (j = 2 * k + 1 → (edgeAt sqrt (touchPolygon2 k) j).distance = 0 ∧
        (edgeAt sqrt (touchPolygon2 k) j).normal = scale ⟨2, 0, 2⟩ (1 / sqrt 8)) := by
  have hlen : (touchPolygon2 k : List (Vector K)).length = 2 * k + 5 := by
    rw [touchPolygon2, List.length_append, zigzag_length]; rfl
  rw [hlen] at hj
  have h01 : (0 : K) < 1 := one_pos
  by_cases hpre : j < 2 * k
  · obtain ⟨h1, h2⟩ := touch_repeated sqrt hs k
      [⟨3, 0, -3⟩, ⟨1, 0, -1⟩, ⟨1, 0, 1⟩, ⟨-2, 0, 2⟩] j hpre
    have h3 : 1 < (edgeAt sqrt (touchPolygon2 k) j).distance := h2
    exact ⟨h1, by linarith, fun _ => by linarith, fun h => absurd hpre (by omega)⟩
  · obtain ⟨i, rfl⟩ : ∃ i, j = 2 * k + i := ⟨j - 2 * k, by omega⟩
    have hi : i < 5 := by omega
    interval_cases i
    · obtain ⟨ha, hb⟩ := zigzag_tail_edge (⟨1, 0, 1⟩ : Vector K) ⟨3, 0, -3⟩ k
        [⟨1, 0, 1⟩, ⟨3, 0, -3⟩, ⟨1, 0, -1⟩, ⟨1, 0, 1⟩, ⟨-2, 0, 2⟩] 0 (by simp)
      obtain ⟨h1, h2⟩ := edge_PT sqrt (touchPolygon2 k) (2 * k + 0) hs ha hb
      exact ⟨h1, by linarith, fun _ => by linarith, fun h => absurd h (by omega)⟩
    · obtain ⟨ha, hb⟩ := zigzag_tail_edge (⟨1, 0, 1⟩ : Vector K) ⟨3, 0, -3⟩ k
        [⟨1, 0, 1⟩, ⟨3, 0, -3⟩, ⟨1, 0, -1⟩, ⟨1, 0, 1⟩, ⟨-2, 0, 2⟩] 1 (by simp)
      obtain ⟨h1, h2, h3⟩ := edge_TQ sqrt (touchPolygon2 k) (2 * k + 1) ha hb
      exact ⟨h1, le_of_eq h2.symm, fun h => absurd h (by omega), fun _ => ⟨h2, h3⟩⟩
    · obtain ⟨ha, hb⟩ := zigzag_tail_edge (⟨1, 0, 1⟩ : Vector K) ⟨3, 0, -3⟩ k
        [⟨1, 0, 1⟩, ⟨3, 0, -3⟩, ⟨1, 0, -1⟩, ⟨1, 0, 1⟩, ⟨-2, 0, 2⟩] 2 (by simp)
      obtain ⟨h1, h2⟩ := edge_QP sqrt (touchPolygon2 k) (2 * k + 2) hs ha hb
      exact ⟨h1, by linarith, fun h => absurd h (by omega), fun h => absurd h (by omega)⟩
    · obtain ⟨ha, hb⟩ := zigzag_tail_edge (⟨1, 0, 1⟩ : Vector K) ⟨3, 0, -3⟩ k
        [⟨1, 0, 1⟩, ⟨3, 0, -3⟩, ⟨1, 0, -1⟩, ⟨1, 0, 1⟩, ⟨-2, 0, 2⟩] 3 (by simp)
      obtain ⟨h1, h2⟩ := edge_PR sqrt (touchPolygon2 k) (2 * k + 3) hs ha hb
      exact ⟨h1, by linarith, fun h => absurd h (by omega), fun h => absurd h (by omega)⟩
    · obtain ⟨ha, hb⟩ := zigzag_last_edge (⟨1, 0, 1⟩ : Vector K) ⟨3, 0, -3⟩ k
        [⟨1, 0, 1⟩, ⟨3, 0, -3⟩, ⟨1, 0, -1⟩, ⟨1, 0, 1⟩, ⟨-2, 0, 2⟩] 4 (by simp)
      rw [zigzag_getD_zero] at hb
      obtain ⟨h1, h2⟩ := edge_RP sqrt (touchPolygon2 k) (2 * k + 4) hs ha hb
      exact ⟨h1, by linarith, fun h => absurd h (by omega), fun h => absurd h (by omega)⟩

theorem touchPolygon1_closest (hs : IsSqrt sqrt) (k : Nat) :
    findClosestEdge sqrt (touchPolygon1 k : List (Vector K)) =
      some (edgeAt sqrt (touchPolygon1 k) (2 * k)) := by
  have hlen : (touchPolygon1 k : List (Vector K)).length = 2 * k + 4 := by
    rw [touchPolygon1, List.length_append, zigzag_length]; rfl
  have h0 := touchPolygon1_edges sqrt hs k (2 * k) (by rw [hlen]; omega)
  have hd := (h0.2.2.2 rfl).1
  apply findClosestEdge_at sqrt _ (2 * k) (by rw [hlen]; omega) h0.1
  · intro j hj _
    rw [hd]
    exact (touchPolygon1_edges sqrt hs k j (by rw [hlen]; omega)).2.2.1 hj
  · intro j hj _
    rw [hd]
    exact (touchPolygon1_edges sqrt hs k j hj).2.1

theorem touchPolygon2_closest (hs : IsSqrt sqrt) (k : Nat) :
    findClosestEdge sqrt (touchPolygon2 k : List (Vector K)) =
      some (edgeAt sqrt (touchPolygon2 k) (2 * k + 1)) := by
  have hlen : (touchPolygon2 k : List (Vector K)).length = 2 * k + 5 := by
    rw [touchPolygon2, List.length_append, zigzag_length]; rfl
  have h0 := touchPolygon2_edges sqrt hs k (2 * k + 1) (by rw [hlen]; omega)
  have hd := (h0.2.2.2 rfl).1
  apply findClosestEdge_at sqrt _ (2 * k + 1) (by rw [hlen]; omega) h0.1
  · intro j hj _
    rw [hd]
    exact (touchPolygon2_edges sqrt hs k j (by rw [hlen]; omega)).2.2.1 hj
  · intro j hj _
    rw [hd]
    exact (touchPolygon2_edges sqrt hs k j hj).2.1

/-- A pass of `EPA` on the first polygon inserts `(3,0,-3)` and does not converge. -/
theorem touch_step1 (hs : IsSqrt sqrt) (fuel k : Nat) :
    EPA sqrt (touchTriangle : List (Vector K)) touchSegment (fuel + 1) (touchPolygon1 k) =
      EPA sqrt touchTriangle touchSegment fuel (touchPolygon2 k) := by
  have hlen : (touchPolygon1 k : List (Vector K)).length = 2 * k + 4 := by
    rw [touchPolygon1, List.length_append, zigzag_length]; rfl
  obtain ⟨hd, hn⟩ := (touchPolygon1_edges sqrt hs k (2 * k) (by rw [hlen]; omega)).2.2.2 rfl
  have hidx : (edgeAt sqrt (touchPolygon1 k : List (Vector K)) (2 * k)).index = 2 * k + 1 := by
    simp only [edgeAt]
    rw [if_neg (by rw [hlen]; omega)]
  have hp : support (touchTriangle : List (Vector K)) touchSegment
      (edgeAt sqrt (touchPolygon1 k) (2 * k)).normal = .ok ⟨3, 0, -3⟩ := by
    rw [hn]; exact touch_s3
  rw [EPA_more fuel (touchPolygon1_closest sqrt hs k) hp
    (by rw [hn, hd]; norm_num [abs_lt])]
  rw [hidx]
  have := insertAt_append (zigzag (⟨1, 0, 1⟩ : Vector K) ⟨3, 0, -3⟩ k)
    [⟨1, 0, 1⟩, ⟨1, 0, -1⟩, ⟨1, 0, 1⟩, ⟨-2, 0, 2⟩] 1 ⟨3, 0, -3⟩
  rw [zigzag_length] at this
  rw [touchPolygon1, this]
  rfl

/-- A pass of `EPA` on the second polygon inserts `(1,0,1)` and does not converge. -/
theorem touch_step2 (hs : IsSqrt sqrt) (fuel k : Nat) :
    EPA sqrt (touchTriangle : List (Vector K)) touchSegment (fuel + 1) (touchPolygon2 k) =
      EPA sqrt touchTriangle touchSegment fuel (touchPolygon1 (k + 1)) := by
  obtain ⟨-, -, -, ⟨h80, h83⟩, -⟩ := sqrt_bounds hs
  have hlen : (touchPolygon2 k : List (Vector K)).length = 2 * k + 5 := by
    rw [touchPolygon2, List.length_append, zigzag_length]; rfl
  obtain ⟨hd, hn⟩ := (touchPolygon2_edges sqrt hs k (2 * k + 1) (by rw [hlen]; omega)).2.2.2 rfl
  have hidx : (edgeAt sqrt (touchPolygon2 k : List (Vector K)) (2 * k + 1)).index =
      2 * k + 2 := by
    simp only [edgeAt]
    rw [if_neg (by rw [hlen]; omega)]
  have hp : support (touchTriangle : List (Vector K)) touchSegment
      (edgeAt sqrt (touchPolygon2 k) (2 * k + 1)).normal = .ok ⟨1, 0, 1⟩ := by
    rw [hn, support_scale _ _ _ (one_div_pos.2 h80)]; exact touch_s4
  have hbig : ¬ |dot (⟨1, 0, 1⟩ : Vector K) (edgeAt sqrt (touchPolygon2 k) (2 * k + 1)).normal
      - (edgeAt sqrt (touchPolygon2 k) (2 * k + 1)).distance| < 1 / 100 := by
    rw [hn, hd, dot_scale_right, sub_zero]
    have : dot (⟨1, 0, 1⟩ : Vector K) ⟨2, 0, 2⟩ = 4 := by norm_num
    rw [this, mul_one_div, abs_of_pos (div_pos (by norm_num) h80), not_lt,
      div_le_div_iff (by norm_num) h80]
    linarith
  rw [EPA_more fuel (touchPolygon2_closest sqrt hs k) hp hbig, hidx]
  have := insertAt_append (zigzag (⟨1, 0, 1⟩ : Vector K) ⟨3, 0, -3⟩ k)
    [⟨1, 0, 1⟩, ⟨3, 0, -3⟩, ⟨1, 0, -1⟩, ⟨1, 0, 1⟩, ⟨-2, 0, 2⟩] 2 ⟨1, 0, 1⟩
  rw [zigzag_length] at this
  rw [touchPolygon2, this, touchPolygon1, ← zigzag_snoc]
  simp [insertAt]

/-- The first pass of `EPA` on the simplex of `GJK` inserts `(1,0,1)`. -/
theorem touch_step0 (hs : IsSqrt sqrt) (fuel : Nat) :
    EPA sqrt (touchTriangle : List (Vector K)) touchSegment (fuel + 1)
        [⟨1, 0, 1⟩, ⟨1, 0, -1⟩, ⟨-2, 0, 2⟩] =
      EPA sqrt touchTriangle touchSegment fuel (touchPolygon1 0) := by
  obtain ⟨-, -, -, -, ⟨h180, h185⟩⟩ := sqrt_bounds hs
  have e0 := edge_PQ sqrt [⟨1, 0, 1⟩, ⟨1, 0, -1⟩, ⟨-2, 0, 2⟩] 0 hs rfl rfl
  have e1 := edge_QR sqrt [⟨1, 0, 1⟩, ⟨1, 0, -1⟩, ⟨-2, 0, 2⟩] 1 rfl rfl
  have e2 := edge_RP sqrt [⟨1, 0, 1⟩, ⟨1, 0, -1⟩, ⟨-2, 0, 2⟩] 2 hs rfl rfl
  have h01 : (0 : K) < 1 := one_pos
  have hce : findClosestEdge sqrt [(⟨1, 0, 1⟩ : Vector K), ⟨1, 0, -1⟩, ⟨-2, 0, 2⟩] =
      some (edgeAt sqrt [⟨1, 0, 1⟩, ⟨1, 0, -1⟩, ⟨-2, 0, 2⟩] 1) := by
    apply findClosestEdge_at sqrt _ 1 (by simp) e1.1
    · intro j hj _
      have : j = 0 := by omega
      subst this
      rw [e1.2.1, e0.2.1]; exact h01
    · intro j hj _
      have hj3 : j < 3 := hj
      rw [e1.2.1]
      interval_cases j
      · rw [e0.2.1]; linarith
      · rw [e1.2.1]
      · linarith [e2.2]
  have hp : support (touchTriangle : List (Vector K)) touchSegment
      (edgeAt sqrt [⟨1, 0, 1⟩, ⟨1, 0, -1⟩, ⟨-2, 0, 2⟩] 1).normal = .ok ⟨1, 0, 1⟩ := by
    rw [e1.2.2, support_scale _ _ _ (one_div_pos.2 h180)]; exact touch_s5
  have hbig : ¬ |dot (⟨1, 0, 1⟩ : Vector K)
      (edgeAt sqrt [⟨1, 0, 1⟩, ⟨1, 0, -1⟩, ⟨-2, 0, 2⟩] 1).normal
      - (edgeAt sqrt [⟨1, 0, 1⟩, ⟨1, 0, -1⟩, ⟨-2, 0, 2⟩] 1).distance| < 1 / 100 := by
    rw [e1.2.2, e1.2.1, dot_scale_right, sub_zero]
    have : dot (⟨1, 0, 1⟩ : Vector K) ⟨3, 0, 3⟩ = 6 := by norm_num
    rw [this, mul_one_div, abs_of_pos (div_pos (by norm_num) h180), not_lt,
      div_le_div_iff (by norm_num) h180]
    linarith
  rw [EPA_more fuel hce hp hbig]
  rfl

/-- On `touchTriangle` and `touchSegment` the loop of `EPA` never converges: whatever
the number of passes allowed, they are all used. -/
theorem touch_epa (hs : IsSqrt sqrt) :
    ∀ fuel k : Nat,
      EPA sqrt (touchTriangle : List (Vector K)) touchSegment fuel (touchPolygon1 k) =
          .error .outOfFuel ∧
        EPA sqrt (touchTriangle : List (Vector K)) touchSegment fuel (touchPolygon2 k) =
          .error .outOfFuel
  | 0, _ => ⟨rfl, rfl⟩
  | fuel + 1, k => by
    rw [touch_step1 sqrt hs, touch_step2 sqrt hs]
    exact ⟨(touch_epa hs fuel k).2, (touch_epa hs fuel (k + 1)).1⟩

theorem touch_intersect (hs : IsSqrt sqrt) (fuel : Nat) (rd : K) (rv : Vector K) :
    intersect sqrt fuel rd rv (touchTriangle : List (Vector K)) touchSegment =
      .error .outOfFuel := by
  by_cases h : fuel < 2
  · rw [intersect, touch_gjk_fuel fuel [] h]
  · obtain ⟨n, rfl⟩ : ∃ n, fuel = n + 2 := ⟨fuel - 2, by omega⟩
    rw [intersect, touch_gjk n []]
    simp only
    rw [touch_step0 sqrt hs (n + 1), (touch_epa sqrt hs (n + 1) 0).1]
end

theorem touch_epa_simplex {sqrt : K → K} (hs : IsSqrt sqrt) (fuel : Nat) :
    EPA sqrt (touchTriangle : List (Vector K)) touchSegment fuel
      [⟨1, 0, 1⟩, ⟨1, 0, -1⟩, ⟨-2, 0, 2⟩] = .error .outOfFuel := by
  cases fuel with
  | zero => rfl
  | succ n => rw [touch_step0 sqrt hs n, (touch_epa sqrt hs n 0).1]

/-! ## The claims -/

/-- C1 (failing input): the claim asks that disjoint convex polygons make `intersect`
return `false`.  The two triangles `triangleLeft` (inside `x ≤ 4`) and `triangleRight`
(inside `x ≥ 6`) have no common point, yet `intersect` returns `true` with depth 0; the
unit squares centred at (0,0,0) and (10,0,0) of the spec do give `false`. -/
theorem intersect_true_on_disjoint_triangles :
    (¬ ∃ x, InHull (triangleLeft : List (Vector ℝ)) x ∧ InHull triangleRight x) ∧
      intersect Real.sqrt 2 0 0 (triangleLeft : List (Vector ℝ)) triangleRight =
        .ok (true, 0, ⟨0, 0, 1⟩) ∧
      intersect Real.sqrt 2 0 0 (squareAt0 : List (Vector ℝ)) squareAt10 =
        .ok (false, 0, 0) :=
  ⟨tri_disjoint, tri_intersect isSqrt_real 0 0 0, by rw [intersect, far_gjk 0 []]⟩

/-- C3 (failing input): the claim asks that the depth returned be minimal up to 0.01,
that is `max over m of dot m u > d - 0.01` for every unit direction `u`.  For the cut
square against the small square the origin is interior to the hull of the Minkowski
difference and `intersect` returns depth 3, but along the unit direction
`(3/5, 0, -4/5)` no vertex difference reaches beyond `12/5`. -/
theorem intersect_depth_not_minimal :
    InteriorPt (minkowskiDifference (cutSquare : List (Vector ℝ)) smallSquare) 0 ∧
      intersect Real.sqrt 2 0 0 (cutSquare : List (Vector ℝ)) smallSquare =
        .ok (true, 3, ⟨0, 0, 1⟩) ∧
      ∃ u : Vector ℝ, u.y = 0 ∧ dot u u = 1 ∧
        ∀ m ∈ minkowskiDifference (cutSquare : List (Vector ℝ)) smallSquare,
          ¬ dot m u > 3 - 1 / 100 :=
  ⟨cut_interior, cut_intersect isSqrt_real 0 0 0, ⟨3 / 5, 0, -4 / 5⟩, rfl, by norm_num,
    fun m hm => by have := cut_extent m hm; linarith⟩

/-- C4: for `0 < t < 1`, with A the unit square and B the same square moved by
`(t, 0, 0)`, `intersect` returns `true`, the penetration depth differs from `1 - t` by
less than 0.01 (it is `1 - t`), and the penetration vector is `(1,0,0)` or `(-1,0,0)`;
for `t = 0.7` the depth is `0.3`. -/
theorem intersect_overlapping_squares (sqrt : K → K) (hs : IsSqrt sqrt) (t : K)
    (h0 : 0 < t) (h1 : t < 1) (fuel : Nat) (rd : K) (rv : Vector K) :
    ∃ d n, intersect sqrt (fuel + 2) rd rv (unitSquare : List (Vector K))
        (translateBy unitSquare ⟨t, 0, 0⟩) = .ok (true, d, n) ∧
      |d - (1 - t)| < 1 / 100 ∧ (n = ⟨1, 0, 0⟩ ∨ n = ⟨-1, 0, 0⟩) ∧
      (t = 7 / 10 → d = 3 / 10) := by
  refine ⟨1 - t, ⟨1, 0, 0⟩, ?_, by norm_num, Or.inl rfl, ?_⟩
  · rw [translateBy_unitSquare]
    exact overlap_intersect sqrt t hs h0 h1 fuel rd rv
  · intro ht; rw [ht]; norm_num

/-- Witness of C4: `t = 7/10` over the reals with the real square root. -/
theorem intersect_overlapping_squares_witness :
    IsSqrt Real.sqrt ∧ (0 : ℝ) < 7 / 10 ∧ (7 / 10 : ℝ) < 1 ∧
      ∃ d n, intersect Real.sqrt (0 + 2) 0 0 (unitSquare : List (Vector ℝ))
          (translateBy unitSquare ⟨7 / 10, 0, 0⟩) = .ok (true, d, n) ∧
        |d - (1 - 7 / 10)| < 1 / 100 ∧ (n = ⟨1, 0, 0⟩ ∨ n = ⟨-1, 0, 0⟩) ∧
        ((7 / 10 : ℝ) = 7 / 10 → d = 3 / 10) :=
  ⟨isSqrt_real, by norm_num, by norm_num,
    intersect_overlapping_squares Real.sqrt isSqrt_real (7 / 10) (by norm_num) (by norm_num)
      0 0 0⟩

/-- C10 (failing input): the claim asks that the three simplex points `GJK` hands back
with `true` enclose the origin.  For the two triangles `GJK` returns `true` with the
simplex `[(-2,0,0), (-10,0,0), (-6,0,0)]`, three points of the x axis left of the origin,
whose hull does not hold the origin. -/
theorem GJK_simplex_misses_origin :
    GJK 2 (triangleLeft : List (Vector ℚ)) triangleRight [] =
        .ok (true, [⟨-2, 0, 0⟩, ⟨-10, 0, 0⟩, ⟨-6, 0, 0⟩]) ∧
      ¬ InHull [(⟨-2, 0, 0⟩ : Vector ℚ), ⟨-10, 0, 0⟩, ⟨-6, 0, 0⟩] 0 :=
  ⟨tri_gjk 0 [], tri_simplex_misses_origin⟩

/-- C13: `getFarthestPointInDirection` fails, with the out-of-range error, exactly on the
empty shape, and `support` fails, with the same error, exactly when one of the two shapes
is empty; on non-empty shapes both return, for every direction. -/
theorem support_fails_iff_empty (shapeA shapeB : List (Vector K)) (d : Vector K) :
    (getFarthestPointInDirection shapeA d = .error .outOfRange ↔ shapeA = []) ∧
      ((∃ v, getFarthestPointInDirection shapeA d = .ok v) ↔ shapeA ≠ []) ∧
      (support shapeA shapeB d = .error .outOfRange ↔ (shapeA = [] ∨ shapeB = [])) ∧
      ((∃ p, support shapeA shapeB d = .ok p) ↔ (shapeA ≠ [] ∧ shapeB ≠ [])) := by
  refine ⟨⟨fun h => (getFarthest_error h).1, fun h => by rw [h]; rfl⟩,
    ⟨fun ⟨v, hv⟩ => getFarthest_ne_nil hv, fun h => getFarthest_ok d h⟩,
    ⟨fun h => (support_error h).1, ?_⟩,
    ⟨fun ⟨p, hp⟩ => support_ne_nil hp, fun h => support_ok d h.1 h.2⟩⟩
  rintro (h | h)
  · rw [h]; exact support_nil_left shapeB d
  · rw [h]; exact support_nil_right shapeA d

/-- C14 (counterexample): for two shapes that are the same single point `GJK` returns
`true`, but `intersect` does not return at all, whatever the fuel: every edge of the
simplex has zero length, so `findClosestEdge` accepts none and `EPA` inserts at an index
that was never set. -/
theorem intersect_stuck_after_GJK_true :
    (∀ fuel, GJK (fuel + 2) (originPoint : List (Vector ℚ)) originPoint [] =
        .ok (true, [⟨0, 0, 0⟩, ⟨0, 0, 0⟩, ⟨0, 0, 0⟩])) ∧
      ∀ (sqrt : ℚ → ℚ) (fuel : Nat) (rd : ℚ) (rv : Vector ℚ) (r : Bool × ℚ × Vector ℚ),
        intersect sqrt fuel rd rv (originPoint : List (Vector ℚ)) originPoint ≠ .ok r :=
  ⟨fun fuel => origin_gjk fuel [], fun sqrt fuel rd rv r => origin_intersect sqrt fuel rd rv r⟩

/-- C14 (amended): `intersect` returns `true` with `(d, n)` exactly when `GJK` returns
`true` with a simplex on which `EPA` returns `(d, n)`; it returns `false` exactly when
`GJK` returns `false`, and then the two out-parameters keep the values they had. -/
theorem intersect_follows_GJK (sqrt : K → K) (fuel : Nat) (rd : K) (rv : Vector K)
    (shapeA shapeB : List (Vector K)) (d : K) (n : Vector K) :
    (intersect sqrt fuel rd rv shapeA shapeB = .ok (true, d, n) ↔
        ∃ s, GJK fuel shapeA shapeB [] = .ok (true, s) ∧
          EPA sqrt shapeA shapeB fuel s = .ok (d, n)) ∧
      (intersect sqrt fuel rd rv shapeA shapeB = .ok (false, d, n) ↔
        (∃ s, GJK fuel shapeA shapeB [] = .ok (false, s)) ∧ d = rd ∧ n = rv) := by
  refine ⟨⟨intersect_true, fun ⟨s, hg, he⟩ => intersect_of_true hg he⟩,
    ⟨intersect_false, ?_⟩⟩
  rintro ⟨⟨s, hg⟩, rfl, rfl⟩
  exact intersect_of_false hg

/-- Witness of C14: the unit square against its copy moved by 1/2 along x gives `true`,
and the unit squares centred at (0,0,0) and (10,0,0) give `false` with the out-parameters
`7` and `(1,0,0)` untouched. -/
theorem intersect_follows_GJK_witness :
    (∃ s, GJK 2 (unitSquare : List (Vector ℝ)) (squareT (1 / 2)) [] = .ok (true, s) ∧
        EPA Real.sqrt unitSquare (squareT (1 / 2)) 2 s = .ok (1 - 1 / 2, ⟨1, 0, 0⟩)) ∧
      intersect Real.sqrt 2 7 ⟨1, 0, 0⟩ (squareAt0 : List (Vector ℝ)) squareAt10 =
        .ok (false, 7, ⟨1, 0, 0⟩) :=
  ⟨(intersect_follows_GJK Real.sqrt 2 0 0 unitSquare (squareT (1 / 2)) (1 - 1 / 2)
      ⟨1, 0, 0⟩).1.1
      (overlap_intersect Real.sqrt (1 / 2) isSqrt_real (by norm_num) (by norm_num) 0 0 0),
    (intersect_follows_GJK Real.sqrt 2 7 ⟨1, 0, 0⟩ squareAt0 squareAt10 7 ⟨1, 0, 0⟩).2.2
      ⟨⟨[], far_gjk 0 []⟩, rfl, rfl⟩⟩

/-- C17: let `[b, c, a]` be a planar non-degenerate triangle with the origin on the side
of the line `bc` where `a` lies, or on that line.  If the origin is strictly inside the
triangle, `doContainsOrigin` returns `true`; and whenever it returns `true` the origin is
in the closed triangle and the simplex and the direction are the ones passed in. -/
theorem doContainsOrigin_true_iff_inside (b c a d : Vector K) (hb : b.y = 0) (hc : c.y = 0)
    (ha : a.y = 0) (hnd : sideOfLine b c a ≠ 0)
    (hside : 0 ≤ sideOfLine b c 0 * sideOfLine b c a) :
    (StrictlyInside a b c 0 → doContainsOrigin [b, c, a] d = .ok (true, [b, c, a], d)) ∧
      ∀ s d2, doContainsOrigin [b, c, a] d = .ok (true, s, d2) →
        InHull [b, c, a] 0 ∧ s = [b, c, a] ∧ d2 = d :=
  ⟨fun hin => three_inside d hnd hin,
    fun _ _ h => three_true_side hb hc ha hnd hside h⟩

/-- Witness of C17: the triangle `(2,0,1), (-2,0,1), (0,0,-2)` has the origin strictly
inside (weights 1/3 each), so the call returns `true` and leaves simplex and direction. -/
theorem doContainsOrigin_true_iff_inside_witness :
    doContainsOrigin [(⟨2, 0, 1⟩ : Vector ℚ), ⟨-2, 0, 1⟩, ⟨0, 0, -2⟩] ⟨5, 0, 7⟩ =
        .ok (true, [⟨2, 0, 1⟩, ⟨-2, 0, 1⟩, ⟨0, 0, -2⟩], ⟨5, 0, 7⟩) ∧
      InHull [(⟨2, 0, 1⟩ : Vector ℚ), ⟨-2, 0, 1⟩, ⟨0, 0, -2⟩] 0 := by
  have h := doContainsOrigin_true_iff_inside (⟨2, 0, 1⟩ : Vector ℚ) ⟨-2, 0, 1⟩ ⟨0, 0, -2⟩
    ⟨5, 0, 7⟩ rfl rfl rfl (by norm_num [sideOfLine, cross2])
    (by norm_num [sideOfLine, cross2])
  have h1 := h.1 ⟨1 / 3, 1 / 3, 1 / 3, by norm_num, by norm_num, by norm_num, by norm_num,
    by apply vec_ext <;> norm_num⟩
  exact ⟨h1, (h.2 _ _ h1).1⟩

/-- C18: the two-point case removes nothing and returns `false` with a direction
perpendicular to the segment `ba` and `dot direction (-a) ≥ 0`.  When the three-point
case returns `false`, exactly one of the two older points is gone, the simplex is
`[r, a]` with `r` the older point that stays, and the new direction is perpendicular to
the segment `ra` with `dot direction (-a) > 0`. -/
theorem doContainsOrigin_false_keeps_two (b c a d : Vector K) :
    (∃ d2, doContainsOrigin [b, a] d = .ok (false, [b, a], d2) ∧ dot d2 (b - a) = 0 ∧
        0 ≤ dot d2 (-a)) ∧
      ∀ s d2, doContainsOrigin [b, c, a] d = .ok (false, s, d2) →
        ∃ r, (r = b ∨ r = c) ∧ s = [r, a] ∧ dot d2 (r - a) = 0 ∧ 0 < dot d2 (-a) := by
  constructor
  · obtain ⟨d2, h1, h2, h3, -⟩ := two_false b a d
    exact ⟨d2, h1, h2, h3⟩
  · intro s d2 h
    obtain ⟨r, h1, h2, h3, h4, -⟩ := three_false_shape h
    exact ⟨r, h1, h2, h3, h4⟩

/-- Witness of C18: the third pass of `GJK` on two triangles that share a corner; the
call on `[(1,0,2), (0,0,2), (3,0,-2)]` returns `false` and keeps `(1,0,2)`. -/
theorem doContainsOrigin_false_keeps_two_witness :
    ∃ r, (r = (⟨1, 0, 2⟩ : Vector ℚ) ∨ r = ⟨0, 0, 2⟩) ∧
      [(⟨1, 0, 2⟩ : Vector ℚ), ⟨3, 0, -2⟩] = [r, ⟨3, 0, -2⟩] ∧
      dot (⟨-4, 0, -2⟩ : Vector ℚ) (r - ⟨3, 0, -2⟩) = 0 ∧
      0 < dot (⟨-4, 0, -2⟩ : Vector ℚ) (-⟨3, 0, -2⟩) :=
  (doContainsOrigin_false_keeps_two (⟨1, 0, 2⟩ : Vector ℚ) ⟨0, 0, 2⟩ ⟨3, 0, -2⟩
    ⟨0, 0, -1⟩).2 _ _ (corner_three _)

/-- C19 (counterexample): the claim asks that the perpendicular of edge `ab` points away
from the third vertex, `dot abPerp (c - a) ≤ 0`, also when `c` is discarded.  The source
tests `dot abPerp c`, the product with the position of `c`, not with `c - a`.  In the
third pass of `GJK` on two triangles that share the corner `(-1, 0, 0)` the simplex is
`[b, c, a] = [(1,0,2), (0,0,2), (3,0,-2)]`, a non-degenerate triangle; the call discards
`c` and sets the direction `(-4, 0, -2)`, which has the product `4 > 0` with `c - a`. -/
theorem doContainsOrigin_perp_toward_third_vertex :
    (∀ fuel, GJK (fuel + 3) (cornerLeft : List (Vector ℚ)) cornerRight [] =
        GJKLoop cornerLeft cornerRight [] (fuel + 1) [⟨1, 0, 2⟩, ⟨0, 0, 2⟩] ⟨0, 0, -1⟩) ∧
      support (cornerLeft : List (Vector ℚ)) cornerRight ⟨0, 0, -1⟩ = .ok ⟨3, 0, -2⟩ ∧
      sideOfLine (⟨1, 0, 2⟩ : Vector ℚ) ⟨0, 0, 2⟩ ⟨3, 0, -2⟩ ≠ 0 ∧
      doContainsOrigin [(⟨1, 0, 2⟩ : Vector ℚ), ⟨0, 0, 2⟩, ⟨3, 0, -2⟩] ⟨0, 0, -1⟩ =
        .ok (false, [⟨1, 0, 2⟩, ⟨3, 0, -2⟩], ⟨-4, 0, -2⟩) ∧
      dot (⟨-4, 0, -2⟩ : Vector ℚ) (⟨0, 0, 2⟩ - ⟨3, 0, -2⟩) = 4 :=
  ⟨fun fuel => corner_gjk fuel [], corner_support, by norm_num [sideOfLine, cross2],
    corner_three _, by norm_num [dot_def]⟩

/-- C19 (amended): the three-point case orients the perpendicular of edge `ab` against
the position of the third vertex, `dot abPerp c ≤ 0`, and the perpendicular of edge `ac`
against the position of `b`, `dot acPerp b ≤ 0`; these are the directions it hands back.
When `c` is discarded the new direction `d = abPerp` satisfies `dot d c ≤ 0` and
`dot d a = dot d b < 0`: the three vertices lie in a half-plane whose border passes
through the origin, with `a` and `b` strictly inside. -/
theorem doContainsOrigin_perp_against_position (b c a d : Vector K) :
    doContainsOrigin [b, c, a] d =
        (if dot (orientedPerp (b - a) c) (-a) > 0 then
          .ok (false, [b, a], orientedPerp (b - a) c)
        else if dot (orientedPerp (c - a) b) (-a) ≤ 0 then .ok (true, [b, c, a], d)
        else .ok (false, [c, a], orientedPerp (c - a) b)) ∧
      dot (orientedPerp (b - a) c) c ≤ 0 ∧ dot (orientedPerp (c - a) b) b ≤ 0 ∧
      (dot (orientedPerp (b - a) c) (-a) > 0 →
        doContainsOrigin [b, c, a] d = .ok (false, [b, a], orientedPerp (b - a) c) ∧
        dot (orientedPerp (b - a) c) a < 0 ∧ dot (orientedPerp (b - a) c) b < 0) := by
  refine ⟨doContainsOrigin_oriented b c a d, orientedPerp_third _ _, orientedPerp_third _ _, ?_⟩
  intro h
  have ha : dot (orientedPerp (b - a) c) a < 0 := by
    rw [dot_neg_right] at h; linarith
  refine ⟨?_, ha, ?_⟩
  · rw [doContainsOrigin_oriented, if_pos h]
  · rw [orientedPerp_edge]; exact ha

/-- Witness of C19 (amended): the triangle `[(1,0,2), (0,0,2), (3,0,-2)]`, where `c` is
discarded and the direction is `(-4,0,-2)`. -/
theorem doContainsOrigin_perp_against_position_witness :
    doContainsOrigin [(⟨1, 0, 2⟩ : Vector ℚ), ⟨0, 0, 2⟩, ⟨3, 0, -2⟩] ⟨0, 0, -1⟩ =
        .ok (false, [⟨1, 0, 2⟩, ⟨3, 0, -2⟩],
          orientedPerp ((⟨1, 0, 2⟩ : Vector ℚ) - ⟨3, 0, -2⟩) ⟨0, 0, 2⟩) ∧
      dot (orientedPerp ((⟨1, 0, 2⟩ : Vector ℚ) - ⟨3, 0, -2⟩) ⟨0, 0, 2⟩) ⟨3, 0, -2⟩ < 0 ∧
      dot (orientedPerp ((⟨1, 0, 2⟩ : Vector ℚ) - ⟨3, 0, -2⟩) ⟨0, 0, 2⟩) ⟨1, 0, 2⟩ < 0 :=
  (doContainsOrigin_perp_against_position (⟨1, 0, 2⟩ : Vector ℚ) ⟨0, 0, 2⟩ ⟨3, 0, -2⟩
    ⟨0, 0, -1⟩).2.2.2 (by norm_num [orientedPerp, perp, dot_def])

/-- C22: at the start of every pass of the loop of `GJK` the working simplex holds one
point (first pass) or two points (later passes), and after the push of the new support
point two or three: never more than 3; every point of it is a difference `a - b` of a
vertex of A and a vertex of B; every call of `doContainsOrigin` after the first receives
exactly 3 points; and a simplex returned with `true` has exactly 3 points, all of them
vertex differences.  The pair `state` is any pair `(simplex, direction)` that the loop
reaches after `n` passes; that `GJK` continues from it is part of the statement. -/
theorem GJK_simplex_has_at_most_three_points (shapeA shapeB s0 : List (Vector K)) (n : Nat)
    (state : List (Vector K) × Vector K) (h : GJKState shapeA shapeB n state) :
    (∀ fuel, GJK (fuel + n) shapeA shapeB s0 =
        GJKLoop shapeA shapeB s0 fuel state.1 state.2) ∧
      state.1.length = (if n = 0 then 1 else 2) ∧
      (∀ v ∈ state.1, ∃ a ∈ shapeA, ∃ b ∈ shapeB, v = a - b) ∧
      (∀ p, support shapeA shapeB state.2 = .ok p →
        (state.1 ++ [p]).length ≤ 3 ∧ (0 < n → (state.1 ++ [p]).length = 3) ∧
        ∀ v ∈ state.1 ++ [p], ∃ a ∈ shapeA, ∃ b ∈ shapeB, v = a - b) ∧
      ∀ fuel s, GJK fuel shapeA shapeB s0 = .ok (true, s) →
        s.length = 3 ∧ ∀ v ∈ s, ∃ a ∈ shapeA, ∃ b ∈ shapeB, v = a - b := by
  obtain ⟨hlen, hmem⟩ := GJKState_shape h
  refine ⟨GJK_reaches s0 h, hlen, fun v hv => mem_minkowskiDifference.1 (hmem v hv), ?_, ?_⟩
  · intro p hp
    refine ⟨?_, ?_, ?_⟩
    · rw [List.length_append, hlen]
      split_ifs <;> simp
    · intro hn
      rw [List.length_append, hlen, if_neg (by omega)]
      rfl
    · intro v hv
      rcases List.mem_append.1 hv with hv | hv
      · exact mem_minkowskiDifference.1 (hmem v hv)
      · simp at hv
        rw [hv]
        exact mem_minkowskiDifference.1 (support_mem hp)
  · intro fuel s hs
    exact ⟨GJK_true_length hs, fun v hv => mem_minkowskiDifference.1 (GJK_true_mem hs v hv)⟩

/-- Witness of C22: the unit square against its copy moved by `1/2` along `x`, at the
start of the second pass. -/
theorem GJK_simplex_has_at_most_three_points_witness :
    GJKState (unitSquare : List (Vector ℚ)) (squareT (1 / 2)) 1
        ([⟨1 / 2, 0, 1⟩, ⟨-3 / 2, 0, -1⟩], ⟨2, 0, -2⟩) ∧
      GJK 2 (unitSquare : List (Vector ℚ)) (squareT (1 / 2)) [] =
        .ok (true, [⟨1 / 2, 0, 1⟩, ⟨-3 / 2, 0, -1⟩, ⟨1 / 2, 0, -1⟩]) ∧
      ∀ p, support (unitSquare : List (Vector ℚ)) (squareT (1 / 2)) ⟨2, 0, -2⟩ = .ok p →
        ([(⟨1 / 2, 0, 1⟩ : Vector ℚ), ⟨-3 / 2, 0, -1⟩] ++ [p]).length = 3 := by
  have hst : GJKState (unitSquare : List (Vector ℚ)) (squareT (1 / 2)) 1
      ([⟨1 / 2, 0, 1⟩, ⟨-3 / 2, 0, -1⟩], ⟨2, 0, -2⟩) := by
    have h0 : GJKState (unitSquare : List (Vector ℚ)) (squareT (1 / 2)) 0 _ :=
      GJKState.first _ (overlap_s0 (1 / 2 : ℚ))
    refine GJKState.next 0 _ _ h0 ?_
    unfold GJKPass
    simp only
    rw [overlap_s1]
    norm_num [doContainsOrigin, perp]
  have hg : GJK 2 (unitSquare : List (Vector ℚ)) (squareT (1 / 2)) [] =
      .ok (true, [⟨1 / 2, 0, 1⟩, ⟨-3 / 2, 0, -1⟩, ⟨1 / 2, 0, -1⟩]) := by
    rw [overlap_gjk (1 / 2 : ℚ) (by norm_num) (by norm_num) 0 []]
    norm_num
  exact ⟨hst, hg, fun p hp =>
    ((GJK_simplex_has_at_most_three_points unitSquare (squareT (1 / 2)) [] 1 _ hst).2.2.2.1
      p hp).2.1 (by norm_num)⟩

/-- C23: there are non-empty planar shapes on which `intersect` never returns.  The
triangle `touchTriangle` and the segment `touchSegment` (a shape of zero area) share the
corner `(-2, 0, 0)`.  `GJK` answers `true` after two passes with the simplex
`(1,0,1), (1,0,-1), (-2,0,2)`, whose edge from `(1,0,-1)` to `(-2,0,2)` passes through
the origin.  From then on `EPA` inserts `(1,0,1)` and `(3,0,-3)` in turn, the polygon
grows by one point per pass, and the tolerance is never met: whatever the number of
passes allowed, `EPA` and `intersect` use them all. -/
theorem intersect_never_returns_on_touching_shapes (sqrt : K → K) (hs : IsSqrt sqrt) :
    (touchTriangle : List (Vector K)) ≠ [] ∧ (touchSegment : List (Vector K)) ≠ [] ∧
      Planar (touchTriangle : List (Vector K)) ∧ Planar (touchSegment : List (Vector K)) ∧
      (∀ fuel s0, GJK (fuel + 2) (touchTriangle : List (Vector K)) touchSegment s0 =
        .ok (true, [⟨1, 0, 1⟩, ⟨1, 0, -1⟩, ⟨-2, 0, 2⟩])) ∧
      (∀ fuel, EPA sqrt (touchTriangle : List (Vector K)) touchSegment fuel
        [⟨1, 0, 1⟩, ⟨1, 0, -1⟩, ⟨-2, 0, 2⟩] = .error .outOfFuel) ∧
      ∀ fuel rd rv, intersect sqrt fuel rd rv (touchTriangle : List (Vector K)) touchSegment =
        .error .outOfFuel := by
  refine ⟨by simp [touchTriangle], by simp [touchSegment], ?_, ?_, touch_gjk,
    touch_epa_simplex hs, fun fuel rd rv => touch_intersect sqrt hs fuel rd rv⟩
  · intro v hv
    simp [touchTriangle] at hv
    rcases hv with rfl | rfl | rfl <;> rfl
  · intro v hv
    simp [touchSegment] at hv
    rcases hv with rfl | rfl <;> rfl

/-- Witness of C23: the real numbers with their square root, and a thousand passes. -/
theorem intersect_never_returns_on_touching_shapes_witness :
    intersect Real.sqrt 1000 0 0 (touchTriangle : List (Vector ℝ)) touchSegment =
      .error .outOfFuel :=
  (intersect_never_returns_on_touching_shapes Real.sqrt isSqrt_real).2.2.2.2.2.2 1000 0 0

end GJK_EPA

/-! ## The planner: lemmas and claims -/

namespace AStarPlanner

variable {K P : Type} [LinearOrderedField K]

/-- The walk back from the goal node puts its locations in front of what `agent_path`
held before. -/
theorem tracePath_append (db : GridDatabase2D K P) :
    ∀ (n : SearchNode K) (path : List P), tracePath db n path = tracePath db n [] ++ path
  | .mk i _ _ none, path => by simp [tracePath]
  | .mk i _ _ (some p), path => by
    rw [tracePath, tracePath, tracePath_append db p (_ :: path), tracePath_append db p [_]]
    simp

theorem tracePath_ne_nil (db : GridDatabase2D K P) :
    ∀ (n : SearchNode K) (path : List P), tracePath db n path ≠ []
  | .mk i _ _ none, path => by simp [tracePath]
  | .mk i _ _ (some p), path => by
    rw [tracePath]; exact tracePath_ne_nil db p _

/-- A successful call leaves the computed waypoints followed by the previous contents of
`agent_path`, whatever the value of `append_to_path`. -/
theorem computePath_prepends (db : GridDatabase2D K P) (distanceBetween : P → P → K)
    (fuel : Nat) (agent_path : List P) (start goal : P) (append_to_path : Bool)
    (path2 : List P)
    (h : computePath db distanceBetween fuel agent_path start goal append_to_path =
      .ok (true, path2)) :
    ∃ waypoints, waypoints ≠ [] ∧
      computePath db distanceBetween fuel [] start goal false = .ok (true, waypoints) ∧
      path2 = waypoints ++ agent_path := by
  unfold computePath at h ⊢
  simp only at h ⊢
  cases hs : searchLoop db distanceBetween goal (db.getCellIndexFromLocation goal) fuel
      [SearchNode.mk (toUnsigned (db.getCellIndexFromLocation start)) 0 0 none] [] with
  | error f => rw [hs] at h; simp at h
  | ok r =>
    rw [hs] at h
    cases r with
    | none => simp at h
    | some goalNode =>
      simp at h
      exact ⟨tracePath db goalNode [], tracePath_ne_nil db goalNode [], rfl,
        by rw [← h, tracePath_append]⟩

/-- C15 (failing input): the header documents `append_to_path` as "an optional argument
to append to agent_path instead of overwriting it", but the body of `computePath` never
reads it: both values give the same result, and the waypoints are inserted in front of
the previous contents.  On a 5 by 5 grid without obstacles, with start and goal in cell
`(2, 2)` and `agent_path = [(0, 0)]` before the call, the path afterwards is
`[(2, 2), (0, 0)]` for `false` (documented: `[(2, 2)]`) and for `true` (documented:
`[(0, 0), (2, 2)]`). -/
theorem computePath_never_reads_append_to_path :
    (∀ (db : GridDatabase2D ℚ (Int × Int)) (distanceBetween : Int × Int → Int × Int → ℚ)
        (fuel : Nat) (agent_path : List (Int × Int)) (start goal : Int × Int),
        computePath db distanceBetween fuel agent_path start goal true =
          computePath db distanceBetween fuel agent_path start goal false) ∧
      ∀ distanceBetween : Int × Int → Int × Int → ℚ,
        computePath (lattice 5) distanceBetween 1 [(0, 0)] (2, 2) (2, 2) false =
            .ok (true, [(2, 2), (0, 0)]) ∧
          computePath (lattice 5) distanceBetween 1 [(0, 0)] (2, 2) (2, 2) true =
            .ok (true, [(2, 2), (0, 0)]) :=
  ⟨fun _ _ _ _ _ _ => rfl, fun _ => ⟨rfl, rfl⟩⟩

theorem foldl_box (f : K → Int × Int → K) (xs zs : List Int) :
    ∀ acc : K, (xs.flatMap (fun i => zs.map (fun j => (i, j)))).foldl f acc =
      xs.foldl (fun cost i => zs.foldl (fun cost2 j => f cost2 (i, j)) cost) acc := by
  induction xs with
  | nil => intro acc; rfl
  | cons i rest ih =>
    intro acc
    rw [List.flatMap_cons, List.foldl_append, List.foldl_map, List.foldl_cons, ih]

/-- `canBeTraversed` adds up the traversal costs of the cells of its clearance box. -/
theorem canBeTraversed_box (db : GridDatabase2D K P) (id : Int) :
    canBeTraversed db id =
      if (clearanceBox db id).foldl
          (fun cost ij => cost + db.getTraversalCost (db.getCellIndexFromGridCoords ij.1 ij.2))
          0 > 1000
      then false else true := by
  unfold canBeTraversed clearanceBox
  simp only
  rw [foldl_box]

theorem index_mk (i : Nat) (g h : K) (p : Option (SearchNode K)) :
    (SearchNode.mk i g h p).index = i := rfl

/-- C25 (failing input): `canBeTraversed` adds up the traversal costs of the cells at the
coordinate pairs of `clearanceBox`, and that box is not clipped to the grid.  `x` and `z`
are `unsigned int`, so for `x = 0` the expression `MAX(x - 1, 0)` is `4294967295`, stored
in an `int` as `-1`; and `MIN(x + 1, numCellsX)` with the loop test `i <= x_range_max`
reaches `numCellsX`.  On a 5 by 5 grid, for the corner cell `(0, 0)` (index 0) the box
holds `(-1, -1)`, and for the corner cell `(4, 4)` (index 24) it holds `(5, 5)`. -/
theorem canBeTraversed_box_leaves_grid :
    (∀ (db : GridDatabase2D ℚ (Int × Int)) (id : Int),
        canBeTraversed db id =
          if (clearanceBox db id).foldl
              (fun cost ij =>
                cost + db.getTraversalCost (db.getCellIndexFromGridCoords ij.1 ij.2)) 0 > 1000
          then false else true) ∧
      (lattice 5).getGridCoordinatesFromIndex 0 = (0, 0) ∧
      clearanceBox (lattice 5) 0 =
        [(-1, -1), (-1, 0), (-1, 1), (0, -1), (0, 0), (0, 1), (1, -1), (1, 0), (1, 1)] ∧
      (lattice 5).getGridCoordinatesFromIndex 24 = (4, 4) ∧
      clearanceBox (lattice 5) 24 =
        [(3, 3), (3, 4), (3, 5), (4, 3), (4, 4), (4, 5), (5, 3), (5, 4), (5, 5)] :=
  ⟨fun db id => canBeTraversed_box db id, by decide, by decide, by decide, by decide⟩

end AStarPlanner

end SteerLib

/-! ## Curves: lemmas and claims -/

namespace Util

namespace Curve

open SteerLib

variable {K : Type} [LinearOrderedField K]

theorem eraseLoop_spec :
    ∀ (pre rest : List (CurvePoint K)), rest ≠ [] →
      (pre ++ rest).Pairwise (fun a b => a.time ≤ b.time) →
      rest.Pairwise (fun a b => a.time < b.time) →
      ∃ r, eraseLoop pre.length (pre ++ rest) = .ok r ∧
        r.Pairwise (fun a b => a.time < b.time) ∧
        (∀ p ∈ r, p ∈ pre ++ rest) ∧
        ∀ p ∈ pre ++ rest, ∃ q ∈ r, q.time = p.time := by
  intro pre
  induction pre using List.reverseRecOn with
  | nil =>
    intro rest _ _ hstrict
    exact ⟨rest, by simp [eraseLoop], hstrict, fun p hp => by simpa using hp,
      fun p hp => ⟨p, by simpa using hp, rfl⟩⟩
  | append_singleton pre b ih =>
    intro rest hne hsorted hstrict
    cases rest with
    | nil => exact absurd rfl hne
    | cons a suf =>
      have hlen : (pre ++ [b]).length = pre.length + 1 := by simp
      have hga : (pre ++ [b] ++ a :: suf).get? (pre.length + 1) = some a := by
        rw [List.get?_eq_getElem?, List.getElem?_append_right (by simp)]
        simp
      have hgb : (pre ++ [b] ++ a :: suf).get? pre.length = some b := by
        rw [List.get?_eq_getElem?, List.append_assoc,
          List.getElem?_append_right (le_refl _)]
        simp
      rw [hlen, eraseLoop, hga, hgb]
      simp only
      have hsplit : pre ++ [b] ++ a :: suf = pre ++ b :: a :: suf := by simp
      have hba : b.time ≤ a.time := by
        rw [hsplit] at hsorted
        have := (List.pairwise_append.1 hsorted).2.1
        exact (List.pairwise_cons.1 this).1 a (by simp)
      by_cases heq : a.time = b.time
      · rw [if_pos heq]
        have herase : (pre ++ [b] ++ a :: suf).eraseIdx (pre.length + 1) = pre ++ b :: suf := by
          rw [hsplit, List.eraseIdx_append_of_length_le (by omega)]
          simp
        rw [herase]
        have hsub : (pre ++ b :: suf).Sublist (pre ++ b :: a :: suf) :=
          List.Sublist.append_left (List.Sublist.cons₂ b (List.sublist_cons_self a suf)) pre
        obtain ⟨r, hr, hrs, hrm, hrt⟩ := ih (b :: suf) (by simp)
          (List.Pairwise.sublist hsub (by rw [← hsplit]; exact hsorted))
          (by
            rw [List.pairwise_cons] at hstrict ⊢
            exact ⟨fun x hx => by rw [← heq]; exact hstrict.1 x hx, hstrict.2⟩)
        refine ⟨r, hr, hrs, ?_, ?_⟩
        · intro p hp
          rw [hsplit]
          exact hsub.subset (hrm p hp)
        · intro p hp
          rw [hsplit] at hp
          simp only [List.mem_append, List.mem_cons] at hp
          rcases hp with hp | hp | hp | hp
          · exact hrt p (by simp [hp])
          · exact hrt p (by simp [hp])
          · obtain ⟨q, hq, hqt⟩ := hrt b (by simp)
            exact ⟨q, hq, by rw [hqt, hp, heq]⟩
          · exact hrt p (by simp [hp])
      · rw [if_neg heq]
        have hlt : b.time < a.time := lt_of_le_of_ne hba (Ne.symm heq)
        rw [hsplit]
        obtain ⟨r, hr, hrs, hrm, hrt⟩ := ih (b :: a :: suf) (by simp)
          (by rw [← hsplit]; exact hsorted)
          (by
            rw [List.pairwise_cons]
            refine ⟨?_, hstrict⟩
            intro x hx
            rcases List.mem_cons.1 hx with hx | hx
            · rw [hx]; exact hlt
            · exact lt_trans hlt ((List.pairwise_cons.1 hstrict).1 x hx))
        exact ⟨r, hr, hrs, hrm, hrt⟩

/-- The loop of `sortControlPoints` on a vector sorted by time. -/
theorem eraseLoop_sorted (l : List (CurvePoint K))
    (hsorted : l.Pairwise (fun a b => a.time ≤ b.time)) :
    ∃ r, eraseLoop (l.length - 1) l = .ok r ∧
      r.Pairwise (fun a b => a.time < b.time) ∧
      (∀ p ∈ r, p ∈ l) ∧ ∀ p ∈ l, ∃ q ∈ r, q.time = p.time := by
  rcases List.eq_nil_or_concat l with h | ⟨pre, b, h⟩
  · subst h
    exact ⟨[], by simp [eraseLoop], List.Pairwise.nil, fun p hp => hp,
      fun p hp => absurd hp (List.not_mem_nil p)⟩
  · subst h
    rw [List.concat_eq_append] at hsorted ⊢
    have hlen : (pre ++ [b]).length - 1 = pre.length := by simp
    rw [hlen]
    exact eraseLoop_spec pre [b] (by simp) hsorted (List.pairwise_singleton _ _)

theorem sortControlPoints_spec {sort : List (CurvePoint K) → List (CurvePoint K)}
    (hsort : IsSort sort) (c : Curve K) :
    ∃ r, sortControlPoints sort c = .ok r ∧ r.type = c.type ∧
      r.controlPoints.Pairwise (fun a b => a.time < b.time) ∧
      (∀ p ∈ r.controlPoints, p ∈ c.controlPoints) ∧
      ∀ t, t ∈ r.controlPoints.map CurvePoint.time ↔ t ∈ c.controlPoints.map CurvePoint.time := by
  obtain ⟨hperm, hpw⟩ := hsort c.controlPoints
  have hsorted : (sort c.controlPoints).Pairwise (fun a b => a.time ≤ b.time) := by
    refine List.Pairwise.imp ?_ hpw
    intro a b hab
    simp only [MyPointSortPredicate, decide_eq_false_iff_not, not_lt] at hab
    exact hab
  obtain ⟨r, hr, hrs, hrm, hrt⟩ := eraseLoop_sorted _ hsorted
  refine ⟨⟨r, c.type⟩, by simp [sortControlPoints, hr], rfl, hrs,
    fun p hp => hperm.subset (hrm p hp), ?_⟩
  intro t
  simp only [List.mem_map]
  constructor
  · rintro ⟨p, hp, rfl⟩
    exact ⟨p, hperm.subset (hrm p hp), rfl⟩
  · rintro ⟨p, hp, rfl⟩
    obtain ⟨q, hq, hqt⟩ := hrt p (hperm.symm.subset hp)
    exact ⟨q, hq, hqt⟩

theorem insertByTime_perm (p : CurvePoint K) :
    ∀ l : List (CurvePoint K), (insertByTime p l).Perm (p :: l) := by
  intro l
  induction l with
  | nil => simp [insertByTime]
  | cons q rest ih =>
    simp only [insertByTime]
    split_ifs
    · exact List.Perm.refl _
    · exact (List.Perm.cons q ih).trans (List.Perm.swap p q rest)

theorem insertByTime_sorted (p : CurvePoint K) :
    ∀ l : List (CurvePoint K), l.Pairwise (fun a b => a.time ≤ b.time) →
      (insertByTime p l).Pairwise (fun a b => a.time ≤ b.time) := by
  intro l
  induction l with
  | nil => intro _; simp [insertByTime]
  | cons q rest ih =>
    intro h
    simp only [insertByTime]
    split_ifs with hle
    · rw [List.pairwise_cons]
      refine ⟨?_, h⟩
      intro x hx
      rcases List.mem_cons.1 hx with hx | hx
      · rw [hx]; exact hle
      · exact le_trans hle ((List.pairwise_cons.1 h).1 x hx)
    · rw [List.pairwise_cons] at h ⊢
      refine ⟨?_, ih h.2⟩
      intro x hx
      rcases List.mem_cons.1 ((insertByTime_perm p rest).subset hx) with hx | hx
      · rw [hx]; exact le_of_lt (not_le.1 hle)
      · exact h.1 x hx

theorem isSort_sortByTime : IsSort (sortByTime : List (CurvePoint K) → List (CurvePoint K)) := by
  intro l
  induction l with
  | nil => simp [sortByTime]
  | cons p rest ih =>
    have hs : (sortByTime rest).Pairwise (fun a b => a.time ≤ b.time) := by
      refine List.Pairwise.imp ?_ ih.2
      intro a b hab
      simp only [MyPointSortPredicate, decide_eq_false_iff_not, not_lt] at hab
      exact hab
    constructor
    · exact (insertByTime_perm p _).trans (List.Perm.cons p ih.1)
    · refine List.Pairwise.imp ?_ (insertByTime_sorted p _ hs)
      intro a b hab
      simp only [MyPointSortPredicate, decide_eq_false_iff_not, not_lt]
      exact hab

theorem pointAt_of_lt (c : Curve K) {i : Nat} (hi : i < c.controlPoints.length) :
    pointAt c i = .ok (c.controlPoints.get ⟨i, hi⟩) := by
  unfold pointAt
  rw [List.get?_eq_get hi]

theorem pointAt_ok {c : Curve K} {i : Nat} {p : CurvePoint K} (h : pointAt c i = .ok p) :
    c.controlPoints.get? i = some p := by
  unfold pointAt at h
  cases hg : c.controlPoints.get? i with
  | none => rw [hg] at h; simp at h
  | some q => rw [hg] at h; simp at h; rw [h]

theorem pointAt_error {c : Curve K} {i : Nat} (hi : c.controlPoints.length ≤ i) :
    pointAt c i = .error .outOfRange := by
  unfold pointAt
  rw [List.get?_eq_none.2 hi]

theorem wrap_pred {k : Nat} (h1 : 1 ≤ k) (h2 : k < 4294967296) :
    (k + 4294967296 - 1) % 4294967296 = k - 1 := by omega

theorem wrap_pred2 {k : Nat} (h1 : 2 ≤ k) (h2 : k < 4294967296) :
    (k + 4294967296 - 2) % 4294967296 = k - 2 := by omega

theorem hermite_at {c : Curve K} {k : Nat} {previous next : CurvePoint K}
    (hp : pointAt c ((k + 4294967296 - 1) % 4294967296) = .ok previous)
    (hn : pointAt c k = .ok next) (time : K) :
    useHermiteCurve c k time =
      .ok ⟨(2 * ((time - previous.time) / (next.time - previous.time)) ^ 3 -
            3 * ((time - previous.time) / (next.time - previous.time)) ^ 2 + 1) *
            previous.position.x +
          (-2 * ((time - previous.time) / (next.time - previous.time)) ^ 3 +
            3 * ((time - previous.time) / (next.time - previous.time)) ^ 2) *
            next.position.x +
          (((time - previous.time) / (next.time - previous.time)) ^ 3 -
            2 * ((time - previous.time) / (next.time - previous.time)) ^ 2 +
            (time - previous.time) / (next.time - previous.time)) *
            (next.time - previous.time) * previous.tangent.x +
          (((time - previous.time) / (next.time - previous.time)) ^ 3 -
            ((time - previous.time) / (next.time - previous.time)) ^ 2) *
            (next.time - previous.time) * next.tangent.x,
        (2 * ((time - previous.time) / (next.time - previous.time)) ^ 3 -
            3 * ((time - previous.time) / (next.time - previous.time)) ^ 2 + 1) *
            previous.position.y +
          (-2 * ((time - previous.time) / (next.time - previous.time)) ^ 3 +
            3 * ((time - previous.time) / (next.time - previous.time)) ^ 2) *
            next.position.y +
          (((time - previous.time) / (next.time - previous.time)) ^ 3 -
            2 * ((time - previous.time) / (next.time - previous.time)) ^ 2 +
            (time - previous.time) / (next.time - previous.time)) *
            (next.time - previous.time) * previous.tangent.y +
          (((time - previous.time) / (next.time - previous.time)) ^ 3 -
            ((time - previous.time) / (next.time - previous.time)) ^ 2) *
            (next.time - previous.time) * next.tangent.y,
        (2 * ((time - previous.time) / (next.time - previous.time)) ^ 3 -
            3 * ((time - previous.time) / (next.time - previous.time)) ^ 2 + 1) *
            previous.position.z +
          (-2 * ((time - previous.time) / (next.time - previous.time)) ^ 3 +
            3 * ((time - previous.time) / (next.time - previous.time)) ^ 2) *
            next.position.z +
          (((time - previous.time) / (next.time - previous.time)) ^ 3 -
            2 * ((time - previous.time) / (next.time - previous.time)) ^ 2 +
            (time - previous.time) / (next.time - previous.time)) *
            (next.time - previous.time) * previous.tangent.z +
          (((time - previous.time) / (next.time - previous.time)) ^ 3 -
            ((time - previous.time) / (next.time - previous.time)) ^ 2) *
            (next.time - previous.time) * next.tangent.z⟩ := by
  simp only [useHermiteCurve, hp, hn]

/-- With its neighbours in range, `useCatmullCurve` is the blend of the two ends of the
segment with two tangents that do not depend on the time. -/
theorem catmull_at {c : Curve K} {k : Nat} (h1 : 1 ≤ k) (hk : k < c.controlPoints.length)
    (h3 : 3 ≤ c.controlPoints.length) (hsize : c.controlPoints.length < 4294967296)
    {previous next : CurvePoint K}
    (hp : pointAt c (k - 1) = .ok previous) (hn : pointAt c k = .ok next) :
    ∃ one two : (Point K → K) → K, ∀ time,
      useCatmullCurve c k time = .ok (catmullPoint previous next time one two) := by
  have hw1 : (k + 4294967296 - 1) % 4294967296 = k - 1 := wrap_pred h1 (by omega)
  have hlast : (c.controlPoints.length + 18446744073709551616 - 1) % 18446744073709551616 =
      c.controlPoints.length - 1 := by omega
  by_cases c1 : k = 1
  · subst c1
    refine ⟨?_, ?_, fun time => ?_⟩
    rotate_left 2
    simp only [useCatmullCurve]
    rw [hn, hw1, hp]
    simp only [if_true]
    rw [pointAt_of_lt c (show 2 < c.controlPoints.length by omega)]
    exact rfl
  · by_cases c2 : k = c.controlPoints.length - 1
    · refine ⟨?_, ?_, fun time => ?_⟩
      rotate_left 2
      simp only [useCatmullCurve]
      rw [hn, hw1, hp]
      simp only [if_neg c1, hlast, if_pos c2]
      rw [wrap_pred2 (show 2 ≤ k by omega) (by omega),
        pointAt_of_lt c (show k - 2 < c.controlPoints.length by omega)]
      exact rfl
    · refine ⟨?_, ?_, fun time => ?_⟩
      rotate_left 2
      simp only [useCatmullCurve]
      rw [hn, hw1, hp]
      simp only [if_neg c1, hlast, if_neg c2]
      rw [wrap_pred2 (show 2 ≤ k by omega) (by omega),
        pointAt_of_lt c (show k - 2 < c.controlPoints.length by omega),
        Nat.mod_eq_of_lt (show k + 1 < 4294967296 by omega),
        pointAt_of_lt c (show k + 1 < c.controlPoints.length by omega)]
      exact rfl

theorem timeScan_some {time : K} :
    ∀ (l : List (CurvePoint K)) (i j : Nat), timeScan time l i = some j →
      i ≤ j ∧ j - i < l.length ∧ (∃ p, l.get? (j - i) = some p ∧ time < p.time) ∧
        ∀ m p, m < j - i → l.get? m = some p → p.time ≤ time := by
  intro l
  induction l with
  | nil => intro i j h; simp [timeScan] at h
  | cons q rest ih =>
    intro i j h
    rw [timeScan] at h
    by_cases hq : q.time > time
    · rw [if_pos hq] at h
      simp at h
      subst h
      refine ⟨le_refl _, by simp, ⟨q, by simp, hq⟩, ?_⟩
      intro m p hm
      simp at hm
    · rw [if_neg hq] at h
      obtain ⟨h1, h2, ⟨p, hp, hpt⟩, h4⟩ := ih (i + 1) j h
      have hji : j - i = (j - (i + 1)) + 1 := by omega
      refine ⟨by omega, by rw [hji]; simp; omega, ⟨p, by rw [hji]; simpa using hp, hpt⟩, ?_⟩
      intro m p2 hm hp2
      cases m with
      | zero => simp at hp2; rw [← hp2]; exact not_lt.1 hq
      | succ m2 => exact h4 m2 p2 (by omega) (by simpa using hp2)

theorem timeScan_none {time : K} :
    ∀ (l : List (CurvePoint K)) (i : Nat), timeScan time l i = none →
      ∀ p ∈ l, p.time ≤ time := by
  intro l
  induction l with
  | nil => intro i _ p hp; simp at hp
  | cons q rest ih =>
    intro i h p hp
    rw [timeScan] at h
    by_cases hq : q.time > time
    · rw [if_pos hq] at h; simp at h
    · rw [if_neg hq] at h
      rcases List.mem_cons.1 hp with hp | hp
      · rw [hp]; exact not_lt.1 hq
      · exact ih (i + 1) h p hp

/-- For a time from the first control point on and below the last one,
`findTimeInterval` finds the segment that holds the time. -/
theorem findTimeInterval_inside {c : Curve K} {time : K} {first last : CurvePoint K}
    (hfirst : c.controlPoints.head? = some first) (hlast : c.controlPoints.getLast? = some last)
    (h0 : first.time ≤ time) (h1 : time < last.time) (entry : Option Nat) :
    ∃ k previous next, findTimeInterval c entry time = .ok (true, k) ∧ 1 ≤ k ∧
      k < c.controlPoints.length ∧ pointAt c (k - 1) = .ok previous ∧
      pointAt c k = .ok next ∧ previous.time ≤ time ∧ time < next.time := by
  cases hs : timeScan time c.controlPoints 0 with
  | none =>
    have := timeScan_none _ _ hs last (List.mem_of_mem_getLast? hlast)
    exact absurd h1 (not_lt.2 this)
  | some k =>
    obtain ⟨-, hk, ⟨next, hn, hnt⟩, hbefore⟩ := timeScan_some _ _ _ hs
    simp only [Nat.sub_zero] at hk hn hbefore
    have hk1 : 1 ≤ k := by
      by_contra hc
      have hk0 : k = 0 := by omega
      subst hk0
      have : c.controlPoints.get? 0 = some first := by
        rw [← hfirst]; cases c.controlPoints <;> simp
      rw [this] at hn
      simp at hn
      rw [hn] at h0
      exact absurd hnt (not_lt.2 h0)
    have hprev := pointAt_of_lt c (show k - 1 < c.controlPoints.length by omega)
    refine ⟨k, _, next, ?_, hk1, hk, hprev, ?_, ?_, hnt⟩
    · simp [findTimeInterval, hs, hk]
    · unfold pointAt; rw [hn]
    · exact hbefore (k - 1) _ (by omega) (List.get?_eq_get _)

/-- Inside the time range of a robust curve `calculatePoint` returns `true` with the
point of the segment that holds the time, and no access leaves the vector. -/
theorem calculatePoint_inside (hermiteCurve catmullCurve : Int) {c : Curve K} {time : K}
    {first last : CurvePoint K} (hrobust : checkRobust hermiteCurve catmullCurve c = true)
    (hsize : c.controlPoints.length < 4294967296)
    (hfirst : c.controlPoints.head? = some first) (hlast : c.controlPoints.getLast? = some last)
    (h0 : first.time ≤ time) (h1 : time < last.time) (outputPoint : Point K) :
    ∃ k previous next p, 1 ≤ k ∧ pointAt c (k - 1) = .ok previous ∧ pointAt c k = .ok next ∧
      previous.time ≤ time ∧ time < next.time ∧
      calculatePoint hermiteCurve catmullCurve c outputPoint time = .ok (true, p) ∧
      (c.type = hermiteCurve → useHermiteCurve c k time = .ok p) ∧
      (c.type ≠ hermiteCurve → useCatmullCurve c k time = .ok p) := by
  obtain ⟨k, previous, next, hfind, hk1, hk, hp, hn, hpt, hnt⟩ :=
    findTimeInterval_inside hfirst hlast h0 h1 none
  have hw : (k + 4294967296 - 1) % 4294967296 = k - 1 := wrap_pred hk1 (by omega)
  by_cases hh : c.type = hermiteCurve
  · have hval := hermite_at (by rw [hw]; exact hp) hn time
    refine ⟨k, previous, next, _, hk1, hp, hn, hpt, hnt, ?_, fun _ => hval,
      fun h => absurd hh h⟩
    simp only [calculatePoint, hrobust, hfind, if_pos hh, hval]
    simp
  · have hcat : c.type = catmullCurve := by
      unfold checkRobust at hrobust
      rw [if_neg hh] at hrobust
      by_contra hc
      rw [if_neg hc] at hrobust
      simp at hrobust
    have h3 : 3 ≤ c.controlPoints.length := by
      unfold checkRobust at hrobust
      rw [if_neg hh, if_pos hcat] at hrobust
      by_contra hc
      rw [if_neg (by omega)] at hrobust
      simp at hrobust
    obtain ⟨one, two, hval⟩ := catmull_at hk1 hk h3 hsize hp hn
    refine ⟨k, previous, next, _, hk1, hp, hn, hpt, hnt, ?_, fun h => absurd h hh,
      fun _ => hval time⟩
    simp only [calculatePoint, hrobust, hfind, if_neg hh, if_pos hcat, hval time]
    simp

/-- C26 (failing input): the claim covers every time below the time of the last control
point.  For a time below the time of the first control point `findTimeInterval` returns
`true` with `nextPoint = 0`, and both `useHermiteCurve` and `useCatmullCurve` then read
`controlPoints.at(nextPoint - 1)`, which is `at(4294967295)` and throws.  Here: control
points at the times 0, 1 (Hermite) and 0, 1, 3 (Catmull-Rom), and the time `-1`. -/
theorem calculatePoint_before_first_point :
    ∀ (hermiteCurve catmullCurve : Int) (outputPoint : Point ℚ),
      checkRobust hermiteCurve catmullCurve (⟨twoPoints, hermiteCurve⟩ : Curve ℚ) = true ∧
      findTimeInterval (⟨twoPoints, hermiteCurve⟩ : Curve ℚ) none (-1) = .ok (true, 0) ∧
      calculatePoint hermiteCurve catmullCurve ⟨twoPoints, hermiteCurve⟩ outputPoint (-1) =
        .error .outOfRange ∧
      (catmullCurve ≠ hermiteCurve →
        checkRobust hermiteCurve catmullCurve (⟨threePoints, catmullCurve⟩ : Curve ℚ) = true ∧
        calculatePoint hermiteCurve catmullCurve ⟨threePoints, catmullCurve⟩ outputPoint (-1) =
          .error .outOfRange) := by
  intro hermiteCurve catmullCurve outputPoint
  have hf2 : findTimeInterval (⟨twoPoints, hermiteCurve⟩ : Curve ℚ) none (-1) = .ok (true, 0) := by
    simp [findTimeInterval, timeScan, twoPoints]
  have hr2 : checkRobust hermiteCurve catmullCurve (⟨twoPoints, hermiteCurve⟩ : Curve ℚ) = true := by
    simp [checkRobust, twoPoints]
  refine ⟨hr2, hf2, ?_, ?_⟩
  · have hu : useHermiteCurve (⟨twoPoints, hermiteCurve⟩ : Curve ℚ) 0 (-1) =
        .error .outOfRange := by
      simp [useHermiteCurve, pointAt, twoPoints]
    simp only [calculatePoint, hr2, hf2, hu]
    simp
  · intro hne
    have hf3 : findTimeInterval (⟨threePoints, catmullCurve⟩ : Curve ℚ) none (-1) =
        .ok (true, 0) := by
      simp [findTimeInterval, timeScan, threePoints]
    have hr3 : checkRobust hermiteCurve catmullCurve (⟨threePoints, catmullCurve⟩ : Curve ℚ) =
        true := by
      simp [checkRobust, threePoints, hne]
    have hu : useCatmullCurve (⟨threePoints, catmullCurve⟩ : Curve ℚ) 0 (-1) =
        .error .outOfRange := by
      simp [useCatmullCurve, pointAt, threePoints]
    refine ⟨hr3, ?_⟩
    simp only [calculatePoint, hr3, hf3, hu, if_neg hne]
    simp

/-- C27: after `sortControlPoints` the times of the control points are strictly
increasing, every point kept is one of the points before the call, and the times present
are the times present before the call.  The same holds after the constructor from a list,
after `addControlPoint` and after `addControlPoints`, for the points pushed before the
sort.  `std::sort` is any function that meets the standard. -/
theorem sortControlPoints_strictly_increasing
    (sort : List (CurvePoint K) → List (CurvePoint K)) (hsort : IsSort sort) (c : Curve K)
    (inputPoint : CurvePoint K) (inputPoints : List (CurvePoint K)) (curveType : Int) :
    (∃ r, sortControlPoints sort c = .ok r ∧
        r.controlPoints.Pairwise (fun a b => a.time < b.time) ∧
        (∀ p ∈ r.controlPoints, p ∈ c.controlPoints) ∧
        ∀ t, t ∈ r.controlPoints.map CurvePoint.time ↔
          t ∈ c.controlPoints.map CurvePoint.time) ∧
      (∃ r, ofPoints sort inputPoints curveType = .ok r ∧
        r.controlPoints.Pairwise (fun a b => a.time < b.time) ∧
        (∀ p ∈ r.controlPoints, p ∈ inputPoints) ∧
        ∀ t, t ∈ r.controlPoints.map CurvePoint.time ↔
          t ∈ inputPoints.map CurvePoint.time) ∧
      (∃ r, addControlPoint sort c inputPoint = .ok r ∧
        r.controlPoints.Pairwise (fun a b => a.time < b.time) ∧
        (∀ p ∈ r.controlPoints, p ∈ c.controlPoints ++ [inputPoint]) ∧
        ∀ t, t ∈ r.controlPoints.map CurvePoint.time ↔
          t ∈ (c.controlPoints ++ [inputPoint]).map CurvePoint.time) ∧
      (∃ r, addControlPoints sort c inputPoints = .ok r ∧
        r.controlPoints.Pairwise (fun a b => a.time < b.time) ∧
        (∀ p ∈ r.controlPoints, p ∈ c.controlPoints ++ inputPoints) ∧
        ∀ t, t ∈ r.controlPoints.map CurvePoint.time ↔
          t ∈ (c.controlPoints ++ inputPoints).map CurvePoint.time) := by
  refine ⟨?_, ?_, ?_, ?_⟩
  · obtain ⟨r, h1, -, h2, h3, h4⟩ := sortControlPoints_spec hsort c
    exact ⟨r, h1, h2, h3, h4⟩
  · obtain ⟨r, h1, -, h2, h3, h4⟩ := sortControlPoints_spec hsort ⟨inputPoints, curveType⟩
    exact ⟨r, h1, h2, h3, h4⟩
  · obtain ⟨r, h1, -, h2, h3, h4⟩ :=
      sortControlPoints_spec hsort ⟨c.controlPoints ++ [inputPoint], c.type⟩
    exact ⟨r, h1, h2, h3, h4⟩
  · obtain ⟨r, h1, -, h2, h3, h4⟩ :=
      sortControlPoints_spec hsort ⟨c.controlPoints ++ inputPoints, c.type⟩
    exact ⟨r, h1, h2, h3, h4⟩

/-- Witness of C27: four points with the times 2, 1, 0, 1, sorted by insertion. -/
theorem sortControlPoints_strictly_increasing_witness :
    ∃ r, sortControlPoints sortByTime (⟨fourPoints, 0⟩ : Curve ℚ) = .ok r ∧
      r.controlPoints.Pairwise (fun a b => a.time < b.time) ∧
      (∀ p ∈ r.controlPoints, p ∈ fourPoints) ∧
      ∀ t, t ∈ r.controlPoints.map CurvePoint.time ↔ t ∈ fourPoints.map CurvePoint.time :=
  (sortControlPoints_strictly_increasing sortByTime isSort_sortByTime ⟨fourPoints, 0⟩
    ⟨⟨0, 0, 0⟩, 0, 0⟩ [] 0).1

end Curve

end Util
